import Mathlib

/-!
# Five-stage RISC-V core simulator (`source code/core.c`)

Shallow embedding of the simulator core and its driving loop.

Conventions of the embedding.

* Every machine integer is a natural number holding its two's-complement bit
  pattern; conversions to a narrower unsigned type are written `% 2 ^ w`.
  `signal_t` and `register_t` are `int64_t` (core.h), the fields of the
  pipeline registers are `uint32_t` or `uint8_t` (pipeline_registers.h).
* A C function `void f(core_t *core, X *x)` becomes a function that takes the
  core and `x` and returns the updated core and `x`.
* Behaviour that C leaves undefined because it depends on the memory layout
  (an access outside `data_mem` or `reg_file`, a null `last` pointer) is the
  result `none`.
* Values that C leaves indeterminate but that the simulator keeps computing
  with (the local `imm` of `imm_gen` when no branch assigns it, the value
  received from `ALU_control_unit` when it ends without `return`) are taken
  from an explicit argument of type `indeterminate_t`.
-/

namespace RiscV

/-! ## core.h -/

/-- Size of data memory in bytes (`#define MEM_SIZE 1024`). -/
def MEM_SIZE : Nat := 1024

/-- Size of the register file (`#define NUM_REGISTERS 32`). -/
def NUM_REGISTERS : Nat := 32

/-- Forward selector value: operand comes from ID/EX. -/
def NO_FORWARDING : Nat := 0

/-- Forward selector value: operand comes from EX/MEM. -/
def FORWARD_FROM_EX_MEM : Nat := 1

/-- Forward selector value: operand comes from MEM/WB. -/
def FORWARD_FROM_MEM_WB : Nat := 2

/-- Modelled from the spec: `addr_t` is declared in instruction_memory.h, which is not among the
sources. The spec calls `program_counter` the byte address of the next instruction, starting
at 0 and advancing by 4; it is taken as an unbounded natural number, and every field of
type `addr_t` below (`PC` in the core and in IF/ID and ID/EX, `addr` in an instruction
record) is declared as `Nat`. -/
abbrev addr_t := Nat

/-- Modelled from the spec: `tick_t` is declared in instruction_memory.h, which is not among the
sources. The spec calls `clock` a monotonically increasing cycle counter starting at 0; it is
taken as an unbounded natural number, and the field `clk` of the core is declared as `Nat`. -/
abbrev tick_t := Nat

/-- The control signals (`control_signals_t`), each a `signal_t`. -/
structure control_signals_t where
  Branch : Nat
  MemRead : Nat
  MemtoReg : Nat
  ALUOp : Nat
  MemWrite : Nat
  ALUSrc : Nat
  RegWrite : Nat
deriving DecidableEq

/-- The compound literal `(control_signals_t){0}`. -/
def control_signals_zero : control_signals_t :=
  { Branch := 0, MemRead := 0, MemtoReg := 0, ALUOp := 0, MemWrite := 0, ALUSrc := 0,
    RegWrite := 0 }

/-! ## pipeline_registers.h -/

/-- IF/ID pipeline register (`uint32_t instruction; addr_t PC`). -/
structure IF_ID_t where
  instruction : Nat
  PC : Nat
deriving DecidableEq

/-- ID/EX pipeline register. -/
structure ID_EX_t where
  instruction : Nat
  PC : Nat
  rs1 : Nat
  rs2 : Nat
  imm : Nat
  rd : Nat
  funct3 : Nat
  funct7 : Nat
  control : control_signals_t
deriving DecidableEq

/-- EX/MEM pipeline register. -/
structure EX_MEM_t where
  alu_result : Nat
  rs2 : Nat
  rd : Nat
  zero : Nat
  control : control_signals_t
deriving DecidableEq

/-- MEM/WB pipeline register. -/
structure MEM_WB_t where
  data : Nat
  rd : Nat
  control : control_signals_t
  alu_result : Nat
deriving DecidableEq

/-! ## instruction memory -/

/-- Modelled from the spec: `instruction_t` is declared in instruction_memory.h, which is not
among the sources; the spec (section 6) and the uses in parser.c and core.c give it a 32-bit
encoded word and the address it was loaded at. -/
structure instruction_t where
  instruction : Nat
  addr : Nat
deriving DecidableEq

/-- Modelled from the spec: `instruction_memory_t` is declared in instruction_memory.h, which is
not among the sources; the spec (section 6) describes it as the ordered sequence of loaded
instruction records, and core.c uses its members `instructions` (the array) and `last` (a
pointer to the last loaded entry). The list holds the loaded entries `instructions[0] .. *last`,
so `last` is the final element and a null `last` is the empty list. The array bound
`IMEM_SIZE` is not modelled. -/
abbrev instruction_memory_t := List instruction_t

/-! ## the core -/

/-- The simulator state (`struct core_s`). The fields `inserted_NOP`, `flush_pipeline`,
`control` and the function pointer `tick` are never read or written by the functions below
and are left out. `data_mem` maps a byte address below `MEM_SIZE` to the byte stored there,
`reg_file` a register index below `NUM_REGISTERS` to the 64-bit pattern of the register. -/
structure core_t where
  clk : Nat
  PC : Nat
  instr_mem : instruction_memory_t
  data_mem : Nat → Nat
  reg_file : Nat → Nat
  halt : Bool
  stall : Nat
  if_id : IF_ID_t
  id_ex : ID_EX_t
  ex_mem : EX_MEM_t
  mem_wb : MEM_WB_t
  forwardA : Nat
  forwardB : Nat

/-- Values the C code leaves indeterminate: `imm` is the content of the uninitialised local
`imm` of `imm_gen`, `alu_ctrl` is what `execute` receives when `ALU_control_unit` reaches its
closing brace without a `return`. -/
structure indeterminate_t where
  imm : Nat
  alu_ctrl : Nat

/-- The loader's memory image for the encoded words `ws`: entry `i` has address `4 * i`
(parser.c, `load_instructions`: `addr = PC`, `PC += 4`). -/
def load_words : Nat → List Nat → instruction_memory_t
  | _, [] => []
  | pc, w :: ws => { instruction := w, addr := pc } :: load_words (pc + 4) ws

/-- Encoding of an R-type instruction as `parse_R_type` assembles it (opcode 51). -/
def parse_R_type (funct3 funct7 rd rs_1 rs_2 : Nat) : Nat :=
  (51 ||| (rd <<< 7) ||| (funct3 <<< 12) ||| (rs_1 <<< 15) ||| (rs_2 <<< 20)
    ||| (funct7 <<< 25)) % 2 ^ 32

/-- Encoding of an I-type instruction as `parse_I_type` assembles it. -/
def parse_I_type (opcode funct3 rd rs_1 immediate : Nat) : Nat :=
  (opcode ||| (rd <<< 7) ||| (funct3 <<< 12) ||| (rs_1 <<< 15) ||| (immediate <<< 20)) % 2 ^ 32

/-- State built by `init_core`. The fields `stall`, `forwardA` and `forwardB` are not assigned
by `init_core` (the struct comes from `malloc`), so their initial values are arguments. -/
def init_core (i_mem : instruction_memory_t) (stall forwardA forwardB : Nat) : core_t :=
  { clk := 0
    PC := 0
    instr_mem := i_mem
    data_mem := fun _ => 0
    reg_file := fun _ => 0
    halt := false
    stall := stall
    if_id := { instruction := 0, PC := 0 }
    id_ex := { instruction := 0, PC := 0, rs1 := 0, rs2 := 0, imm := 0, rd := 0, funct3 := 0,
               funct7 := 0, control := control_signals_zero }
    ex_mem := { alu_result := 0, rs2 := 0, rd := 0, zero := 0, control := control_signals_zero }
    mem_wb := { data := 0, rd := 0, control := control_signals_zero, alu_result := 0 }
    forwardA := forwardA
    forwardB := forwardB }

/-! ## combinational units -/

/-- Hazard detection (`hazard_detection_unit`): writes only `core->stall`. -/
def hazard_detection_unit (core : core_t) (if_id : IF_ID_t) (id_ex : ID_EX_t) : core_t :=
  let core := { core with stall := 0 }
  if id_ex.control.MemRead ≠ 0 then
    let rd := id_ex.rd
    let rs1 := (if_id.instruction >>> 15) &&& 0x1F
    let rs2 := (if_id.instruction >>> 20) &&& 0x1F
    if rd ≠ 0 ∧ (rd = rs1 ∨ rd = rs2) then
      { core with stall := 1 }
    else core
  else core

/-- Control decoder (`control_unit`): an opcode outside the five listed leaves `signals` as it
was. -/
def control_unit (input : Nat) (signals : control_signals_t) : control_signals_t :=
  if input = 51 then
    { ALUSrc := 0, MemtoReg := 0, RegWrite := 1, MemRead := 0, MemWrite := 0, Branch := 0,
      ALUOp := 2 }
  else if input = 3 then
    { ALUSrc := 1, MemtoReg := 1, RegWrite := 1, MemRead := 1, MemWrite := 0, Branch := 0,
      ALUOp := 0 }
  else if input = 35 then
    { ALUSrc := 1, MemtoReg := 0, RegWrite := 0, MemRead := 0, MemWrite := 1, Branch := 0,
      ALUOp := 0 }
  else if input = 99 then
    { ALUSrc := 0, MemtoReg := 0, RegWrite := 0, MemRead := 0, MemWrite := 0, Branch := 1,
      ALUOp := 1 }
  else if input = 19 then
    { ALUSrc := 1, MemtoReg := 0, RegWrite := 1, MemRead := 0, MemWrite := 0, Branch := 0,
      ALUOp := 0 }
  else signals

/-- ALU control (`ALU_control_unit`). The result is `none` when control leaves the `switch`
through `break` and reaches the end of the function without a `return`. -/
def ALU_control_unit (ALUOp Funct7 Funct3 : Nat) : Option Nat :=
  if ALUOp = 0 then
    if Funct3 = 1 then some 3 else some 2
  else if ALUOp = 1 then some 6
  else if ALUOp = 2 then
    if Funct7 = 0 ∧ Funct3 = 0 then some 2
    else if Funct7 = 32 ∧ Funct3 = 0 then some 6
    else if Funct7 = 0 ∧ Funct3 = 7 then some 0
    else if Funct7 = 0 ∧ Funct3 = 6 then some 1
    else if Funct7 = 0 ∧ Funct3 = 1 then some 3
    else none
  else some 0

/-- Arithmetic right shift of a 64-bit pattern (`>>` on `int64_t`). -/
def sar64 (x n : Nat) : Nat :=
  if x < 2 ^ 63 then x >>> n else (x >>> n) ||| (2 ^ 64 - 2 ^ (64 - n))

/-- Immediate generator (`imm_gen`). The result is `none` when no branch assigns the local
`imm`, whose indeterminate content is then returned. -/
def imm_gen (input : Nat) : Option Nat :=
  let opcode := input &&& 0x7F
  if opcode = 0x13 ∨ opcode = 0x03 ∨ opcode = 0x73 then
    let imm := (sar64 input 20) &&& 0xFFF
    if imm &&& 0x800 ≠ 0 then some (imm ||| 0xFFFFFFFFFFFFF000) else some imm
  else if opcode = 0x23 then
    let imm := ((sar64 input 25) &&& 0x7F) <<< 5
    let imm := imm ||| ((sar64 input 7) &&& 0x1F)
    if imm &&& 0x800 ≠ 0 then some (imm ||| 0xFFFFFFFFFFFFF000) else some imm
  else if opcode = 0x63 then
    let imm := ((sar64 input 31) &&& 0x1) <<< 12
    let imm := imm ||| (((sar64 input 7) &&& 0x1) <<< 11)
    let imm := imm ||| (((sar64 input 25) &&& 0x3F) <<< 5)
    let imm := imm ||| (((sar64 input 8) &&& 0xF) <<< 1)
    if imm &&& 0x1000 ≠ 0 then some (imm ||| 0xFFFFFFFFFFFFE000) else some imm
  else if opcode = 0x37 ∨ opcode = 0x17 then
    some (input &&& 0xFFFFF000)
  else if opcode = 0x6F then
    let imm := ((sar64 input 31) &&& 0x1) <<< 20
    let imm := imm ||| (((sar64 input 12) &&& 0xFF) <<< 12)
    let imm := imm ||| (((sar64 input 20) &&& 0x1) <<< 11)
    let imm := imm ||| (((sar64 input 21) &&& 0x3FF) <<< 1)
    if imm &&& 0x100000 ≠ 0 then some (imm ||| 0xFFFFFFFFFFE00000) else some imm
  else none

/-- Signed reading of a 64-bit pattern. -/
def toInt64 (x : Nat) : Int :=
  if x < 2 ^ 63 then (x : Int) else (x : Int) - 2 ^ 64

/-- The ALU (`ALU`): returns `(*ALU_result, *zero)`; arithmetic wraps at 64 bits. -/
def ALU (input_0 input_1 ALU_ctrl_signal : Nat) : Nat × Nat :=
  let ALU_result :=
    if ALU_ctrl_signal = 2 then (input_0 + input_1) % 2 ^ 64
    else if ALU_ctrl_signal = 6 then (input_0 + (2 ^ 64 - input_1 % 2 ^ 64)) % 2 ^ 64
    else if ALU_ctrl_signal = 0 then input_0 &&& input_1
    else if ALU_ctrl_signal = 1 then input_0 ||| input_1
    else if ALU_ctrl_signal = 3 then (input_0 <<< (input_1 &&& 0x1F)) % 2 ^ 64
    else if ALU_ctrl_signal = 7 then (if toInt64 input_0 < toInt64 input_1 then 1 else 0)
    else 0
  (ALU_result, if ALU_result = 0 then 1 else 0)

/-- Two-way multiplexer (`MUX`). -/
def MUX (sel input_0 input_1 : Nat) : Nat :=
  if sel = 0 then input_0 else input_1

/-! ## stage functions -/

/-- Instruction fetch (`instruction_fetch`). A null `last` (empty instruction memory) makes
the pointer difference `last - instructions` undefined. -/
def instruction_fetch (core : core_t) (if_id : IF_ID_t) : Option (core_t × IF_ID_t) :=
  if core.instr_mem.isEmpty then none
  else
    let num_instructions := core.instr_mem.length
    if core.stall ≠ 0 then some (core, if_id)
    else if core.PC / 4 ≥ num_instructions then some ({ core with halt := true }, if_id)
    else if core.PC % 4 ≠ 0 then some ({ core with halt := true }, if_id)
    else
      let instruction_index := (core.PC / 4) % 2 ^ 32
      if instruction_index ≥ num_instructions then some ({ core with halt := true }, if_id)
      else
        match core.instr_mem[instruction_index]? with
        | none => none
        | some instruction =>
          some ({ core with PC := core.PC + 4 },
                { instruction := instruction.instruction, PC := core.PC })

/-- Instruction decode (`instruction_decode`). The source registers and the immediate are
stored in `uint32_t` fields. -/
def instruction_decode (u : indeterminate_t) (core : core_t) (if_id : IF_ID_t)
    (id_ex : ID_EX_t) : core_t × ID_EX_t :=
  let instruction := if_id.instruction
  let opcode := instruction &&& 0x7F
  (core,
   { instruction := instruction
     PC := if_id.PC
     rs1 := core.reg_file ((instruction >>> 15) &&& 0x1F) % 2 ^ 32
     rs2 := core.reg_file ((instruction >>> 20) &&& 0x1F) % 2 ^ 32
     rd := (instruction >>> 7) &&& 0x1F
     imm := (imm_gen instruction).getD u.imm % 2 ^ 32
     funct3 := (instruction >>> 12) &&& 0x7
     funct7 := (instruction >>> 25) &&& 0x7F
     control := control_unit opcode id_ex.control })

/-- Forwarding unit (`detect_and_forward`): reads `core->stall`, `core->id_ex`,
`core->ex_mem`, `core->mem_wb` and writes the two forward selectors. -/
def detect_and_forward (core : core_t) : core_t :=
  let core := { core with forwardA := NO_FORWARDING, forwardB := NO_FORWARDING }
  if core.stall ≠ 0 then core
  else
    let core :=
      if core.ex_mem.control.RegWrite ≠ 0 ∧ core.ex_mem.rd ≠ 0 then
        let core :=
          if core.ex_mem.rd = ((core.id_ex.instruction >>> 15) &&& 0x1F) then
            { core with forwardA := FORWARD_FROM_EX_MEM }
          else core
        if core.ex_mem.rd = ((core.id_ex.instruction >>> 20) &&& 0x1F) then
          { core with forwardB := FORWARD_FROM_EX_MEM }
        else core
      else core
    if core.mem_wb.control.RegWrite ≠ 0 ∧ core.mem_wb.rd ≠ 0 then
      let core :=
        if core.forwardA = NO_FORWARDING ∧
            core.mem_wb.rd = ((core.id_ex.instruction >>> 15) &&& 0x1F) then
          { core with forwardA := FORWARD_FROM_MEM_WB }
        else core
      if core.forwardB = NO_FORWARDING ∧
          core.mem_wb.rd = ((core.id_ex.instruction >>> 20) &&& 0x1F) then
        { core with forwardB := FORWARD_FROM_MEM_WB }
      else core
    else core

/-- Execute stage (`execute`). The ALU result is stored in a `uint32_t` field and the zero
flag in a `uint8_t` field. -/
def execute (u : indeterminate_t) (core : core_t) (id_ex : ID_EX_t) (ex_mem : EX_MEM_t) :
    core_t × EX_MEM_t :=
  if id_ex.control.RegWrite = 0 ∧ id_ex.control.ALUSrc = 0 ∧
      id_ex.control.MemRead = 0 ∧ id_ex.control.MemWrite = 0 ∧
      id_ex.control.MemtoReg = 0 ∧ id_ex.control.Branch = 0 then
    (core, ex_mem)
  else
    let operand1 :=
      if core.forwardA = FORWARD_FROM_EX_MEM then core.ex_mem.alu_result
      else if core.forwardA = FORWARD_FROM_MEM_WB then core.mem_wb.alu_result
      else id_ex.rs1
    let operand2 :=
      if core.forwardB = FORWARD_FROM_EX_MEM then core.ex_mem.alu_result
      else if core.forwardB = FORWARD_FROM_MEM_WB then core.mem_wb.alu_result
      else if id_ex.control.ALUSrc ≠ 0 then id_ex.imm
      else id_ex.rs2
    let alu_ctrl :=
      (ALU_control_unit id_ex.control.ALUOp id_ex.funct7 id_ex.funct3).getD u.alu_ctrl
    let r := ALU operand1 operand2 alu_ctrl
    (core,
     { alu_result := r.1 % 2 ^ 32
       zero := r.2 % 2 ^ 8
       rs2 := id_ex.rs2
       rd := id_ex.rd
       control := id_ex.control })

/-- The 64-bit little-endian value `*(uint64_t *)&data_mem[a]`. -/
def read_u64 (mem : Nat → Nat) (a : Nat) : Nat :=
  mem a % 256 + (mem (a + 1) % 256) * 256 ^ 1 + (mem (a + 2) % 256) * 256 ^ 2
    + (mem (a + 3) % 256) * 256 ^ 3 + (mem (a + 4) % 256) * 256 ^ 4
    + (mem (a + 5) % 256) * 256 ^ 5 + (mem (a + 6) % 256) * 256 ^ 6
    + (mem (a + 7) % 256) * 256 ^ 7

/-- The assignment `*(uint64_t *)&data_mem[a] = v` on a little-endian host. -/
def write_u64 (mem : Nat → Nat) (a v : Nat) : Nat → Nat :=
  fun i => if a ≤ i ∧ i < a + 8 then (v / 256 ^ (i - a)) % 256 else mem i

/-- Memory stage (`memory_access`). The stage does not compare the address with `MEM_SIZE`.
An eight-byte access that does not lie inside `data_mem[0 .. MEM_SIZE)` is performed all
the same and is undefined: it reads or writes what follows the array in `struct core_s`
(`reg_file`, then `halt` and `stall`) or lies behind the struct. Such an access has no
result here (`none`), so a theorem about the calls with a result says nothing about it;
`memory_access_struct` adds the stores that land on `reg_file`, `halt` and `stall`. -/
def memory_access (core : core_t) (ex_mem : EX_MEM_t) (mem_wb : MEM_WB_t) :
    Option (core_t × MEM_WB_t) :=
  if ex_mem.control.RegWrite = 0 ∧ ex_mem.control.MemRead = 0 ∧
      ex_mem.control.MemWrite = 0 ∧ ex_mem.control.MemtoReg = 0 then
    some (core, mem_wb)
  else if ex_mem.control.MemRead ≠ 0 then
    if ex_mem.alu_result + 8 ≤ MEM_SIZE then
      some (core,
            { data := read_u64 core.data_mem ex_mem.alu_result % 2 ^ 32
              alu_result := ex_mem.alu_result
              rd := ex_mem.rd
              control := ex_mem.control })
    else none
  else if ex_mem.control.MemWrite ≠ 0 then
    if ex_mem.alu_result + 8 ≤ MEM_SIZE then
      some ({ core with data_mem := write_u64 core.data_mem ex_mem.alu_result ex_mem.rs2 },
            { mem_wb with alu_result := ex_mem.alu_result, rd := ex_mem.rd,
                          control := ex_mem.control })
    else none
  else
    some (core,
          { mem_wb with alu_result := ex_mem.alu_result, rd := ex_mem.rd,
                        control := ex_mem.control })

/-- Write-back stage (`write_back`). `write_data` is a `uint32_t`; a write to an index outside
`reg_file[0 .. NUM_REGISTERS)` is undefined. -/
def write_back (core : core_t) (mem_wb : MEM_WB_t) : Option core_t :=
  if mem_wb.control.RegWrite ≠ 0 then
    let write_data :=
      (if mem_wb.control.MemtoReg ≠ 0 then mem_wb.data else mem_wb.alu_result) % 2 ^ 32
    if mem_wb.rd ≠ 0 then
      if mem_wb.rd < NUM_REGISTERS then
        some { core with reg_file := fun i => if i = mem_wb.rd then write_data else core.reg_file i }
      else none
    else some core
  else some core

/-! ## the tick -/

/-- One clock cycle (`tick_func`): the updated core and the returned `bool`. -/
def tick_func (u : indeterminate_t) (core : core_t) : Option (core_t × Bool) :=
  let next_if_id := core.if_id
  let next_id_ex := core.id_ex
  let next_ex_mem := core.ex_mem
  let next_mem_wb := core.mem_wb
  match instruction_fetch core next_if_id with
  | none => none
  | some (core, next_if_id) =>
    if core.halt then some (core, false)
    else
      let core := hazard_detection_unit core next_if_id core.id_ex
      if core.stall ≠ 0 then
        some ({ core with
                  id_ex := { core.id_ex with control := control_signals_zero }
                  clk := core.clk + 1 }, true)
      else
        let d := instruction_decode u core next_if_id next_id_ex
        let core := d.1
        let next_id_ex := d.2
        if core.halt then some (core, false)
        else
          let core := detect_and_forward core
          let e := execute u core next_id_ex next_ex_mem
          let core := e.1
          let next_ex_mem := e.2
          if core.halt then some (core, false)
          else
            match memory_access core next_ex_mem next_mem_wb with
            | none => none
            | some (core, next_mem_wb) =>
              if core.halt then some (core, false)
              else
                match write_back core next_mem_wb with
                | none => none
                | some core =>
                  if core.halt then some (core, false)
                  else
                    let core := { core with
                                    if_id := next_if_id
                                    id_ex := next_id_ex
                                    ex_mem := next_ex_mem
                                    mem_wb := next_mem_wb
                                    clk := core.clk + 1
                                    stall := 0 }
                    match core.instr_mem.getLast? with
                    | none => none
                    | some last =>
                      if core.PC ≥ last.addr + 4 then some (core, false)
                      else some (core, true)

/-- Whether the call `tick_func(core)` reaches the stall branch (core.c lines 44-58): the
fetch returns without halting and the hazard unit then leaves `core->stall` set. -/
def stall_branch (core : core_t) : Bool :=
  match instruction_fetch core core.if_id with
  | none => false
  | some (core1, next_if_id) =>
    !core1.halt && decide ((hazard_detection_unit core1 next_if_id core1.id_ex).stall ≠ 0)

/-- The driving loop of main.c, `while (tick_func(core)) {}`, cut off after `fuel` calls.
Call number `k` (counted from 0) uses the indeterminate values `us k`. The result is the
final core, the number of calls made and the number of calls that took the stall branch;
it is `none` when the fuel runs out or a call is undefined. -/
def main_loop (us : Nat → indeterminate_t) : Nat → core_t → Nat → Nat →
    Option (core_t × Nat × Nat)
  | 0, _, _, _ => none
  | fuel + 1, core, calls, stalls =>
    let stalls := if stall_branch core then stalls + 1 else stalls
    match tick_func (us calls) core with
    | none => none
    | some (core, true) => main_loop us fuel core (calls + 1) stalls
    | some (core, false) => some (core, calls + 1, stalls)

/-! ## specification-side definitions -/

/-- Bits `lo .. lo + 4` of an instruction word, read as a register index. -/
def reg_field (w lo : Nat) : Nat := w / 2 ^ lo % 32

/-- Forwarding rule as written in section 4.4 of the specification, for one operand whose
source register index is `src`. -/
def forward_rule (stall : Nat) (ex_mem : EX_MEM_t) (mem_wb : MEM_WB_t) (src : Nat) : Nat :=
  if stall ≠ 0 then NO_FORWARDING
  else if ex_mem.control.RegWrite ≠ 0 ∧ ex_mem.rd ≠ 0 ∧ ex_mem.rd = src then
    FORWARD_FROM_EX_MEM
  else if mem_wb.control.RegWrite ≠ 0 ∧ mem_wb.rd ≠ 0 ∧ mem_wb.rd = src then
    FORWARD_FROM_MEM_WB
  else NO_FORWARDING

/-- Two cores that agree everywhere except possibly on the two forward selectors. -/
def same_but_forward (c c' : core_t) : Prop :=
  ∃ a b, c' = { c with forwardA := a, forwardB := b }

/-- The commit at the end of `tick_func` (core.c lines 80-89): the four shadow registers
become the pipeline registers, the clock advances and `stall` is cleared. -/
def commit_registers (core : core_t) (next_if_id : IF_ID_t) (next_id_ex : ID_EX_t)
    (next_ex_mem : EX_MEM_t) (next_mem_wb : MEM_WB_t) : core_t :=
  { core with
      if_id := next_if_id
      id_ex := next_id_ex
      ex_mem := next_ex_mem
      mem_wb := next_mem_wb
      clk := core.clk + 1
      stall := 0 }

/-! ## the programs of the scenarios -/

/-- The word `lw x1,0(x0)` as parser.c encodes it (`lw`: opcode 3, funct3 2). -/
def lw_x1_0_x0 : Nat := parse_I_type 3 2 1 0 0

/-- The word `add x2,x1,x1` as parser.c encodes it (`add`: funct3 0, funct7 0). -/
def add_x2_x1_x1 : Nat := parse_R_type 0 0 2 1 1

/-- Control signals of a load (opcode 3). -/
def load_control : control_signals_t :=
  { ALUSrc := 1, MemtoReg := 1, RegWrite := 1, MemRead := 1, MemWrite := 0, Branch := 0,
    ALUOp := 0 }

/-- Initial core for the program `lw x1,0(x0)`; `add x2,x1,x1`, with `stall` clear and data
memory holding the value 7 at address 0. -/
def lw_add_core : core_t :=
  { init_core (load_words 0 [lw_x1_0_x0, add_x2_x1_x1]) 0 0 0 with
      data_mem := fun i => if i = 0 then 7 else 0 }

/-- The core after the first tick on `lw_add_core`. -/
def lw_add_core_1 : core_t :=
  { clk := 1
    PC := 4
    instr_mem := load_words 0 [lw_x1_0_x0, add_x2_x1_x1]
    data_mem := fun i => if i = 0 then 7 else 0
    reg_file := fun i => if i = 1 then 7 else 0
    halt := false
    stall := 0
    if_id := { instruction := 8323, PC := 0 }
    id_ex := { instruction := 8323, PC := 0, rs1 := 0, rs2 := 0, imm := 0, rd := 1, funct3 := 2,
               funct7 := 0, control := load_control }
    ex_mem := { alu_result := 0, rs2 := 0, rd := 1, zero := 1, control := load_control }
    mem_wb := { data := 7, rd := 1, control := load_control, alu_result := 0 }
    forwardA := 0
    forwardB := 0 }

/-- The core before call number `i` (counted from 0) of a run that starts at `core` with the
call counter at `k`; `none` when an earlier call is undefined. -/
def core_after (us : Nat → indeterminate_t) : Nat → core_t → Nat → Option core_t
  | 0, core, _ => some core
  | i + 1, core, k =>
    match tick_func (us k) core with
    | none => none
    | some (core', _) => core_after us i core' (k + 1)

/-- The word `addi x1,x0,5` as parser.c encodes it (`addi`: opcode 19, funct3 0). -/
def addi_x1_x0_5 : Nat := parse_I_type 19 0 1 0 5

/-- The program `addi x1,x0,5`; `addi x2,x0,10`; `add x3,x1,x2` as parser.c encodes it. -/
def addi_addi_add : List Nat :=
  [parse_I_type 19 0 1 0 5, parse_I_type 19 0 2 0 10, parse_R_type 0 0 3 1 2]

/-- The core `c` with the two forward selectors and the immediate staged in ID/EX replaced.
`tick_func` never reads these three fields of the core it is given before it has overwritten
them. -/
def with_dead (a b x : Nat) (c : core_t) : core_t :=
  { c with forwardA := a, forwardB := b, id_ex := { c.id_ex with imm := x } }

/-- Two cores that agree everywhere except possibly on the forward selectors and on the
immediate staged in ID/EX. -/
def same_live (c c' : core_t) : Prop :=
  ∃ a b x, c = with_dead a b x c'

/-- Whether the result of `execute` is independent of the indeterminate values: the stage is
a bubble, or `ALU_control_unit` returns a value and the staged immediate is either a value
returned by `imm_gen` (`imm_known`) or not selected as operand 2. -/
def execute_determinate (core : core_t) (id_ex : ID_EX_t) (imm_known : Bool) : Bool :=
  decide (id_ex.control.RegWrite = 0 ∧ id_ex.control.ALUSrc = 0 ∧
      id_ex.control.MemRead = 0 ∧ id_ex.control.MemWrite = 0 ∧
      id_ex.control.MemtoReg = 0 ∧ id_ex.control.Branch = 0) ||
    ((ALU_control_unit id_ex.control.ALUOp id_ex.funct7 id_ex.funct3).isSome &&
      (imm_known || decide (core.forwardB = FORWARD_FROM_EX_MEM) ||
        decide (core.forwardB = FORWARD_FROM_MEM_WB) || decide (id_ex.control.ALUSrc = 0)))

/-- Whether the call `tick_func(core)` is independent of the indeterminate values in
everything but the immediate it stages in ID/EX. -/
def tick_determinate (core : core_t) : Bool :=
  match instruction_fetch core core.if_id with
  | none => true
  | some (c1, f1) =>
    c1.halt || decide ((hazard_detection_unit c1 f1 c1.id_ex).stall ≠ 0) ||
      execute_determinate (detect_and_forward { c1 with stall := 0 })
        (instruction_decode { imm := 0, alu_ctrl := 0 } { c1 with stall := 0 } f1 core.id_ex).2
        (imm_gen f1.instruction).isSome

/-- Whether every call of the run `main_loop us fuel core calls` is determinate. -/
def run_determinate (us : Nat → indeterminate_t) : Nat → core_t → Nat → Bool
  | 0, _, _ => true
  | fuel + 1, core, calls =>
    tick_determinate core &&
      match tick_func (us calls) core with
      | some (core', true) => run_determinate us fuel core' (calls + 1)
      | _ => true

/-- The core after the only tick of the one-instruction program `addi x1,x0,5`: the run is
complete, `PC` equals `last->addr + 4`. -/
def addi_done_core : core_t :=
  { clk := 1
    PC := 4
    instr_mem := load_words 0 [addi_x1_x0_5]
    data_mem := fun _ => 0
    reg_file := fun i => if i = 1 then 5 else 0
    halt := false
    stall := 0
    if_id := { instruction := 5243027, PC := 0 }
    id_ex := { instruction := 5243027, PC := 0, rs1 := 0, rs2 := 0, imm := 5, rd := 1,
               funct3 := 0, funct7 := 0,
               control := { ALUSrc := 1, MemtoReg := 0, RegWrite := 1, MemRead := 0,
                            MemWrite := 0, Branch := 0, ALUOp := 0 } }
    ex_mem := { alu_result := 5, rs2 := 0, rd := 1, zero := 0,
                control := { ALUSrc := 1, MemtoReg := 0, RegWrite := 1, MemRead := 0,
                             MemWrite := 0, Branch := 0, ALUOp := 0 } }
    mem_wb := { data := 0, rd := 1,
                control := { ALUSrc := 1, MemtoReg := 0, RegWrite := 1, MemRead := 0,
                             MemWrite := 0, Branch := 0, ALUOp := 0 },
                alu_result := 5 }
    forwardA := 0
    forwardB := 0 }

/-- The one-instruction program `addi x1,x0,5` loaded at address 0, before its first tick. -/
def addi_core : core_t := init_core (load_words 0 [addi_x1_x0_5]) 0 0 0

/-- The condition under which a set `halt` flag stops `instruction_fetch` from advancing:
the fetch is skipped (`stall` set) or it fails again (`PC` out of bounds or misaligned). -/
def halt_explained (c : core_t) : Prop :=
  c.halt = true →
    c.instr_mem ≠ [] ∧ (c.stall ≠ 0 ∨ c.PC / 4 ≥ c.instr_mem.length ∨ c.PC % 4 ≠ 0)

/-- Operand selection in the words of the specification: the EX/MEM ALU result when the
selector is forward-from-EX/MEM, else the MEM/WB ALU result when it is forward-from-MEM/WB,
else the value staged at decode. -/
def resolve_operand (sel from_ex_mem from_mem_wb staged : Nat) : Nat :=
  if sel = FORWARD_FROM_EX_MEM then from_ex_mem
  else if sel = FORWARD_FROM_MEM_WB then from_mem_wb
  else staged

/-- Control signals of a conditional branch (opcode 99). -/
def branch_control : control_signals_t :=
  { ALUSrc := 0, MemtoReg := 0, RegWrite := 0, MemRead := 0, MemWrite := 0, Branch := 1,
    ALUOp := 1 }

/-- The program `addi x1,x0,5`; `add x2,x1,x1`; `jalr x3,x1,1` as parser.c encodes it
(`jalr`: opcode 103, which `control_unit` does not list). -/
def addi_add_jalr : List Nat :=
  [parse_I_type 19 0 1 0 5, parse_R_type 0 0 2 1 1, parse_I_type 103 0 3 1 1]

/-- Control signals of a register-register instruction (opcode 51). -/
def r_type_control : control_signals_t :=
  { ALUSrc := 0, MemtoReg := 0, RegWrite := 1, MemRead := 0, MemWrite := 0, Branch := 0,
    ALUOp := 2 }

/-- The word `addi x1,x0,-1` as parser.c encodes it: `atoi` gives -1, stored in an
`unsigned` as `0xFFFFFFFF` and shifted into bits 20-31. -/
def addi_x1_x0_m1 : Nat := parse_I_type 19 0 1 0 0xFFFFFFFF

/-- The program `addi x3,x0,1`; `addi x2,x3,-1` as parser.c encodes it. -/
def addi_one_minus_one : List Nat :=
  [parse_I_type 19 0 3 0 1, parse_I_type 19 0 2 3 0xFFFFFFFF]

/-- The program `lw x1,0(x0)`; `beq x0,x0,0`; `beq x1,x0,0`; `add x2,x1,x1` as parser.c
encodes it (`parse_SB_type` with immediate 0 gives `99 | rs_1 << 15 | rs_2 << 20`). -/
def lw_beq_beq_add : List Nat :=
  [lw_x1_0_x0, 0x63, 0x8063, add_x2_x1_x1]

/-- Initial core for `lw_beq_beq_add`, with `stall` clear and data memory holding the value 7
at address 0. -/
def lw_beq_beq_add_core : core_t :=
  { init_core (load_words 0 lw_beq_beq_add) 0 0 0 with
      data_mem := fun i => if i = 0 then 7 else 0 }

/-- The program `addi x1,x1,5`; `addi x2,x0,3` as parser.c encodes it. -/
def addi_self_addi : List Nat :=
  [parse_I_type 19 0 1 1 5, parse_I_type 19 0 2 0 3]

/-- An ID/EX register holding `lh x1,4(x3)` (funct3 1), staged when register 3 holds 8. -/
def lh_id_ex : ID_EX_t :=
  { instruction := parse_I_type 3 1 1 3 4, PC := 4, rs1 := 8, rs2 := 0, imm := 4, rd := 1,
    funct3 := 1, funct7 := 0, control := load_control }

/-! ## Cache.c -/

/-- The saturation bound of a predictor counter (`MAX_PREDICTOR_COUNTER`, Cache.h). -/
def MAX_PREDICTOR_COUNTER : Nat := 3

/-- Modelled from the spec: the block record `Cache_Block` of `Cache_Blk.h`, a header that is
not among the sources. The fields are the ones Cache.c reads or writes, without `set` and
`way`, which only `initCache`, `lru` and `lfu` touch. Their C types are not known; each field
is taken to hold every value that Cache.c stores in it. -/
structure Cache_Block where
  tag : Nat
  valid : Bool
  dirty : Bool
  when_touched : Nat
  frequency : Nat
  rrpv : Nat
  signature : Nat
  outcome : Bool
  deriving DecidableEq

/-- Modelled from the spec: the request record `Request` of `Request.h`, a header that is not
among the sources. `store` stands for `req_type == STORE`. -/
structure Request where
  load_or_store_addr : Nat
  store : Bool
  PC : Nat
  deriving DecidableEq

/-- The predictor table (`SignatureHitPredictor`): `entries i` is `entries[i].counter`. -/
structure SignatureHitPredictor where
  entries : Nat → Nat
  table_size : Nat

/-- The cache (`Cache`). `sets s w` is the block `sets[s].ways[w]`; the fields `num_blocks`,
`blocks` and `num_sets` are not used by the functions below and are left out. -/
structure Cache where
  blk_mask : Nat
  num_ways : Nat
  set_shift : Nat
  set_mask : Nat
  tag_shift : Nat
  sets : Nat → Nat → Cache_Block
  shp_table : SignatureHitPredictor
  max_rrpv : Nat
  write_back_count : Nat

/-- Block alignment (`blkAlign`): `addr & ~mask` on `uint64_t`. -/
def blkAlign (addr mask : Nat) : Nat :=
  addr &&& (2 ^ 64 - 1 - mask)

/-- Block lookup (`findBlock`): the set index and the way of the first valid way of the
addressed set whose tag matches, `none` for `NULL`. -/
def findBlock (cache : Cache) (addr : Nat) : Option (Nat × Nat) :=
  let tag := addr >>> cache.tag_shift
  let set_idx := (addr >>> cache.set_shift) &&& cache.set_mask
  ((List.range cache.num_ways).find?
    (fun i => decide (tag = (cache.sets set_idx i).tag) && (cache.sets set_idx i).valid)).map
    (fun i => (set_idx, i))

/-- Index of a signature in the predictor table (`hashSignature`); the caller makes sure that
`table_size` is not 0. -/
def hashSignature (signature table_size : Nat) : Nat :=
  ((signature ^^^ (signature >>> 5)) % table_size) % 2 ^ 32

/-- Training of the predictor (`updateSignatureHitPredictor`). -/
def updateSignatureHitPredictor (shp : SignatureHitPredictor) (signature : Nat) (hit : Bool) :
    SignatureHitPredictor :=
  let index := hashSignature signature shp.table_size
  let counter := shp.entries index
  let counter :=
    if hit then
      if counter < MAX_PREDICTOR_COUNTER then counter + 1 else counter
    else
      if counter > 0 then counter - 1 else counter
  { shp with entries := fun i => if i = index then counter else shp.entries i }

/-- The aging loop of `signature_hit_predictor` (Cache.c lines 427-431): every way of the set
whose replacement value is below `max_rrpv` gets it incremented. -/
def age_ways (max_rrpv num_ways : Nat) (ways : Nat → Cache_Block) : Nat → Cache_Block :=
  fun i =>
    if i < num_ways ∧ (ways i).rrpv < max_rrpv then { ways i with rrpv := (ways i).rrpv + 1 }
    else ways i

/-- The `while (true)` loop of `signature_hit_predictor` (Cache.c lines 392-432) up to the
choice of the victim, cut off after `fuel` rounds: the first way whose replacement value is
`max_rrpv`, the ways of the set as the aging has left them, and the number of aging rounds
made. -/
def victim_search (max_rrpv num_ways : Nat) :
    Nat → (Nat → Cache_Block) → Option (Nat × (Nat → Cache_Block) × Nat)
  | 0, _ => none
  | fuel + 1, ways =>
    match (List.range num_ways).find? (fun i => decide ((ways i).rrpv = max_rrpv)) with
    | some i => some (i, ways, 0)
    | none =>
      match victim_search max_rrpv num_ways fuel (age_ways max_rrpv num_ways ways) with
      | none => none
      | some (i, w, rounds) => some (i, w, rounds + 1)

/-- What `signature_hit_predictor` hands back: the cache as it leaves it, the set and the way
of `*victim_blk`, the returned `bool`, the value written to `*wb_addr` (if any), and the
number of aging rounds made. -/
structure victim_t where
  cache : Cache
  set_idx : Nat
  way : Nat
  wb_required : Bool
  wb_addr : Option Nat
  rounds : Nat

/-- Whether a shift of Cache.c is undefined for this cache: a shift count is not below the
width of `uint64_t`. `initCache`, the only function that assigns the shift counts, sets
them to 6 and 13, so no cache that Cache.c builds meets this condition. -/
def undefined_shift (cache : Cache) : Bool :=
  decide (64 ≤ cache.set_shift) || decide (64 ≤ cache.tag_shift)

/-- The block that `signature_hit_predictor` writes over the way it has chosen. -/
def fresh_block (initial_rrpv signature tag : Nat) : Cache_Block :=
  { rrpv := initial_rrpv, signature := signature, outcome := false, valid := true, tag := tag,
    dirty := false, when_touched := 0, frequency := 0 }

/-- The replacement policy (`signature_hit_predictor`), with the `while (true)` loop cut off
after `fuel` rounds; `none` when the fuel runs out, a shift is undefined or the modulus
`shp->table_size` of `hashSignature` is 0. The local `max_rrpv` is a `uint8_t`. -/
def signature_hit_predictor (fuel : Nat) (cache : Cache) (addr signature : Nat) :
    Option victim_t :=
  if undefined_shift cache || decide (cache.shp_table.table_size = 0) then none
  else
    let shp := cache.shp_table
    let max_rrpv := cache.max_rrpv % 2 ^ 8
    let index := hashSignature signature shp.table_size
    let predictor_counter := shp.entries index % 2 ^ 8
    let initial_rrpv := if predictor_counter = 0 then (max_rrpv + (2 ^ 8 - 1)) % 2 ^ 8 else 0
    let set_idx := (addr >>> cache.set_shift) &&& cache.set_mask
    let ways := cache.sets set_idx
    match (List.range cache.num_ways).find? (fun i => !(ways i).valid) with
    | some i =>
      some { cache := { cache with
                          sets := fun s w =>
                            if s = set_idx ∧ w = i then
                              fresh_block initial_rrpv signature (addr >>> cache.tag_shift)
                            else cache.sets s w }
             set_idx := set_idx
             way := i
             wb_required := false
             wb_addr := none
             rounds := 0 }
    | none =>
      match victim_search max_rrpv cache.num_ways fuel ways with
      | none => none
      | some (i, aged, rounds) =>
        let victim := aged i
        let wb_required := victim.dirty
        some { cache := { cache with
                            shp_table :=
                              updateSignatureHitPredictor shp victim.signature victim.outcome
                            sets := fun s w =>
                              if s = set_idx then
                                if w = i then
                                  fresh_block initial_rrpv signature (addr >>> cache.tag_shift)
                                else aged w
                              else cache.sets s w }
               set_idx := set_idx
               way := i
               wb_required := wb_required
               wb_addr :=
                 if wb_required then
                   some (((victim.tag <<< cache.tag_shift) |||
                     (set_idx <<< cache.set_shift)) % 2 ^ 64)
                 else none
               rounds := rounds }

/-- Insertion after a miss (`insertBlock`, compiled with `SHP_REPLACEMENT`): the cache and the
returned `bool`. -/
def insertBlock (fuel : Nat) (cache : Cache) (req : Request) (access_time : Nat) :
    Option (Cache × Bool) :=
  let blk_aligned_addr := blkAlign req.load_or_store_addr cache.blk_mask
  match signature_hit_predictor fuel cache blk_aligned_addr req.PC with
  | none => none
  | some v =>
    let tag := req.load_or_store_addr >>> cache.tag_shift
    let victim := v.cache.sets v.set_idx v.way
    let victim :=
      { victim with
          tag := tag
          valid := true
          when_touched := access_time
          frequency := victim.frequency + 1
          dirty := if req.store then true else victim.dirty }
    some ({ v.cache with
              sets := fun s w => if s = v.set_idx ∧ w = v.way then victim else v.cache.sets s w },
          v.wb_required)

/-- Cache access (`accessBlock`): the cache and the returned `bool` (hit). -/
def accessBlock (fuel : Nat) (cache : Cache) (req : Request) (access_time : Nat) :
    Option (Cache × Bool) :=
  if undefined_shift cache then none
  else
    let blk_aligned_addr := blkAlign req.load_or_store_addr cache.blk_mask
    match findBlock cache blk_aligned_addr with
    | some (set_idx, way) =>
      let blk := cache.sets set_idx way
      let blk :=
        { blk with
            when_touched := access_time
            frequency := blk.frequency + 1
            rrpv := 0
            outcome := true
            dirty := if req.store then true else blk.dirty }
      some ({ cache with
                sets := fun s w => if s = set_idx ∧ w = way then blk else cache.sets s w },
            true)
    | none =>
      match insertBlock fuel cache req access_time with
      | none => none
      | some (cache1, wb_required) =>
        some ({ cache1 with
                  write_back_count :=
                    if wb_required then (cache1.write_back_count + 1) % 2 ^ 64
                    else cache1.write_back_count },
              false)

/-- The cache built by `initCache` with the constants of Cache.c (64-byte blocks, 128 KB,
16 ways): 128 sets, set shift 6, tag shift 13, `max_rrpv` 3 and a predictor table of 1024
counters at 1. `initCache` does not assign `rrpv`, `signature` and `outcome` of the blocks
(they come from `malloc`); they are taken from `junk`. -/
def initCache (junk : Nat → Nat → Cache_Block) : Cache :=
  { blk_mask := 63
    num_ways := 16
    set_shift := 6
    set_mask := 127
    tag_shift := 13
    sets := fun s w =>
      { tag := 2 ^ 64 - 1, valid := false, dirty := false, when_touched := 0, frequency := 0,
        rrpv := (junk s w).rrpv, signature := (junk s w).signature,
        outcome := (junk s w).outcome }
    shp_table := { entries := fun _ => 1, table_size := 1024 }
    max_rrpv := 3
    write_back_count := 0 }

/-- A valid, clean block with tag 0 and replacement value 1. -/
def used_block : Cache_Block :=
  { tag := 0, valid := true, dirty := false, when_touched := 0, frequency := 1, rrpv := 1,
    signature := 0, outcome := false }

/-- The cache of `initCache` with every way of every set holding `used_block`. -/
def full_cache : Cache :=
  { initCache (fun _ _ => used_block) with sets := fun _ _ => used_block }

/-- A load of address 64 issued by the instruction at address 0. -/
def load_64 : Request := { load_or_store_addr := 64, store := false, PC := 0 }

/-! ## stores past the end of data memory -/

/-- Encoding of an S-type instruction with a non-negative offset as `parse_S_type` assembles
it (opcode 35; `sw` has `funct3` 2). -/
def parse_S_type (funct3 rs_2 immediate rs_1 : Nat) : Nat :=
  (35 ||| ((immediate &&& 0x1F) <<< 7) ||| (funct3 <<< 12) ||| (rs_1 <<< 15) ||| (rs_2 <<< 20)
    ||| (((immediate >>> 5) &&& 0x7F) <<< 25)) % 2 ^ 32

/-- Control signals of a store (opcode 35). -/
def store_control : control_signals_t :=
  { ALUSrc := 1, MemtoReg := 0, RegWrite := 0, MemRead := 0, MemWrite := 1, Branch := 0,
    ALUOp := 0 }

/-- The EX/MEM register that a call of `tick_func` passes to `memory_access` (core.c lines
43-69: fetch, hazard detection, decode, forwarding, execute); `none` when the call returns
before it reaches the memory stage. -/
def tick_ex_mem (u : indeterminate_t) (core : core_t) : Option EX_MEM_t :=
  match instruction_fetch core core.if_id with
  | none => none
  | some (core1, next_if_id) =>
    if core1.halt then none
    else
      let core2 := hazard_detection_unit core1 next_if_id core1.id_ex
      if core2.stall ≠ 0 then none
      else
        let d := instruction_decode u core2 next_if_id core.id_ex
        if d.1.halt then none
        else
          let e := execute u (detect_and_forward d.1) d.2 core.ex_mem
          if e.1.halt then none else some e.2

/-- Initial core for the program `addi x1,x0,5`; `sw x1,1024(x0)` as parser.c encodes it. -/
def addi_sw_1024_core : core_t :=
  init_core (load_words 0 [parse_I_type 19 0 1 0 5, parse_S_type 2 1 1024 0]) 0 0 0

/-- Initial core for the program `addi x1,x0,5`; `sw x1,1028(x0)` as parser.c encodes it. -/
def addi_sw_1028_core : core_t :=
  init_core (load_words 0 [parse_I_type 19 0 1 0 5, parse_S_type 2 1 1028 0]) 0 0 0

/-- Initial core for the program `addi x5,x0,1`; `sw x5,1280(x0)`; `addi x6,x0,1` as parser.c
encodes it. -/
def addi_sw_1280_core : core_t :=
  init_core (load_words 0
    [parse_I_type 19 0 5 0 1, parse_S_type 2 5 1280 0, parse_I_type 19 0 6 0 1]) 0 0 0

/-- The core after the first call of `tick_func` on `core` (`core` itself when that call is
undefined). -/
def after_first_call (core : core_t) : core_t :=
  match tick_func { imm := 0, alu_ctrl := 0 } core with
  | some (c, _) => c
  | none => core

/-- Byte `k`, counted from `&data_mem[0]`, after the eight-byte little-endian store of `v`
at `&data_mem[a]`, when the byte held `old` before. -/
def stored_byte (a v k old : Nat) : Nat :=
  if a ≤ k ∧ k < a + 8 then v / 256 ^ (k - a) % 256 else old

/-- The store `*(uint64_t *)&core->data_mem[a] = v` on the object `struct core_s` as core.h
declares it, for a store that ends before the member `tick`, on a little-endian target
with one-byte `bool` and four-byte `int` (x86-64). The members that follow the `MEM_SIZE`
bytes of `data_mem` are `reg_file` (`NUM_REGISTERS` registers of eight bytes, byte offsets
1024 to 1279 from `data_mem`), `halt` (offset 1280), `inserted_NOP` and `flush_pipeline`
(offsets 1281 and 1282; core.c never reads them and `core_t` has no field for them), one
byte of padding, and `stall` (offsets 1284 to 1287). `tick_func` reads `halt` and `stall`
only in `if (core->halt)` and `if (core->stall)`. -/
def store_struct (core : core_t) (a v : Nat) : core_t :=
  { core with
      data_mem := fun k =>
        if k < MEM_SIZE then stored_byte a v k (core.data_mem k) else core.data_mem k
      reg_file := fun i =>
        let o := MEM_SIZE + 8 * i
        if i < NUM_REGISTERS ∧ a < o + 8 ∧ o < a + 8 then
          read_u64 (fun k => stored_byte a v k (core.reg_file i / 256 ^ (k - o) % 256)) o
        else core.reg_file i
      halt :=
        let o := MEM_SIZE + 8 * NUM_REGISTERS
        if a ≤ o ∧ o < a + 8 then decide (stored_byte a v o 0 ≠ 0) else core.halt
      stall :=
        let o := MEM_SIZE + 8 * NUM_REGISTERS + 4
        if a < o + 4 ∧ o < a + 8 then
          stored_byte a v o (core.stall % 256)
            + stored_byte a v (o + 1) (core.stall / 256 % 256) * 256
            + stored_byte a v (o + 2) (core.stall / 256 ^ 2 % 256) * 256 ^ 2
            + stored_byte a v (o + 3) (core.stall / 256 ^ 3 % 256) * 256 ^ 3
        else core.stall }

/-- The memory stage on the object `struct core_s`: `memory_access` wherever the access lies
inside `data_mem`, and for a store that leaves `data_mem` and ends before the member `tick`
the store that the stage performs on the members behind the array (`store_struct`). Loads
behind `data_mem` and stores that reach `tick` or a later member have no result. -/
def memory_access_struct (core : core_t) (ex_mem : EX_MEM_t) (mem_wb : MEM_WB_t) :
    Option (core_t × MEM_WB_t) :=
  match memory_access core ex_mem mem_wb with
  | some r => some r
  | none =>
    if ex_mem.control.MemRead = 0 ∧ ex_mem.control.MemWrite ≠ 0 ∧
        ex_mem.alu_result + 8 ≤ MEM_SIZE + 8 * NUM_REGISTERS + 8 then
      some (store_struct core ex_mem.alu_result ex_mem.rs2,
            { mem_wb with alu_result := ex_mem.alu_result, rd := ex_mem.rd,
                          control := ex_mem.control })
    else none

/-- The body of `tick_func` with the memory stage as a parameter: `tick_func_with
memory_access` is `tick_func`. -/
def tick_func_with (mem : core_t → EX_MEM_t → MEM_WB_t → Option (core_t × MEM_WB_t))
    (u : indeterminate_t) (core : core_t) : Option (core_t × Bool) :=
  let next_if_id := core.if_id
  let next_id_ex := core.id_ex
  let next_ex_mem := core.ex_mem
  let next_mem_wb := core.mem_wb
  match instruction_fetch core next_if_id with
  | none => none
  | some (core, next_if_id) =>
    if core.halt then some (core, false)
    else
      let core := hazard_detection_unit core next_if_id core.id_ex
      if core.stall ≠ 0 then
        some ({ core with
                  id_ex := { core.id_ex with control := control_signals_zero }
                  clk := core.clk + 1 }, true)
      else
        let d := instruction_decode u core next_if_id next_id_ex
        let core := d.1
        let next_id_ex := d.2
        if core.halt then some (core, false)
        else
          let core := detect_and_forward core
          let e := execute u core next_id_ex next_ex_mem
          let core := e.1
          let next_ex_mem := e.2
          if core.halt then some (core, false)
          else
            match mem core next_ex_mem next_mem_wb with
            | none => none
            | some (core, next_mem_wb) =>
              if core.halt then some (core, false)
              else
                match write_back core next_mem_wb with
                | none => none
                | some core =>
                  if core.halt then some (core, false)
                  else
                    let core := { core with
                                    if_id := next_if_id
                                    id_ex := next_id_ex
                                    ex_mem := next_ex_mem
                                    mem_wb := next_mem_wb
                                    clk := core.clk + 1
                                    stall := 0 }
                    match core.instr_mem.getLast? with
                    | none => none
                    | some last =>
                      if core.PC ≥ last.addr + 4 then some (core, false)
                      else some (core, true)

/-- One clock cycle on the object `struct core_s`: `tick_func` with the memory stage
`memory_access_struct`. -/
def tick_func_struct (u : indeterminate_t) (core : core_t) : Option (core_t × Bool) :=
  tick_func_with memory_access_struct u core

/-! # Theorems -/

/-! ## bit-field lemmas -/

theorem shr_and_31 (w lo : Nat) : (w >>> lo) &&& 0x1F = reg_field w lo := by
  unfold reg_field
  rw [Nat.shiftRight_eq_div_pow]
  exact Nat.and_pow_two_sub_one_eq_mod _ 5

theorem reg_field_lt (w lo : Nat) : reg_field w lo < 32 := by
  unfold reg_field
  omega

/-! ## hazard detection and forwarding -/

/-- C1: `hazard_detection_unit` sets `stall` to 1 exactly when ID/EX has memory-read enabled,
a non-zero destination register, and that destination equals bits 15-19 or bits 20-24 of the
IF/ID word; otherwise it sets `stall` to 0, and it never stalls for destination register 0. -/
theorem hazard_detection_unit_stall (core : core_t) (if_id : IF_ID_t) (id_ex : ID_EX_t) :
    (hazard_detection_unit core if_id id_ex).stall =
        (if id_ex.control.MemRead ≠ 0 ∧ id_ex.rd ≠ 0 ∧
              (id_ex.rd = reg_field if_id.instruction 15 ∨
                id_ex.rd = reg_field if_id.instruction 20)
          then 1 else 0) ∧
      (hazard_detection_unit core if_id { id_ex with rd := 0 }).stall = 0 := by
  unfold hazard_detection_unit
  simp only [shr_and_31]
  constructor
  · by_cases h1 : id_ex.control.MemRead = 0
    · simp [h1]
    · by_cases h2 : id_ex.rd ≠ 0 ∧
          (id_ex.rd = reg_field if_id.instruction 15 ∨ id_ex.rd = reg_field if_id.instruction 20)
      · simp [h1, h2]
      · simp only [ne_eq, h1, not_false_eq_true, if_true, h2, if_false, true_and]
  · by_cases h1 : id_ex.control.MemRead = 0 <;> simp [h1]

theorem detect_and_forward_selectors (core : core_t) :
    (detect_and_forward core).forwardA =
        forward_rule core.stall core.ex_mem core.mem_wb (reg_field core.id_ex.instruction 15) ∧
      (detect_and_forward core).forwardB =
        forward_rule core.stall core.ex_mem core.mem_wb (reg_field core.id_ex.instruction 20) := by
  unfold detect_and_forward forward_rule
  simp only [shr_and_31, NO_FORWARDING, FORWARD_FROM_EX_MEM, FORWARD_FROM_MEM_WB,
    apply_ite core_t.forwardA, apply_ite core_t.forwardB, apply_ite core_t.mem_wb,
    apply_ite core_t.id_ex, apply_ite core_t.ex_mem, ite_self]
  constructor <;> split_ifs <;> simp_all

/-- C2: `detect_and_forward` sets each forward selector by the rule: none under stall, else
EX/MEM when EX/MEM writes a non-zero register equal to the operand's source index (bits 15-19
for operand 1, bits 20-24 for operand 2 of the current ID/EX instruction), else MEM/WB under
the same test, else none; so EX/MEM is selected whenever EX/MEM and MEM/WB are both eligible
for the same operand. -/
theorem detect_and_forward_rule (core : core_t) :
    (detect_and_forward core).forwardA =
        forward_rule core.stall core.ex_mem core.mem_wb (reg_field core.id_ex.instruction 15) ∧
      (detect_and_forward core).forwardB =
        forward_rule core.stall core.ex_mem core.mem_wb (reg_field core.id_ex.instruction 20) ∧
      (core.stall = 0 → core.ex_mem.control.RegWrite ≠ 0 → core.ex_mem.rd ≠ 0 →
        core.mem_wb.control.RegWrite ≠ 0 → core.mem_wb.rd ≠ 0 →
        (core.ex_mem.rd = reg_field core.id_ex.instruction 15 →
          core.mem_wb.rd = reg_field core.id_ex.instruction 15 →
          (detect_and_forward core).forwardA = FORWARD_FROM_EX_MEM) ∧
        (core.ex_mem.rd = reg_field core.id_ex.instruction 20 →
          core.mem_wb.rd = reg_field core.id_ex.instruction 20 →
          (detect_and_forward core).forwardB = FORWARD_FROM_EX_MEM)) := by
  obtain ⟨hA, hB⟩ := detect_and_forward_selectors core
  refine ⟨hA, hB, ?_⟩
  intro hs he he0 _ _
  constructor
  · intro h1 _
    rw [hA]
    unfold forward_rule
    rw [if_neg (by simp [hs]), if_pos ⟨he, he0, h1⟩]
  · intro h1 _
    rw [hB]
    unfold forward_rule
    rw [if_neg (by simp [hs]), if_pos ⟨he, he0, h1⟩]

/-- Instance of the preceding theorem: with the `add x2,x1,x1` word in ID/EX and both EX/MEM and
MEM/WB writing register 1, both selectors are forward-from-EX/MEM. -/
theorem detect_and_forward_rule_witness :
    (detect_and_forward { lw_add_core_1 with id_ex := { lw_add_core_1.id_ex with
        instruction := add_x2_x1_x1 } }).forwardA = FORWARD_FROM_EX_MEM ∧
      (detect_and_forward { lw_add_core_1 with id_ex := { lw_add_core_1.id_ex with
        instruction := add_x2_x1_x1 } }).forwardB = FORWARD_FROM_EX_MEM :=
  ⟨((detect_and_forward_rule { lw_add_core_1 with id_ex := { lw_add_core_1.id_ex with
        instruction := add_x2_x1_x1 } }).2.2 rfl (by decide) (by decide) (by decide)
        (by decide)).1 (by decide) (by decide),
   ((detect_and_forward_rule { lw_add_core_1 with id_ex := { lw_add_core_1.id_ex with
        instruction := add_x2_x1_x1 } }).2.2 rfl (by decide) (by decide) (by decide)
        (by decide)).2 (by decide) (by decide)⟩

/-! ## the fetch stage and the stall branch -/

/-- What a defined fetch returns: either it was skipped because `stall` was set, or it halted,
or it loaded the word at index `PC / 4` (as a `uint32_t`) and advanced `PC` by 4. -/
theorem instruction_fetch_cases (core c1 : core_t) (f f1 : IF_ID_t)
    (h : instruction_fetch core f = some (c1, f1)) :
    core.instr_mem ≠ [] ∧
    ((core.stall ≠ 0 ∧ c1 = core ∧ f1 = f) ∨
     (core.stall = 0 ∧ (core.PC / 4 ≥ core.instr_mem.length ∨ core.PC % 4 ≠ 0) ∧
        c1 = { core with halt := true } ∧ f1 = f) ∨
     (core.stall = 0 ∧ core.PC / 4 < core.instr_mem.length ∧ core.PC % 4 = 0 ∧
        c1 = { core with PC := core.PC + 4 } ∧
        ∃ ins, core.instr_mem[core.PC / 4 % 2 ^ 32]? = some ins ∧
          f1 = { instruction := ins.instruction, PC := core.PC })) := by
  unfold instruction_fetch at h
  have hidx : core.PC / 4 % 2 ^ 32 ≤ core.PC / 4 := Nat.mod_le _ _
  by_cases he : core.instr_mem.isEmpty = true
  · rw [if_pos he] at h
    exact absurd h (by simp)
  · rw [if_neg he] at h
    have hne : core.instr_mem ≠ [] := by
      intro h0
      exact he (by simp [h0])
    refine ⟨hne, ?_⟩
    by_cases hs : core.stall ≠ 0
    · rw [if_pos hs] at h
      simp only [Option.some.injEq, Prod.mk.injEq] at h
      exact Or.inl ⟨hs, h.1.symm, h.2.symm⟩
    · rw [if_neg hs] at h
      by_cases h1 : core.PC / 4 ≥ core.instr_mem.length
      · rw [if_pos h1] at h
        simp only [Option.some.injEq, Prod.mk.injEq] at h
        exact Or.inr (Or.inl ⟨not_not.mp hs, Or.inl h1, h.1.symm, h.2.symm⟩)
      · rw [if_neg h1] at h
        by_cases h2 : core.PC % 4 ≠ 0
        · rw [if_pos h2] at h
          simp only [Option.some.injEq, Prod.mk.injEq] at h
          exact Or.inr (Or.inl ⟨not_not.mp hs, Or.inr h2, h.1.symm, h.2.symm⟩)
        · rw [if_neg h2] at h
          have hlt : core.PC / 4 % 2 ^ 32 < core.instr_mem.length := by omega
          have h3 : ¬ (core.PC / 4 % 2 ^ 32 ≥ core.instr_mem.length) := by omega
          simp only [] at h
          rw [if_neg h3, List.getElem?_eq_getElem hlt] at h
          simp only [Option.some.injEq, Prod.mk.injEq] at h
          exact Or.inr (Or.inr ⟨not_not.mp hs, by omega, not_not.mp h2, h.1.symm,
            core.instr_mem[core.PC / 4 % 2 ^ 32], List.getElem?_eq_getElem hlt, h.2.symm⟩)

/-- The hazard unit changes nothing but `stall`, which it sets to 0 or 1. -/
theorem hazard_detection_unit_frame (core : core_t) (if_id : IF_ID_t) (id_ex : ID_EX_t) :
    (hazard_detection_unit core if_id id_ex = { core with stall := 0 } ∧
        (id_ex.control.MemRead = 0 ∨ id_ex.rd = 0 ∨
          (id_ex.rd ≠ reg_field if_id.instruction 15 ∧
            id_ex.rd ≠ reg_field if_id.instruction 20))) ∨
      (hazard_detection_unit core if_id id_ex = { core with stall := 1 } ∧
        id_ex.control.MemRead ≠ 0 ∧ id_ex.rd ≠ 0 ∧
          (id_ex.rd = reg_field if_id.instruction 15 ∨
            id_ex.rd = reg_field if_id.instruction 20)) := by
  unfold hazard_detection_unit
  simp only [shr_and_31]
  by_cases h1 : id_ex.control.MemRead ≠ 0
  · rw [if_pos h1]
    by_cases h2 : id_ex.rd ≠ 0 ∧
        (id_ex.rd = reg_field if_id.instruction 15 ∨ id_ex.rd = reg_field if_id.instruction 20)
    · rw [if_pos h2]
      exact Or.inr ⟨rfl, h1, h2.1, h2.2⟩
    · rw [if_neg h2]
      refine Or.inl ⟨rfl, ?_⟩
      by_cases h3 : id_ex.rd = 0
      · exact Or.inr (Or.inl h3)
      · refine Or.inr (Or.inr ⟨?_, ?_⟩)
        · intro h4
          exact h2 ⟨h3, Or.inl h4⟩
        · intro h4
          exact h2 ⟨h3, Or.inr h4⟩
  · rw [if_neg h1]
    exact Or.inl ⟨rfl, Or.inl (not_not.mp h1)⟩

/-- A tick that takes the stall branch: the state it leaves and the value it returns. The new
`PC` is `PC + 4` when `stall` was clear on entry (the fetch ran before the hazard was seen) and
`PC` when `stall` was still set. -/
theorem tick_func_stall (u : indeterminate_t) (core : core_t)
    (h : stall_branch core = true) :
    ∃ pc, tick_func u core =
        some ({ core with
                  PC := pc
                  stall := 1
                  id_ex := { core.id_ex with control := control_signals_zero }
                  clk := core.clk + 1 }, true) ∧
      core.halt = false ∧ core.instr_mem ≠ [] ∧
      ((core.stall = 0 ∧ pc = core.PC + 4) ∨ (core.stall ≠ 0 ∧ pc = core.PC)) := by
  unfold stall_branch at h
  cases hf : instruction_fetch core core.if_id with
  | none => rw [hf] at h; exact absurd h (by simp)
  | some r =>
    obtain ⟨c1, f1⟩ := r
    rw [hf] at h
    simp only [Bool.and_eq_true, Bool.not_eq_true', decide_eq_true_eq] at h
    obtain ⟨hhalt, hst⟩ := h
    obtain ⟨hne, hc⟩ := instruction_fetch_cases core c1 core.if_id f1 hf
    have hhz : hazard_detection_unit c1 f1 c1.id_ex = { c1 with stall := 1 } := by
      rcases hazard_detection_unit_frame c1 f1 c1.id_ex with hz | hz
      · rw [hz.1] at hst
        exact absurd rfl hst
      · exact hz.1
    have ht : tick_func u core =
        some ({ c1 with
                  stall := 1
                  id_ex := { c1.id_ex with control := control_signals_zero }
                  clk := c1.clk + 1 }, true) := by
      unfold tick_func
      simp only [hf, hhalt, hhz]
      simp
    rcases hc with ⟨hs, hc1, _⟩ | ⟨_, _, hc1, _⟩ | ⟨hs, _, _, hc1, _⟩
    · subst hc1
      exact ⟨c1.PC, ht, hhalt, hne, Or.inr ⟨hs, rfl⟩⟩
    · subst hc1
      exact absurd hhalt (by simp)
    · subst hc1
      exact ⟨core.PC + 4, ht, hhalt, hne, Or.inl ⟨hs, rfl⟩⟩

/-! ## frame lemmas for the stages -/

theorem instruction_decode_fst (u : indeterminate_t) (core : core_t) (f : IF_ID_t)
    (id_ex : ID_EX_t) : (instruction_decode u core f id_ex).1 = core := rfl

theorem execute_fst (u : indeterminate_t) (core : core_t) (id_ex : ID_EX_t)
    (ex_mem : EX_MEM_t) : (execute u core id_ex ex_mem).1 = core := by
  unfold execute
  split_ifs <;> rfl

theorem same_but_forward_refl (c : core_t) : same_but_forward c c := ⟨_, _, rfl⟩

theorem same_but_forward_ite (c x y : core_t) (P : Prop) [Decidable P]
    (hx : same_but_forward c x) (hy : same_but_forward c y) :
    same_but_forward c (if P then x else y) := by
  split_ifs
  · exact hx
  · exact hy

theorem same_but_forward_A (c x : core_t) (a : Nat) (hx : same_but_forward c x) :
    same_but_forward c { x with forwardA := a } := by
  obtain ⟨a0, b0, h⟩ := hx
  subst h
  exact ⟨_, _, rfl⟩

theorem same_but_forward_B (c x : core_t) (b : Nat) (hx : same_but_forward c x) :
    same_but_forward c { x with forwardB := b } := by
  obtain ⟨a0, b0, h⟩ := hx
  subst h
  exact ⟨_, _, rfl⟩

/-- The forwarding unit changes nothing but the two selectors. -/
theorem detect_and_forward_frame (core : core_t) :
    same_but_forward core (detect_and_forward core) := by
  unfold detect_and_forward
  have h0 : same_but_forward core
      { core with forwardA := NO_FORWARDING, forwardB := NO_FORWARDING } := ⟨_, _, rfl⟩
  refine same_but_forward_ite _ _ _ _ h0 ?_
  have h1 : ∀ x, same_but_forward core x →
      same_but_forward core
        (if x.ex_mem.control.RegWrite ≠ 0 ∧ x.ex_mem.rd ≠ 0 then
            let core :=
              if x.ex_mem.rd = ((x.id_ex.instruction >>> 15) &&& 0x1F) then
                { x with forwardA := FORWARD_FROM_EX_MEM }
              else x
            if core.ex_mem.rd = ((core.id_ex.instruction >>> 20) &&& 0x1F) then
              { core with forwardB := FORWARD_FROM_EX_MEM }
            else core
          else x) := by
    intro x hx
    refine same_but_forward_ite _ _ _ _ ?_ hx
    have h2 := same_but_forward_ite core _ _
      (x.ex_mem.rd = ((x.id_ex.instruction >>> 15) &&& 0x1F))
      (same_but_forward_A _ _ FORWARD_FROM_EX_MEM hx) hx
    exact same_but_forward_ite _ _ _ _ (same_but_forward_B _ _ _ h2) h2
  have h3 := h1 _ h0
  refine same_but_forward_ite _ _ _ _ ?_ h3
  have h4 : ∀ x, same_but_forward core x →
      same_but_forward core
        (if x.forwardA = NO_FORWARDING ∧
              x.mem_wb.rd = ((x.id_ex.instruction >>> 15) &&& 0x1F) then
            { x with forwardA := FORWARD_FROM_MEM_WB }
          else x) := by
    intro x hx
    exact same_but_forward_ite _ _ _ _ (same_but_forward_A _ _ _ hx) hx
  have h4 := h4 _ h3
  exact same_but_forward_ite _ _ _ _ (same_but_forward_B _ _ _ h4) h4

/-- The memory stage changes nothing in the core but `data_mem`. -/
theorem memory_access_frame (core c : core_t) (ex_mem : EX_MEM_t) (mem_wb wb : MEM_WB_t)
    (h : memory_access core ex_mem mem_wb = some (c, wb)) :
    c = { core with data_mem := c.data_mem } := by
  unfold memory_access at h
  split_ifs at h <;> simp only [Option.some.injEq, Prod.mk.injEq] at h <;>
    (obtain ⟨h1, _⟩ := h; subst h1; rfl)

/-- The write-back stage changes nothing in the core but `reg_file`. -/
theorem write_back_frame (core c : core_t) (mem_wb : MEM_WB_t)
    (h : write_back core mem_wb = some c) :
    c = { core with reg_file := c.reg_file } := by
  unfold write_back at h
  split_ifs at h <;> simp only [Option.some.injEq] at h <;> (subst h; rfl)

/-- Register 0 survives write-back. -/
theorem write_back_reg_zero (core c : core_t) (mem_wb : MEM_WB_t)
    (h : write_back core mem_wb = some c) : c.reg_file 0 = core.reg_file 0 := by
  unfold write_back at h
  by_cases h1 : mem_wb.control.RegWrite ≠ 0
  · rw [if_pos h1] at h
    by_cases h2 : mem_wb.rd ≠ 0
    · simp only [] at h
      rw [if_pos h2] at h
      by_cases h3 : mem_wb.rd < NUM_REGISTERS
      · rw [if_pos h3] at h
        simp only [Option.some.injEq] at h
        subst h
        show (if 0 = mem_wb.rd then _ else core.reg_file 0) = core.reg_file 0
        rw [if_neg (fun h0 => h2 h0.symm)]
      · rw [if_neg h3] at h
        exact absurd h (by simp)
    · simp only [] at h
      rw [if_neg h2] at h
      simp only [Option.some.injEq] at h
      subst h
      rfl
  · rw [if_neg h1] at h
    simp only [Option.some.injEq] at h
    subst h
    rfl

theorem detect_and_forward_halt (core : core_t) :
    (detect_and_forward core).halt = core.halt := by
  obtain ⟨a, b, h⟩ := detect_and_forward_frame core
  rw [h]

/-- A tick that passes the fetch without halting and the hazard unit without stalling: decode
reads the IF/ID value just fetched, execute the ID/EX value just decoded, the memory stage the
EX/MEM value just computed and write-back the MEM/WB value just produced; the forwarding unit
and the forwarded values come from the registers of the previous commit. -/
theorem tick_func_commit (u : indeterminate_t) (core c1 : core_t) (f1 : IF_ID_t)
    (hf : instruction_fetch core core.if_id = some (c1, f1)) (hh : c1.halt = false)
    (hs : (hazard_detection_unit c1 f1 c1.id_ex).stall = 0) :
    tick_func u core =
      match memory_access (detect_and_forward { c1 with stall := 0 })
          (execute u (detect_and_forward { c1 with stall := 0 })
            (instruction_decode u { c1 with stall := 0 } f1 core.id_ex).2 core.ex_mem).2
          core.mem_wb with
      | none => none
      | some (c4, wb) =>
        match write_back c4 wb with
        | none => none
        | some c5 =>
          match c5.instr_mem.getLast? with
          | none => none
          | some last =>
            some (commit_registers c5 f1
                (instruction_decode u { c1 with stall := 0 } f1 core.id_ex).2
                (execute u (detect_and_forward { c1 with stall := 0 })
                  (instruction_decode u { c1 with stall := 0 } f1 core.id_ex).2 core.ex_mem).2
                wb,
              decide (c5.PC < last.addr + 4)) := by
  have hhz : hazard_detection_unit c1 f1 c1.id_ex = { c1 with stall := 0 } := by
    rcases hazard_detection_unit_frame c1 f1 c1.id_ex with hz | hz
    · exact hz.1
    · rw [hz.1] at hs
      exact absurd hs (by simp)
  have hnh : (c1.halt = true) = False := by simp [hh]
  have h3 : ((detect_and_forward { c1 with stall := 0 }).halt = true) = False := by
    rw [detect_and_forward_halt]
    exact hnh
  unfold tick_func
  simp only [hf, hhz, instruction_decode_fst, execute_fst, hnh, h3, if_false, ne_eq,
    not_true_eq_false]
  cases hm : memory_access (detect_and_forward { c1 with stall := 0 })
      (execute u (detect_and_forward { c1 with stall := 0 })
        (instruction_decode u { c1 with stall := 0 } f1 core.id_ex).2 core.ex_mem).2
      core.mem_wb with
  | none => rfl
  | some r =>
    obtain ⟨c4, wb⟩ := r
    have h4 : (c4.halt = true) = False := by
      rw [memory_access_frame _ _ _ _ _ hm]
      exact h3
    simp only [h4, if_false]
    cases hw : write_back c4 wb with
    | none => rfl
    | some c5 =>
      have h5 : (c5.halt = true) = False := by
        rw [write_back_frame _ _ _ hw]
        exact h4
      simp only [h5, if_false]
      cases hl : c5.instr_mem.getLast? with
      | none => rfl
      | some last =>
        simp only [commit_registers]
        by_cases hp : c5.PC ≥ last.addr + 4
        · rw [if_pos hp]
          have : ¬ c5.PC < last.addr + 4 := by omega
          simp [this]
        · rw [if_neg hp]
          have : c5.PC < last.addr + 4 := by omega
          simp [this]

/-- A defined fetch changes nothing in the core but `PC` and `halt`. -/
theorem instruction_fetch_frame (core c1 : core_t) (f f1 : IF_ID_t)
    (h : instruction_fetch core f = some (c1, f1)) :
    c1 = { core with PC := c1.PC, halt := c1.halt } := by
  obtain ⟨_, hc⟩ := instruction_fetch_cases core c1 f f1 h
  rcases hc with ⟨_, hc1, _⟩ | ⟨_, _, hc1, _⟩ | ⟨_, _, _, hc1, _⟩ <;> subst hc1 <;> rfl

theorem tick_func_halt (u : indeterminate_t) (core c1 : core_t) (f1 : IF_ID_t)
    (hf : instruction_fetch core core.if_id = some (c1, f1)) (hh : c1.halt = true) :
    tick_func u core = some (c1, false) := by
  unfold tick_func
  simp only [hf, hh, if_true]

theorem tick_func_undefined (u : indeterminate_t) (core : core_t)
    (hf : instruction_fetch core core.if_id = none) : tick_func u core = none := by
  unfold tick_func
  simp only [hf]

theorem stall_branch_of_fetch (core c1 : core_t) (f1 : IF_ID_t)
    (hf : instruction_fetch core core.if_id = some (c1, f1)) (hh : c1.halt = false)
    (hs : (hazard_detection_unit c1 f1 c1.id_ex).stall ≠ 0) : stall_branch core = true := by
  unfold stall_branch
  simp only [hf, hh, Bool.not_false, Bool.true_and, decide_eq_true_eq]
  exact hs

/-- The first tick on `lw_add_core` leaves `lw_add_core_1`. -/
theorem lw_add_first_tick :
    tick_func { imm := 0, alu_ctrl := 0 } lw_add_core = some (lw_add_core_1, true) := by
  rfl

/-- The stall branch seen from outside: it is taken exactly when the call returns `true` and
leaves `stall` set. -/
theorem stall_branch_iff (u : indeterminate_t) (core : core_t) :
    stall_branch core = true ↔ ∃ c, tick_func u core = some (c, true) ∧ c.stall ≠ 0 := by
  constructor
  · intro h
    obtain ⟨pc, ht, _⟩ := tick_func_stall u core h
    exact ⟨_, ht, by simp⟩
  · rintro ⟨c, ht, hc⟩
    cases hf : instruction_fetch core core.if_id with
    | none =>
      rw [tick_func_undefined u core hf] at ht
      exact absurd ht (by simp)
    | some r =>
      obtain ⟨c1, f1⟩ := r
      by_cases hh : c1.halt = true
      · rw [tick_func_halt u core c1 f1 hf hh] at ht
        simp at ht
      · have hh' : c1.halt = false := by simpa using hh
        by_cases hs : (hazard_detection_unit c1 f1 c1.id_ex).stall = 0
        · rw [tick_func_commit u core c1 f1 hf hh' hs] at ht
          split at ht
          · exact absurd ht (by simp)
          · split at ht
            · exact absurd ht (by simp)
            · split at ht
              · exact absurd ht (by simp)
              · simp only [Option.some.injEq, Prod.mk.injEq] at ht
                rw [← ht.1] at hc
                exact absurd rfl hc
        · exact stall_branch_of_fetch core c1 f1 hf hh' hs

/-! ## the stall branch -/

/-- C5: a load-use stall lasts one cycle. When a call of `tick_func` takes the stall branch it
returns `true` and the state it leaves does not take the stall branch on the next call. -/
theorem stall_lasts_one_tick (u : indeterminate_t) (core : core_t)
    (h : stall_branch core = true) :
    ∃ core', tick_func u core = some (core', true) ∧ stall_branch core' = false := by
  obtain ⟨pc, ht, hhalt, hne, _⟩ := tick_func_stall u core h
  refine ⟨_, ht, ?_⟩
  have hemp : core.instr_mem.isEmpty = false := by
    cases hl : core.instr_mem with
    | nil => exact absurd hl hne
    | cons a l => rfl
  unfold stall_branch instruction_fetch
  simp only [hemp, Bool.false_eq_true, if_false, ne_eq, one_ne_zero, not_false_eq_true,
    if_true, hhalt, Bool.not_false, Bool.true_and]
  unfold hazard_detection_unit control_signals_zero
  simp

/-- Instance of the preceding theorem on the core reached after the first tick of the
`lw`/`add` program. -/
theorem stall_lasts_one_tick_witness :
    stall_branch lw_add_core_1 = true ∧
      ∃ core', tick_func { imm := 0, alu_ctrl := 0 } lw_add_core_1 = some (core', true) ∧
        stall_branch core' = false :=
  ⟨by decide, stall_lasts_one_tick { imm := 0, alu_ctrl := 0 } lw_add_core_1 (by decide)⟩

/-- C7 (evaluation at the failing state): the core reached after the first tick of
`lw x1,0(x0)`; `add x2,x1,x1` has `PC = 4` and takes the stall branch, and the stalling tick
leaves `PC = 8` whatever the indeterminate values are: the program counter advanced during
the stall. -/
theorem stall_tick_advances_PC :
    tick_func { imm := 0, alu_ctrl := 0 } lw_add_core = some (lw_add_core_1, true) ∧
      lw_add_core_1.PC = 4 ∧ stall_branch lw_add_core_1 = true ∧
      ∀ u, (tick_func u lw_add_core_1).map (fun r => (r.1.PC, r.2)) = some (8, true) := by
  refine ⟨lw_add_first_tick, rfl, by decide, ?_⟩
  intro u
  obtain ⟨pc, ht, _, _, hpc⟩ := tick_func_stall u lw_add_core_1 (by decide)
  rw [ht]
  rcases hpc with ⟨_, hpc⟩ | ⟨hs, _⟩
  · rw [hpc]
    rfl
  · exact absurd rfl hs

/-- C8: a call of `tick_func` that takes the stall branch returns `true`, leaves IF/ID,
EX/MEM, MEM/WB, the register file and data memory unchanged, replaces the control signals of
ID/EX by the all-zero bundle while keeping the other fields of ID/EX, and increases the
clock by exactly 1. -/
theorem stall_tick_frame (u : indeterminate_t) (core : core_t)
    (h : stall_branch core = true) :
    ∃ core', tick_func u core = some (core', true) ∧
      core'.if_id = core.if_id ∧ core'.ex_mem = core.ex_mem ∧ core'.mem_wb = core.mem_wb ∧
      core'.reg_file = core.reg_file ∧ core'.data_mem = core.data_mem ∧
      core'.id_ex = { core.id_ex with control := control_signals_zero } ∧
      core'.id_ex.control.RegWrite = 0 ∧ core'.id_ex.control.MemRead = 0 ∧
      core'.id_ex.control.MemWrite = 0 ∧ core'.id_ex.control.MemtoReg = 0 ∧
      core'.id_ex.control.Branch = 0 ∧ core'.id_ex.control.ALUSrc = 0 ∧
      core'.id_ex.control.ALUOp = 0 ∧
      core'.clk = core.clk + 1 := by
  obtain ⟨pc, ht, _⟩ := tick_func_stall u core h
  exact ⟨_, ht, rfl, rfl, rfl, rfl, rfl, rfl, rfl, rfl, rfl, rfl, rfl, rfl, rfl, rfl⟩

/-- Instance of the preceding theorem on the core reached after the first tick of the
`lw`/`add` program. -/
theorem stall_tick_frame_witness :
    stall_branch lw_add_core_1 = true ∧
      ∃ core', tick_func { imm := 0, alu_ctrl := 0 } lw_add_core_1 = some (core', true) ∧
        core'.if_id = lw_add_core_1.if_id ∧ core'.ex_mem = lw_add_core_1.ex_mem ∧
        core'.mem_wb = lw_add_core_1.mem_wb ∧
        core'.reg_file = lw_add_core_1.reg_file ∧ core'.data_mem = lw_add_core_1.data_mem ∧
        core'.id_ex = { lw_add_core_1.id_ex with control := control_signals_zero } ∧
        core'.id_ex.control.RegWrite = 0 ∧ core'.id_ex.control.MemRead = 0 ∧
        core'.id_ex.control.MemWrite = 0 ∧ core'.id_ex.control.MemtoReg = 0 ∧
        core'.id_ex.control.Branch = 0 ∧ core'.id_ex.control.ALUSrc = 0 ∧
        core'.id_ex.control.ALUOp = 0 ∧
        core'.clk = lw_add_core_1.clk + 1 :=
  ⟨by decide, stall_tick_frame { imm := 0, alu_ctrl := 0 } lw_add_core_1 (by decide)⟩

/-! ## register 0 -/

/-- Register 0 and the stages that name it. From a core with `reg_file[0] = 0`, `write_back`
with any MEM/WB content leaves `reg_file[0] = 0` (it is defined whenever register-write is
clear or the destination index lies inside the register file), and so does every call of
`tick_func` whose memory access lies inside `data_mem`. A store behind `data_mem` is not
covered: see `addi_sw_1024_core`. -/
theorem reg_zero_preserved (u : indeterminate_t) (core : core_t) (mem_wb : MEM_WB_t)
    (h0 : core.reg_file 0 = 0) :
    (∀ c, write_back core mem_wb = some c → c.reg_file 0 = 0) ∧
      (mem_wb.control.RegWrite = 0 ∨ mem_wb.rd < NUM_REGISTERS →
        ∃ c, write_back core mem_wb = some c) ∧
      (∀ c b, tick_func u core = some (c, b) → c.reg_file 0 = 0) := by
  refine ⟨?_, ?_, ?_⟩
  · intro c hc
    rw [write_back_reg_zero core c mem_wb hc]
    exact h0
  · intro hd
    unfold write_back
    by_cases h1 : mem_wb.control.RegWrite ≠ 0
    · have h3 : mem_wb.rd < NUM_REGISTERS := by
        rcases hd with hd | hd
        · exact absurd hd h1
        · exact hd
      rw [if_pos h1]
      by_cases h2 : mem_wb.rd ≠ 0
      · simp only []
        rw [if_pos h2, if_pos h3]
        exact ⟨_, rfl⟩
      · simp only []
        rw [if_neg h2]
        exact ⟨_, rfl⟩
    · rw [if_neg h1]
      exact ⟨_, rfl⟩
  · intro c b ht
    cases hf : instruction_fetch core core.if_id with
    | none =>
      rw [tick_func_undefined u core hf] at ht
      exact absurd ht (by simp)
    | some r =>
      obtain ⟨c1, f1⟩ := r
      have hc1 : c1.reg_file = core.reg_file := by
        rw [instruction_fetch_frame core c1 core.if_id f1 hf]
      by_cases hh : c1.halt = true
      · rw [tick_func_halt u core c1 f1 hf hh] at ht
        simp only [Option.some.injEq, Prod.mk.injEq] at ht
        rw [← ht.1, hc1]
        exact h0
      · have hh' : c1.halt = false := by simpa using hh
        by_cases hs : (hazard_detection_unit c1 f1 c1.id_ex).stall = 0
        · rw [tick_func_commit u core c1 f1 hf hh' hs] at ht
          obtain ⟨a, b', hd⟩ := detect_and_forward_frame { c1 with stall := 0 }
          split at ht
          · exact absurd ht (by simp)
          · rename_i c4 wb hm
            split at ht
            · exact absurd ht (by simp)
            · rename_i c5 hw
              split at ht
              · exact absurd ht (by simp)
              · simp only [Option.some.injEq, Prod.mk.injEq] at ht
                rw [← ht.1]
                show c5.reg_file 0 = 0
                rw [write_back_reg_zero c4 c5 wb hw, memory_access_frame _ _ _ _ _ hm, hd]
                show c1.reg_file 0 = 0
                rw [hc1]
                exact h0
        · obtain ⟨pc, hst, _⟩ :=
            tick_func_stall u core (stall_branch_of_fetch core c1 f1 hf hh' hs)
          rw [hst] at ht
          simp only [Option.some.injEq, Prod.mk.injEq] at ht
          rw [← ht.1]
          exact h0

/-- Instance of the preceding theorem on the initial core of the `lw`/`add` program, with the
MEM/WB content of a load into register 1. -/
theorem reg_zero_preserved_witness :
    lw_add_core.reg_file 0 = 0 ∧
      (∃ c, write_back lw_add_core lw_add_core_1.mem_wb = some c ∧ c.reg_file 0 = 0) ∧
      (∃ c b, tick_func { imm := 0, alu_ctrl := 0 } lw_add_core = some (c, b) ∧
        c.reg_file 0 = 0) := by
  have h := reg_zero_preserved { imm := 0, alu_ctrl := 0 } lw_add_core lw_add_core_1.mem_wb rfl
  refine ⟨rfl, ?_, lw_add_core_1, true, lw_add_first_tick, h.2.2 _ _ lw_add_first_tick⟩
  obtain ⟨c, hc⟩ := h.2.1 (Or.inr (by decide))
  exact ⟨c, hc, h.1 c hc⟩

/-! ## runs without stalls -/

theorem load_words_length (ws : List Nat) : ∀ pc, (load_words pc ws).length = ws.length := by
  induction ws with
  | nil => intro pc; rfl
  | cons w ws ih => intro pc; simp [load_words, ih]

theorem load_words_getLast (ws : List Nat) :
    ∀ pc, ws ≠ [] → ∃ last, (load_words pc ws).getLast? = some last ∧
      last.addr + 4 = pc + 4 * ws.length := by
  induction ws with
  | nil => intro pc h; exact absurd rfl h
  | cons w ws ih =>
    intro pc _
    cases ws with
    | nil => exact ⟨_, rfl, by simp [load_words]⟩
    | cons w2 ws2 =>
      obtain ⟨last, hl, ha⟩ := ih (pc + 4) (by simp)
      refine ⟨last, ?_, ?_⟩
      · simp only [load_words] at hl ⊢
        rw [List.getLast?_cons_cons]
        exact hl
      · simp only [List.length_cons] at ha ⊢
        omega

/-- One tick that does not stall, from a core that is neither stalled nor halted and whose
`PC` is aligned and inside the program: the fetch advances `PC` by 4, the clock advances by
1, and the call returns `true` exactly when the new `PC` is below `last->addr + 4`. -/
theorem tick_func_no_stall (u : indeterminate_t) (c c' : core_t) (b : Bool)
    (hst : c.stall = 0) (hh : c.halt = false) (hpc : c.PC % 4 = 0)
    (hlt : c.PC / 4 < c.instr_mem.length) (hns : stall_branch c = false)
    (ht : tick_func u c = some (c', b)) :
    c'.PC = c.PC + 4 ∧ c'.clk = c.clk + 1 ∧ c'.halt = false ∧ c'.stall = 0 ∧
      c'.instr_mem = c.instr_mem ∧
      ∃ last, c.instr_mem.getLast? = some last ∧ b = decide (c.PC + 4 < last.addr + 4) := by
  cases hf : instruction_fetch c c.if_id with
  | none =>
    rw [tick_func_undefined u c hf] at ht
    exact absurd ht (by simp)
  | some r =>
    obtain ⟨c1, f1⟩ := r
    obtain ⟨_, hc⟩ := instruction_fetch_cases c c1 c.if_id f1 hf
    have hc1 : c1 = { c with PC := c.PC + 4 } := by
      rcases hc with ⟨hs, _⟩ | ⟨_, hbad, _⟩ | ⟨_, _, _, hc1, _⟩
      · exact absurd hst hs
      · rcases hbad with hbad | hbad
        · omega
        · exact absurd hpc hbad
      · exact hc1
    have hh1 : c1.halt = false := by rw [hc1]; exact hh
    have hs1 : (hazard_detection_unit c1 f1 c1.id_ex).stall = 0 := by
      by_contra hs1
      rw [stall_branch_of_fetch c c1 f1 hf hh1 hs1] at hns
      exact absurd hns (by simp)
    rw [tick_func_commit u c c1 f1 hf hh1 hs1] at ht
    obtain ⟨a, fb, hd⟩ := detect_and_forward_frame { c1 with stall := 0 }
    split at ht
    · exact absurd ht (by simp)
    · rename_i c4 wb hm
      split at ht
      · exact absurd ht (by simp)
      · rename_i c5 hw
        have hPC : c5.PC = c.PC + 4 := by
          rw [write_back_frame _ _ _ hw, memory_access_frame _ _ _ _ _ hm, hd, hc1]
        have hclk : c5.clk = c.clk := by
          rw [write_back_frame _ _ _ hw, memory_access_frame _ _ _ _ _ hm, hd, hc1]
        have hhalt : c5.halt = false := by
          rw [write_back_frame _ _ _ hw, memory_access_frame _ _ _ _ _ hm, hd]
          exact hh1
        have him : c5.instr_mem = c.instr_mem := by
          rw [write_back_frame _ _ _ hw, memory_access_frame _ _ _ _ _ hm, hd, hc1]
        split at ht
        · exact absurd ht (by simp)
        · rename_i last hl
          simp only [Option.some.injEq, Prod.mk.injEq] at ht
          obtain ⟨ht1, ht2⟩ := ht
          rw [← ht1, ← ht2]
          refine ⟨hPC, ?_, hhalt, rfl, him, last, ?_, ?_⟩
          · show c5.clk + 1 = c.clk + 1
            rw [hclk]
          · rw [← him]
            exact hl
          · rw [hPC]

theorem main_loop_no_stall (us : Nat → indeterminate_t) (n : Nat) :
    ∀ j (c : core_t) k, k + (j + 1) = n → c.stall = 0 → c.halt = false → c.PC = 4 * k →
      c.clk = k → c.instr_mem.length = n →
      (∃ last, c.instr_mem.getLast? = some last ∧ last.addr + 4 = 4 * n) →
      (∀ i ≤ j + 1, (core_after us i c k).isSome = true) →
      (∀ i < j + 1, ∀ x, core_after us i c k = some x → stall_branch x = false) →
      ∃ c', main_loop us (j + 1) c k 0 = some (c', n, 0) ∧ c'.clk = n ∧ c'.halt = false := by
  intro j
  induction j with
  | zero =>
    intro c k hk hst hh hpc hclk hlen hlast hdef hns
    have hns0 : stall_branch c = false := hns 0 (by omega) c rfl
    have hd1 := hdef 1 (by omega)
    cases ht : tick_func (us k) c with
    | none => simp [core_after, ht] at hd1
    | some r =>
      obtain ⟨c', b⟩ := r
      obtain ⟨h1, h2, h3, _, _, last, hl, hb⟩ :=
        tick_func_no_stall (us k) c c' b hst hh (by omega) (by omega) hns0 ht
      obtain ⟨last', hl', ha⟩ := hlast
      rw [hl] at hl'
      simp only [Option.some.injEq] at hl'
      subst hl'
      have hbf : b = false := by
        rw [hb]
        simp only [decide_eq_false_iff_not]
        omega
      subst hbf
      refine ⟨c', ?_, by omega, h3⟩
      simp only [main_loop, hns0, ht, Bool.false_eq_true, if_false]
      have : k + 1 = n := by omega
      rw [this]
  | succ j ih =>
    intro c k hk hst hh hpc hclk hlen hlast hdef hns
    have hns0 : stall_branch c = false := hns 0 (by omega) c rfl
    have hd1 := hdef 1 (by omega)
    cases ht : tick_func (us k) c with
    | none => simp [core_after, ht] at hd1
    | some r =>
      obtain ⟨c', b⟩ := r
      obtain ⟨h1, h2, h3, h4, h5, last, hl, hb⟩ :=
        tick_func_no_stall (us k) c c' b hst hh (by omega) (by omega) hns0 ht
      obtain ⟨last', hl', ha⟩ := hlast
      rw [hl] at hl'
      simp only [Option.some.injEq] at hl'
      subst hl'
      have hbt : b = true := by
        rw [hb]
        simp only [decide_eq_true_eq]
        omega
      subst hbt
      have hstep : ∀ i, core_after us (i + 1) c k = core_after us i c' (k + 1) := by
        intro i
        simp only [core_after, ht]
      obtain ⟨c'', hm, hc1, hc2⟩ := ih c' (k + 1) (by omega) h4 h3 (by omega) (by omega)
        (by rw [h5]; exact hlen) ⟨last, by rw [h5]; exact hl, ha⟩
        (fun i hi => by rw [← hstep]; exact hdef (i + 1) (by omega))
        (fun i hi x hx => hns (i + 1) (by omega) x (by rw [hstep]; exact hx))
      refine ⟨c'', ?_, hc1, hc2⟩
      rw [← hm]
      simp only [main_loop, hns0, ht, Bool.false_eq_true, if_false]

/-- C6 (as stated, refuted): the one-instruction program `addi x1,x0,5`, which has no data
dependency, first returns `false` on call 1 with clock 1 and `halt` clear, not on call
`1 + 4` with clock `1 + 4`. Moreover a program without register dependencies can stall: in
`lw x5,0(x0)`; `addi x1,x0,5` the `addi` reads only register 0, but bits 20-24 of its word
(the low bits of the immediate 5) equal the destination of the `lw`, and the second call
takes the stall branch. -/
theorem no_dependency_runs :
    (main_loop (fun _ => { imm := 0, alu_ctrl := 0 }) 8
        (init_core (load_words 0 [addi_x1_x0_5]) 0 0 0) 0 0).map
      (fun r => (r.2.1, r.2.2, r.1.clk, r.1.halt,
        decide (r.2.1 = [addi_x1_x0_5].length + 4), decide (r.1.clk = [addi_x1_x0_5].length + 4)))
      = some (1, 0, 1, false, false, false) ∧
    reg_field addi_x1_x0_5 15 = 0 ∧
    (main_loop (fun _ => { imm := 0, alu_ctrl := 0 }) 8
        (init_core (load_words 0 [parse_I_type 3 2 5 0 0, addi_x1_x0_5]) 0 0 0) 0 0).map
      (fun r => (r.2.1, r.2.2)) = some (3, 1) := by
  decide

/-- C6 (amended): for a non-empty program of `n` words loaded at addresses `0, 4, ...` and run
from the initial core with `stall` clear, if none of the first `n` calls of `tick_func` takes
the stall branch and all of them are defined, then `tick_func` returns `true` on calls
`1 .. n - 1` and first returns `false` on call `n`, with clock `n` and `halt` clear. -/
theorem no_stall_run_length (us : Nat → indeterminate_t) (ws : List Nat) (fa fb : Nat)
    (hne : ws ≠ [])
    (hns : ∀ i < ws.length,
      (core_after us i (init_core (load_words 0 ws) 0 fa fb) 0).map stall_branch = some false)
    (hdef : (core_after us ws.length (init_core (load_words 0 ws) 0 fa fb) 0).isSome = true) :
    ∃ c, main_loop us ws.length (init_core (load_words 0 ws) 0 fa fb) 0 0
          = some (c, ws.length, 0) ∧
      c.clk = ws.length ∧ c.halt = false := by
  obtain ⟨j, hj⟩ : ∃ j, ws.length = j + 1 := by
    cases ws with
    | nil => exact absurd rfl hne
    | cons w l => exact ⟨l.length, rfl⟩
  obtain ⟨last, hl, ha⟩ := load_words_getLast ws 0 hne
  have hdef' : ∀ i ≤ j + 1,
      (core_after us i (init_core (load_words 0 ws) 0 fa fb) 0).isSome = true := by
    intro i hi
    by_cases hi' : i < ws.length
    · have := hns i hi'
      cases hc : core_after us i (init_core (load_words 0 ws) 0 fa fb) 0 with
      | none => rw [hc] at this; exact absurd this (by simp)
      | some x => rfl
    · have : i = ws.length := by omega
      rw [this]
      exact hdef
  have hns' : ∀ i < j + 1, ∀ x,
      core_after us i (init_core (load_words 0 ws) 0 fa fb) 0 = some x →
        stall_branch x = false := by
    intro i hi x hx
    have := hns i (by omega)
    rw [hx] at this
    simpa using this
  have := main_loop_no_stall us ws.length j (init_core (load_words 0 ws) 0 fa fb) 0
    (by omega) rfl rfl rfl rfl (load_words_length ws 0) ⟨last, hl, by omega⟩ hdef' hns'
  rw [hj]
  rw [hj] at this
  exact this

/-- Instance of the preceding theorem on the three-instruction program `addi`, `addi`,
`add`. -/
theorem no_stall_run_length_witness :
    addi_addi_add ≠ [] ∧
      (∀ i < addi_addi_add.length,
        (core_after (fun _ => { imm := 0, alu_ctrl := 0 }) i
          (init_core (load_words 0 addi_addi_add) 0 0 0) 0).map stall_branch = some false) ∧
      (core_after (fun _ => { imm := 0, alu_ctrl := 0 }) addi_addi_add.length
          (init_core (load_words 0 addi_addi_add) 0 0 0) 0).isSome = true ∧
      ∃ c, main_loop (fun _ => { imm := 0, alu_ctrl := 0 }) addi_addi_add.length
            (init_core (load_words 0 addi_addi_add) 0 0 0) 0 0
            = some (c, addi_addi_add.length, 0) ∧
        c.clk = addi_addi_add.length ∧ c.halt = false :=
  ⟨by decide, by decide, by decide,
    no_stall_run_length (fun _ => { imm := 0, alu_ctrl := 0 }) addi_addi_add 0 0 (by decide)
      (by decide) (by decide)⟩

/-! ## independence of the indeterminate values -/

theorem detect_and_forward_eq (core : core_t) :
    detect_and_forward core =
      { core with
          forwardA := forward_rule core.stall core.ex_mem core.mem_wb
            (reg_field core.id_ex.instruction 15)
          forwardB := forward_rule core.stall core.ex_mem core.mem_wb
            (reg_field core.id_ex.instruction 20) } := by
  obtain ⟨a, b, h⟩ := detect_and_forward_frame core
  obtain ⟨hA, hB⟩ := detect_and_forward_selectors core
  rw [h] at hA hB
  rw [h]
  simp only at hA hB
  rw [hA, hB]

theorem instruction_fetch_with_dead (a b x : Nat) (c : core_t) (f : IF_ID_t) :
    instruction_fetch (with_dead a b x c) f =
      (instruction_fetch c f).map (fun r => (with_dead a b x r.1, r.2)) := by
  unfold instruction_fetch
  show (if c.instr_mem.isEmpty then none else _) = _
  by_cases he : c.instr_mem.isEmpty = true
  · rw [if_pos he, if_pos he]; rfl
  · rw [if_neg he, if_neg he]
    show (if c.stall ≠ 0 then _ else _) = _
    by_cases hs : c.stall ≠ 0
    · rw [if_pos hs, if_pos hs]; rfl
    · rw [if_neg hs, if_neg hs]
      show (if c.PC / 4 ≥ c.instr_mem.length then _ else _) = _
      by_cases h1 : c.PC / 4 ≥ c.instr_mem.length
      · rw [if_pos h1, if_pos h1]; rfl
      · rw [if_neg h1, if_neg h1]
        show (if c.PC % 4 ≠ 0 then _ else _) = _
        by_cases h2 : c.PC % 4 ≠ 0
        · rw [if_pos h2, if_pos h2]; rfl
        · rw [if_neg h2, if_neg h2]
          show (if c.PC / 4 % 2 ^ 32 ≥ c.instr_mem.length then _ else _) = _
          by_cases h3 : c.PC / 4 % 2 ^ 32 ≥ c.instr_mem.length
          · rw [if_pos h3, if_pos h3]; rfl
          · rw [if_neg h3, if_neg h3]
            show (match c.instr_mem[c.PC / 4 % 2 ^ 32]? with
                  | none => none
                  | some instruction => _) = _
            cases c.instr_mem[c.PC / 4 % 2 ^ 32]? <;> rfl

theorem hazard_detection_unit_with_dead (a b x : Nat) (c : core_t) (f : IF_ID_t) :
    hazard_detection_unit (with_dead a b x c) f (with_dead a b x c).id_ex =
      with_dead a b x (hazard_detection_unit c f c.id_ex) := by
  unfold hazard_detection_unit
  show (if c.id_ex.control.MemRead ≠ 0 then _ else _) = _
  by_cases h1 : c.id_ex.control.MemRead ≠ 0
  · rw [if_pos h1, if_pos h1]
    show (if c.id_ex.rd ≠ 0 ∧ (c.id_ex.rd = (f.instruction >>> 15) &&& 0x1F ∨
            c.id_ex.rd = (f.instruction >>> 20) &&& 0x1F) then _ else _) = _
    by_cases h2 : c.id_ex.rd ≠ 0 ∧ (c.id_ex.rd = (f.instruction >>> 15) &&& 0x1F ∨
            c.id_ex.rd = (f.instruction >>> 20) &&& 0x1F)
    · rw [if_pos h2]
      simp only []
      rw [if_pos h2]
      rfl
    · rw [if_neg h2]
      simp only []
      rw [if_neg h2]
      rfl
  · rw [if_neg h1, if_neg h1]
    rfl

theorem detect_and_forward_with_dead (a b x : Nat) (c : core_t) :
    detect_and_forward { with_dead a b x c with stall := 0 } =
      { detect_and_forward { c with stall := 0 } with id_ex := { c.id_ex with imm := x } } := by
  rw [detect_and_forward_eq, detect_and_forward_eq]
  rfl

theorem execute_snd_id_ex (u : indeterminate_t) (c : core_t) (i d : ID_EX_t)
    (ex : EX_MEM_t) :
    (execute u { c with id_ex := i } d ex).2 = (execute u c d ex).2 := by
  unfold execute
  split_ifs <;> rfl

/-- When `execute_determinate` holds, the EX/MEM value computed by `execute` does not depend
on the indeterminate values nor on an immediate that `imm_gen` left unassigned. -/
theorem execute_snd_determinate (u u' : indeterminate_t) (c : core_t) (d : ID_EX_t)
    (ex : EX_MEM_t) (k : Bool) (i i' : Nat) (hk : k = true → i = i')
    (h : execute_determinate c d k = true) :
    (execute u c { d with imm := i } ex).2 = (execute u' c { d with imm := i' } ex).2 := by
  unfold execute_determinate at h
  unfold execute
  simp only []
  by_cases hb : d.control.RegWrite = 0 ∧ d.control.ALUSrc = 0 ∧ d.control.MemRead = 0 ∧
      d.control.MemWrite = 0 ∧ d.control.MemtoReg = 0 ∧ d.control.Branch = 0
  · rw [if_pos hb, if_pos hb]
  · rw [if_neg hb, if_neg hb]
    simp only [hb, decide_False, Bool.false_or, Bool.and_eq_true, Bool.or_eq_true,
      decide_eq_true_eq] at h
    obtain ⟨hctl, himm⟩ := h
    obtain ⟨v, hv⟩ := Option.isSome_iff_exists.mp hctl
    rw [hv]
    simp only [Option.getD_some]
    rcases himm with ((hk' | hf) | hf) | hf
    · rw [hk hk']
    · simp only [hf, if_true]
    · simp only [hf, FORWARD_FROM_MEM_WB, FORWARD_FROM_EX_MEM, if_true, OfNat.ofNat_ne_one,
        if_false]
    · simp only [hf, ne_eq, not_true_eq_false, if_false]

theorem memory_access_id_ex (c : core_t) (i : ID_EX_t) (ex : EX_MEM_t) (wb : MEM_WB_t) :
    memory_access { c with id_ex := i } ex wb =
      (memory_access c ex wb).map (fun r => ({ r.1 with id_ex := i }, r.2)) := by
  unfold memory_access
  split_ifs <;> rfl

theorem write_back_id_ex (c : core_t) (i : ID_EX_t) (wb : MEM_WB_t) :
    write_back { c with id_ex := i } wb =
      (write_back c wb).map (fun r => { r with id_ex := i }) := by
  unfold write_back
  split_ifs <;> rfl

/-- One tick from two cores that differ only in the forward selectors and the staged
immediate: when the tick of the second core is determinate, both ticks are undefined
together, or both return the same value and leave cores that again differ only in those
fields, whatever indeterminate values each of them is given. -/
theorem tick_func_same_live (u u' : indeterminate_t) (a b x : Nat) (s' : core_t)
    (hok : tick_determinate s' = true) :
    (tick_func u' s' = none → tick_func u (with_dead a b x s') = none) ∧
      (∀ c' bo, tick_func u' s' = some (c', bo) →
        ∃ c, tick_func u (with_dead a b x s') = some (c, bo) ∧ same_live c c') := by
  have hfL : instruction_fetch (with_dead a b x s') (with_dead a b x s').if_id =
      (instruction_fetch s' s'.if_id).map (fun r => (with_dead a b x r.1, r.2)) :=
    instruction_fetch_with_dead a b x s' s'.if_id
  cases hf : instruction_fetch s' s'.if_id with
  | none =>
    rw [hf] at hfL
    refine ⟨fun _ => tick_func_undefined u _ hfL, ?_⟩
    intro c' bo h
    rw [tick_func_undefined u' s' hf] at h
    exact absurd h (by simp)
  | some r =>
    obtain ⟨c1, f1⟩ := r
    rw [hf] at hfL
    replace hfL : instruction_fetch (with_dead a b x s') (with_dead a b x s').if_id =
        some (with_dead a b x c1, f1) := hfL
    by_cases hh : c1.halt = true
    · rw [tick_func_halt u' s' c1 f1 hf hh, tick_func_halt u _ _ f1 hfL hh]
      refine ⟨fun h => absurd h (by simp), ?_⟩
      intro c' bo h
      simp only [Option.some.injEq, Prod.mk.injEq] at h
      rw [← h.1, ← h.2]
      exact ⟨_, rfl, a, b, x, rfl⟩
    · have hh' : c1.halt = false := by simpa using hh
      have hzL := hazard_detection_unit_with_dead a b x c1 f1
      by_cases hs : (hazard_detection_unit c1 f1 c1.id_ex).stall = 0
      · have hsL : (hazard_detection_unit (with_dead a b x c1) f1
            (with_dead a b x c1).id_ex).stall = 0 := by
          rw [hzL]
          exact hs
        have hdet : execute_determinate (detect_and_forward { c1 with stall := 0 })
            (instruction_decode { imm := 0, alu_ctrl := 0 } { c1 with stall := 0 } f1
              s'.id_ex).2 (imm_gen f1.instruction).isSome = true := by
          unfold tick_determinate at hok
          simp only [hf, hh', hs, ne_eq, not_true_eq_false, decide_False, Bool.or_self,
            Bool.false_or] at hok
          rw [hh']
          exact hok
        have hE : (execute u (detect_and_forward { c1 with stall := 0 })
              (instruction_decode u { with_dead a b x c1 with stall := 0 } f1
                (with_dead a b x s').id_ex).2 (with_dead a b x s').ex_mem).2 =
            (execute u' (detect_and_forward { c1 with stall := 0 })
              (instruction_decode u' { c1 with stall := 0 } f1 s'.id_ex).2 s'.ex_mem).2 := by
          refine execute_snd_determinate u u' (detect_and_forward { c1 with stall := 0 })
            (instruction_decode { imm := 0, alu_ctrl := 0 } { c1 with stall := 0 } f1
              s'.id_ex).2 s'.ex_mem (imm_gen f1.instruction).isSome
            ((imm_gen f1.instruction).getD u.imm % 2 ^ 32)
            ((imm_gen f1.instruction).getD u'.imm % 2 ^ 32) ?_ hdet
          intro hk
          obtain ⟨v, hv⟩ := Option.isSome_iff_exists.mp hk
          rw [hv]
          rfl
        have hL := tick_func_commit u (with_dead a b x s') (with_dead a b x c1) f1 hfL hh' hsL
        have hR := tick_func_commit u' s' c1 f1 hf hh' hs
        have hmw : (with_dead a b x s').mem_wb = s'.mem_wb := rfl
        rw [detect_and_forward_with_dead, execute_snd_id_ex, hE, memory_access_id_ex, hmw] at hL
        cases hm : memory_access (detect_and_forward { c1 with stall := 0 })
            (execute u' (detect_and_forward { c1 with stall := 0 })
              (instruction_decode u' { c1 with stall := 0 } f1 s'.id_ex).2 s'.ex_mem).2
            s'.mem_wb with
        | none =>
          simp only [hm, Option.map_none'] at hL hR
          refine ⟨fun _ => hL, fun c' bo h => ?_⟩
          rw [hR] at h
          exact absurd h (by simp)
        | some r4 =>
          obtain ⟨c4, wb⟩ := r4
          simp only [hm, Option.map_some'] at hL hR
          rw [write_back_id_ex] at hL
          cases hw : write_back c4 wb with
          | none =>
            simp only [hw, Option.map_none'] at hL hR
            refine ⟨fun _ => hL, fun c' bo h => ?_⟩
            rw [hR] at h
            exact absurd h (by simp)
          | some c5 =>
            simp only [hw, Option.map_some'] at hL hR
            cases hl : c5.instr_mem.getLast? with
            | none =>
              simp only [hl] at hL hR
              refine ⟨fun _ => hL, fun c' bo h => ?_⟩
              rw [hR] at h
              exact absurd h (by simp)
            | some last =>
              simp only [hl] at hL hR
              refine ⟨fun h => ?_, fun c' bo h => ?_⟩
              · rw [hR] at h
                exact absurd h (by simp)
              · rw [hR] at h
                simp only [Option.some.injEq, Prod.mk.injEq] at h
                rw [← h.1, ← h.2]
                exact ⟨_, hL, c5.forwardA, c5.forwardB,
                  (imm_gen f1.instruction).getD u.imm % 2 ^ 32, rfl⟩
      · have hsb : stall_branch s' = true := stall_branch_of_fetch s' c1 f1 hf hh' hs
        have hsbL : stall_branch (with_dead a b x s') = true :=
          stall_branch_of_fetch _ _ f1 hfL hh' (by rw [hzL]; exact hs)
        obtain ⟨pc, ht, _, _, hpc⟩ := tick_func_stall u' s' hsb
        obtain ⟨pcL, htL, _, _, hpcL⟩ := tick_func_stall u _ hsbL
        have hst : (with_dead a b x s').stall = s'.stall := rfl
        have hPC : (with_dead a b x s').PC = s'.PC := rfl
        rw [hst, hPC] at hpcL
        have hpp : pcL = pc := by
          rcases hpc with ⟨h1, h2⟩ | ⟨h1, h2⟩ <;> rcases hpcL with ⟨h3, h4⟩ | ⟨h3, h4⟩
          · rw [h2, h4]
          · exact absurd h1 h3
          · exact absurd h3 h1
          · rw [h2, h4]
        subst hpp
        rw [ht, htL]
        refine ⟨fun h => absurd h (by simp), fun c' bo h => ?_⟩
        simp only [Option.some.injEq, Prod.mk.injEq] at h
        rw [← h.1, ← h.2]
        exact ⟨_, rfl, a, b, x, rfl⟩

theorem stall_branch_with_dead (a b x : Nat) (s' : core_t) :
    stall_branch (with_dead a b x s') = stall_branch s' := by
  unfold stall_branch
  have hfL : instruction_fetch (with_dead a b x s') (with_dead a b x s').if_id =
      (instruction_fetch s' s'.if_id).map (fun r => (with_dead a b x r.1, r.2)) :=
    instruction_fetch_with_dead a b x s' s'.if_id
  rw [hfL]
  cases hf : instruction_fetch s' s'.if_id with
  | none => rfl
  | some r =>
    obtain ⟨c1, f1⟩ := r
    simp only [Option.map_some']
    rw [hazard_detection_unit_with_dead]
    rfl

/-- A run from two cores that differ only in the forward selectors and the staged immediate:
when every call of the second run is determinate, the first run ends after the same number
of calls with the same number of stalls, whatever indeterminate values it is given, in a
core that again differs only in those fields. -/
theorem main_loop_same_live (us us' : Nat → indeterminate_t) :
    ∀ fuel (s s' : core_t) calls stalls, same_live s s' →
      run_determinate us' fuel s' calls = true →
      ∀ c' n st, main_loop us' fuel s' calls stalls = some (c', n, st) →
        ∃ c, main_loop us fuel s calls stalls = some (c, n, st) ∧ same_live c c' := by
  intro fuel
  induction fuel with
  | zero =>
    intro s s' calls stalls _ _ c' n st h
    simp [main_loop] at h
  | succ fuel ih =>
    intro s s' calls stalls hl hok c' n st h
    obtain ⟨a, b, x, rfl⟩ := hl
    unfold run_determinate at hok
    simp only [Bool.and_eq_true] at hok
    obtain ⟨hok1, hok2⟩ := hok
    obtain ⟨hT1, hT2⟩ := tick_func_same_live (us calls) (us' calls) a b x s' hok1
    unfold main_loop at h ⊢
    rw [stall_branch_with_dead]
    cases ht : tick_func (us' calls) s' with
    | none =>
      rw [ht] at h
      exact absurd h (by simp)
    | some r =>
      obtain ⟨c1', bo⟩ := r
      obtain ⟨c1, htL, hl1⟩ := hT2 c1' bo ht
      rw [ht] at h hok2
      rw [htL]
      cases bo with
      | true =>
        simp only at h hok2 ⊢
        exact ih c1 c1' (calls + 1) _ hl1 hok2 c' n st h
      | false =>
        simp only [Option.some.injEq, Prod.mk.injEq] at h ⊢
        obtain ⟨h1, h2, h3⟩ := h
        exact ⟨c1, ⟨rfl, h2, h3⟩, by rw [← h1]; exact hl1⟩

theorem main_loop_more_fuel (us : Nat → indeterminate_t) (k : Nat) :
    ∀ fuel (s : core_t) calls stalls r, main_loop us fuel s calls stalls = some r →
      main_loop us (k + fuel) s calls stalls = some r := by
  intro fuel
  induction fuel with
  | zero =>
    intro s calls stalls r h
    simp [main_loop] at h
  | succ fuel ih =>
    intro s calls stalls r h
    show main_loop us (k + fuel + 1) s calls stalls = some r
    unfold main_loop at h ⊢
    cases ht : tick_func (us calls) s with
    | none =>
      rw [ht] at h
      exact absurd h (by simp)
    | some q =>
      obtain ⟨c1, bo⟩ := q
      rw [ht] at h
      cases bo with
      | true =>
        simp only at h ⊢
        exact ih c1 (calls + 1) _ r h
      | false =>
        simp only at h ⊢
        exact h

theorem hazard_stall_indep (c c' : core_t) (f : IF_ID_t) (i : ID_EX_t) :
    (hazard_detection_unit c f i).stall = (hazard_detection_unit c' f i).stall := by
  unfold hazard_detection_unit
  dsimp only
  split_ifs <;> rfl

/-- Only whether `stall` is zero matters on entry to a tick of a core that is not halted. -/
theorem tick_func_stall_set (u : indeterminate_t) (core : core_t) (hs : core.stall ≠ 0)
    (hh : core.halt = false) :
    tick_func u core = tick_func u { core with stall := 1 } ∧
      stall_branch core = stall_branch { core with stall := 1 } := by
  by_cases he : core.instr_mem.isEmpty = true
  · have hf : instruction_fetch core core.if_id = none := by
      unfold instruction_fetch
      rw [if_pos he]
    have hf1 : instruction_fetch { core with stall := 1 } core.if_id = none := by
      unfold instruction_fetch
      rw [if_pos he]
    constructor
    · rw [tick_func_undefined u core hf, tick_func_undefined u _ hf1]
    · unfold stall_branch
      rw [hf, hf1]
  · have hf : instruction_fetch core core.if_id = some (core, core.if_id) := by
      unfold instruction_fetch
      rw [if_neg he, if_pos hs]
    have hf1 : instruction_fetch { core with stall := 1 } core.if_id =
        some ({ core with stall := 1 }, core.if_id) := by
      unfold instruction_fetch
      rw [if_neg he]
      simp only [ne_eq, one_ne_zero, not_false_eq_true, if_true]
    have hz := hazard_stall_indep core { core with stall := 1 } core.if_id
      core.id_ex
    by_cases hz0 : (hazard_detection_unit core core.if_id core.id_ex).stall = 0
    · constructor
      · rw [tick_func_commit u core core core.if_id hf hh hz0,
          tick_func_commit u { core with stall := 1 } { core with stall := 1 } core.if_id hf1
            hh (by rw [← hz]; exact hz0)]
      · unfold stall_branch
        rw [hf, hf1]
        show (!core.halt &&
            decide ((hazard_detection_unit core core.if_id core.id_ex).stall ≠ 0)) =
          (!core.halt &&
            decide ((hazard_detection_unit { core with stall := 1 } core.if_id
              core.id_ex).stall ≠ 0))
        rw [← hz]
    · have hsb := stall_branch_of_fetch core core core.if_id hf hh hz0
      have hsb1 := stall_branch_of_fetch { core with stall := 1 } { core with stall := 1 }
        core.if_id hf1 hh (by rw [← hz]; exact hz0)
      refine ⟨?_, by rw [hsb, hsb1]⟩
      obtain ⟨pc, ht, _, _, hpc⟩ := tick_func_stall u core hsb
      obtain ⟨pc1, ht1, _, _, hpc1⟩ := tick_func_stall u _ hsb1
      rcases hpc with ⟨h1, _⟩ | ⟨_, h2⟩
      · exact absurd h1 hs
      · rcases hpc1 with ⟨h3, _⟩ | ⟨_, h4⟩
        · exact absurd h3 (by simp)
        · rw [ht, ht1, h2, h4]

/-! ## the two scenarios -/

/-- C3 (evaluation at the failing input): the program `lw x1,0(x0)`; `add x2,x1,x1` with the
value 7 at address 0 of data memory, run until `tick_func` returns `false`, makes three calls
of which exactly one stalls, and ends with register 1 equal to 7 and register 2 equal to 0
(not 14), whatever the indeterminate values are. -/
theorem lw_add_run (us : Nat → indeterminate_t) (k : Nat) :
    ∃ c, main_loop us (k + 3) lw_add_core 0 0 = some (c, 3, 1) ∧
      c.reg_file 1 = 7 ∧ c.reg_file 2 = 0 ∧ c.halt = false := by
  have hdet : run_determinate (fun _ => { imm := 0, alu_ctrl := 0 }) 3 lw_add_core 0 = true := by
    decide
  have hrun : (main_loop (fun _ => { imm := 0, alu_ctrl := 0 }) 3 lw_add_core 0 0).map
      (fun r => (r.2, r.1.reg_file 1, r.1.reg_file 2, r.1.halt)) =
      some ((3, 1), 7, 0, false) := by
    decide
  cases h : main_loop (fun _ => { imm := 0, alu_ctrl := 0 }) 3 lw_add_core 0 0 with
  | none =>
    rw [h] at hrun
    exact absurd hrun (by simp)
  | some r =>
    obtain ⟨c', n, st⟩ := r
    rw [h] at hrun
    simp only [Option.map_some', Option.some.injEq, Prod.mk.injEq] at hrun
    obtain ⟨⟨hn, hs⟩, h1, h2, h3⟩ := hrun
    subst hn hs
    obtain ⟨c, hc, a, b, x, hl⟩ := main_loop_same_live us _ 3 lw_add_core lw_add_core 0 0
      ⟨0, 0, 0, rfl⟩ hdet c' 3 1 h
    refine ⟨c, main_loop_more_fuel us k 3 _ 0 0 _ hc, ?_, ?_, ?_⟩
    · rw [hl]; exact h1
    · rw [hl]; exact h2
    · rw [hl]; exact h3

/-- C4: the program `addi x1,x0,5`; `addi x2,x0,10`; `add x3,x1,x2`, run from the initial core
until `tick_func` returns `false`, takes the stall branch in no call and ends with register 3
equal to 15, whatever the indeterminate values and the fields that `init_core` leaves
unassigned (`stall` and the forward selectors) are. It makes three calls when `stall` starts
clear and four otherwise. -/
theorem addi_addi_add_run (us : Nat → indeterminate_t) (st fa fb k : Nat) :
    ∃ c, main_loop us (k + 4) (init_core (load_words 0 addi_addi_add) st fa fb) 0 0
          = some (c, if st = 0 then 3 else 4, 0) ∧
      c.reg_file 3 = 15 ∧ c.halt = false := by
  have key : ∀ st0 n, (main_loop (fun _ => { imm := 0, alu_ctrl := 0 }) 4
        (init_core (load_words 0 addi_addi_add) st0 0 0) 0 0).map
        (fun r => (r.2, r.1.reg_file 3, r.1.halt)) = some ((n, 0), 15, false) →
      run_determinate (fun _ => { imm := 0, alu_ctrl := 0 }) 4
        (init_core (load_words 0 addi_addi_add) st0 0 0) 0 = true →
      ∃ c, main_loop us (k + 4) (init_core (load_words 0 addi_addi_add) st0 fa fb) 0 0
            = some (c, n, 0) ∧
        c.reg_file 3 = 15 ∧ c.halt = false := by
    intro st0 n hrun hdet
    cases h : main_loop (fun _ => { imm := 0, alu_ctrl := 0 }) 4
        (init_core (load_words 0 addi_addi_add) st0 0 0) 0 0 with
    | none =>
      rw [h] at hrun
      exact absurd hrun (by simp)
    | some r =>
      obtain ⟨c', n', s'⟩ := r
      rw [h] at hrun
      simp only [Option.map_some', Option.some.injEq, Prod.mk.injEq] at hrun
      obtain ⟨⟨hn, hs⟩, h1, h2⟩ := hrun
      subst hn hs
      obtain ⟨c, hc, a, b, x, hl⟩ := main_loop_same_live us _ 4
        (init_core (load_words 0 addi_addi_add) st0 fa fb)
        (init_core (load_words 0 addi_addi_add) st0 0 0) 0 0 ⟨fa, fb, 0, rfl⟩ hdet c' _ 0 h
      refine ⟨c, main_loop_more_fuel us k 4 _ 0 0 _ hc, ?_, ?_⟩
      · rw [hl]; exact h1
      · rw [hl]; exact h2
  by_cases hst : st = 0
  · subst hst
    rw [if_pos rfl]
    exact key 0 3 (by decide) (by decide)
  · rw [if_neg hst]
    obtain ⟨c, hc, h1, h2⟩ := key 1 4 (by decide) (by decide)
    refine ⟨c, ?_, h1, h2⟩
    rw [← hc]
    obtain ⟨ht, hsb⟩ := tick_func_stall_set (us 0)
      (init_core (load_words 0 addi_addi_add) st fa fb) hst rfl
    show main_loop us (k + 3 + 1) _ 0 0 = main_loop us (k + 3 + 1) _ 0 0
    unfold main_loop
    rw [ht, hsb]
    rfl

/-- C9 (as stated, refuted): the first tick on the initial core of the `lw`/`add` program
neither halts nor stalls, and the ID/EX, EX/MEM and MEM/WB registers it commits are not what
decode, execute and memory access produce from the IF/ID, ID/EX and EX/MEM registers as they
stood at the start of the call; write-back of the MEM/WB register of the start of the call
leaves register 1 at 0, while the call leaves it at 7. -/
theorem first_tick_runs_all_stages :
    tick_func { imm := 0, alu_ctrl := 0 } lw_add_core = some (lw_add_core_1, true) ∧
      lw_add_core_1.halt = false ∧ stall_branch lw_add_core = false ∧
      lw_add_core_1.id_ex ≠
        (instruction_decode { imm := 0, alu_ctrl := 0 } lw_add_core lw_add_core.if_id
          lw_add_core.id_ex).2 ∧
      lw_add_core_1.ex_mem ≠
        (execute { imm := 0, alu_ctrl := 0 } (detect_and_forward lw_add_core)
          lw_add_core.id_ex lw_add_core.ex_mem).2 ∧
      (memory_access lw_add_core lw_add_core.ex_mem lw_add_core.mem_wb).map
          (fun r => decide (r.2 = lw_add_core_1.mem_wb)) = some false ∧
      (write_back lw_add_core lw_add_core.mem_wb).map (fun c => c.reg_file 1) = some 0 ∧
      lw_add_core_1.reg_file 1 = 7 := by
  refine ⟨lw_add_first_tick, rfl, by decide, by decide, by decide, by decide, by decide, rfl⟩

/-- C9 (amended): in every call of `tick_func` that neither halts nor stalls, the stages are
chained through the shadow registers. With `f1` the IF/ID value returned by the fetch of this
call (the word fetched in this call, or the unchanged IF/ID when the fetch is skipped because
`stall` was still set) and `pc` the program counter it leaves: the committed IF/ID is `f1`,
the committed ID/EX is the decode of `f1`, the committed EX/MEM is what `execute` computes
from that ID/EX, the committed MEM/WB is what `memory_access` produces from that EX/MEM, and
the register file is the one `write_back` leaves from that MEM/WB. The ID/EX, EX/MEM and
MEM/WB registers of the start of the call enter only through the forwarding unit, as the
source of forwarded operands, and as the values the shadow registers start from. -/
theorem tick_stages_chained (u : indeterminate_t) (core c : core_t) (b : Bool)
    (ht : tick_func u core = some (c, b)) (hh : c.halt = false)
    (hs : stall_branch core = false) :
    ∃ pc f1 c4 c5,
      instruction_fetch core core.if_id = some ({ core with PC := pc }, f1) ∧
      c.if_id = f1 ∧
      c.id_ex = (instruction_decode u { core with PC := pc, stall := 0 } f1 core.id_ex).2 ∧
      c.ex_mem = (execute u (detect_and_forward { core with PC := pc, stall := 0 }) c.id_ex
        core.ex_mem).2 ∧
      memory_access (detect_and_forward { core with PC := pc, stall := 0 }) c.ex_mem
        core.mem_wb = some (c4, c.mem_wb) ∧
      write_back c4 c.mem_wb = some c5 ∧
      c.reg_file = c5.reg_file ∧ c.data_mem = c4.data_mem ∧ c.PC = pc ∧
      c.clk = core.clk + 1 ∧ c.stall = 0 := by
  cases hf : instruction_fetch core core.if_id with
  | none =>
    rw [tick_func_undefined u core hf] at ht
    exact absurd ht (by simp)
  | some r =>
    obtain ⟨c1, f1⟩ := r
    by_cases hh1 : c1.halt = true
    · rw [tick_func_halt u core c1 f1 hf hh1] at ht
      simp only [Option.some.injEq, Prod.mk.injEq] at ht
      rw [← ht.1, hh1] at hh
      exact absurd hh (by simp)
    · have hh1' : c1.halt = false := by simpa using hh1
      have hs1 : (hazard_detection_unit c1 f1 c1.id_ex).stall = 0 := by
        by_contra hs1
        rw [stall_branch_of_fetch core c1 f1 hf hh1' hs1] at hs
        exact absurd hs (by simp)
      have hc1 : c1 = { core with PC := c1.PC } := by
        obtain ⟨_, hc⟩ := instruction_fetch_cases core c1 core.if_id f1 hf
        rcases hc with ⟨_, h1, _⟩ | ⟨_, _, h1, _⟩ | ⟨_, _, _, h1, _⟩
        · rw [h1]
        · rw [h1] at hh1'
          exact absurd hh1' (by simp)
        · rw [h1]
      have hc2 : ({ c1 with stall := 0 } : core_t) = { core with PC := c1.PC, stall := 0 } := by
        rw [hc1]
      rw [tick_func_commit u core c1 f1 hf hh1' hs1, hc2] at ht
      split at ht
      · exact absurd ht (by simp)
      · rename_i c4 wb hm
        split at ht
        · exact absurd ht (by simp)
        · rename_i c5 hw
          split at ht
          · exact absurd ht (by simp)
          · simp only [Option.some.injEq, Prod.mk.injEq] at ht
            obtain ⟨ht1, _⟩ := ht
            subst ht1
            refine ⟨c1.PC, f1, c4, c5, ?_, rfl, rfl, rfl, hm, hw, rfl, ?_, ?_, ?_, rfl⟩
            · rw [← hc1]
            · show c5.data_mem = c4.data_mem
              rw [write_back_frame _ _ _ hw]
            · show c5.PC = c1.PC
              obtain ⟨a, fb, hd⟩ := detect_and_forward_frame
                { core with PC := c1.PC, stall := 0 }
              rw [write_back_frame _ _ _ hw, memory_access_frame _ _ _ _ _ hm, hd]
            · show c5.clk + 1 = core.clk + 1
              obtain ⟨a, fb, hd⟩ := detect_and_forward_frame
                { core with PC := c1.PC, stall := 0 }
              rw [write_back_frame _ _ _ hw, memory_access_frame _ _ _ _ _ hm, hd]

/-- Instance of the preceding theorem on the first tick of the `lw`/`add` program. -/
theorem tick_stages_chained_witness :
    tick_func { imm := 0, alu_ctrl := 0 } lw_add_core = some (lw_add_core_1, true) ∧
      lw_add_core_1.halt = false ∧ stall_branch lw_add_core = false ∧
      ∃ pc f1 c4 c5,
        instruction_fetch lw_add_core lw_add_core.if_id =
          some ({ lw_add_core with PC := pc }, f1) ∧
        lw_add_core_1.if_id = f1 ∧
        lw_add_core_1.id_ex = (instruction_decode { imm := 0, alu_ctrl := 0 }
          { lw_add_core with PC := pc, stall := 0 } f1 lw_add_core.id_ex).2 ∧
        lw_add_core_1.ex_mem = (execute { imm := 0, alu_ctrl := 0 }
          (detect_and_forward { lw_add_core with PC := pc, stall := 0 }) lw_add_core_1.id_ex
          lw_add_core.ex_mem).2 ∧
        memory_access (detect_and_forward { lw_add_core with PC := pc, stall := 0 })
          lw_add_core_1.ex_mem lw_add_core.mem_wb = some (c4, lw_add_core_1.mem_wb) ∧
        write_back c4 lw_add_core_1.mem_wb = some c5 ∧
        lw_add_core_1.reg_file = c5.reg_file ∧ lw_add_core_1.data_mem = c4.data_mem ∧
        lw_add_core_1.PC = pc ∧
        lw_add_core_1.clk = lw_add_core.clk + 1 ∧ lw_add_core_1.stall = 0 :=
  ⟨lw_add_first_tick, rfl, by decide,
    tick_stages_chained { imm := 0, alu_ctrl := 0 } lw_add_core lw_add_core_1 true
      lw_add_first_tick rfl (by decide)⟩

/-! ## the control decoder -/

/-- C20: for each of the opcodes 51, 3, 35, 99 and 19, `control_unit` overwrites all seven
flags, whatever the bundle held before, with values fixed by the opcode: register-write for
51, 3 and 19; memory-read and write-back-from-memory for 3 only; memory-write for 35 only;
branch for 99 only; immediate operand-2 select for 3, 35 and 19; ALU class 2 for 51, 1 for
99 and 0 for 3, 35 and 19. -/
theorem control_unit_table (signals : control_signals_t) :
    control_unit 51 signals =
        { RegWrite := 1, MemRead := 0, MemtoReg := 0, MemWrite := 0, Branch := 0, ALUSrc := 0,
          ALUOp := 2 } ∧
      control_unit 3 signals =
        { RegWrite := 1, MemRead := 1, MemtoReg := 1, MemWrite := 0, Branch := 0, ALUSrc := 1,
          ALUOp := 0 } ∧
      control_unit 35 signals =
        { RegWrite := 0, MemRead := 0, MemtoReg := 0, MemWrite := 1, Branch := 0, ALUSrc := 1,
          ALUOp := 0 } ∧
      control_unit 99 signals =
        { RegWrite := 0, MemRead := 0, MemtoReg := 0, MemWrite := 0, Branch := 1, ALUSrc := 0,
          ALUOp := 1 } ∧
      control_unit 19 signals =
        { RegWrite := 1, MemRead := 0, MemtoReg := 0, MemWrite := 0, Branch := 0, ALUSrc := 1,
          ALUOp := 0 } :=
  ⟨rfl, rfl, rfl, rfl, rfl⟩

/-! ## write-back -/

/-- C11: `write_back` on a MEM/WB register whose `uint32_t` fields hold 32-bit values. If
register-write is set and `rd` is non-zero (and inside the register file), `reg_file[rd]`
becomes the loaded data when `MemtoReg` is set and the ALU result otherwise, every other
register and every other field of the core is unchanged; if register-write is clear or `rd`
is 0 the core is unchanged. -/
theorem write_back_effect (core : core_t) (mem_wb : MEM_WB_t)
    (hdata : mem_wb.data < 2 ^ 32) (halu : mem_wb.alu_result < 2 ^ 32) :
    (mem_wb.control.RegWrite ≠ 0 → mem_wb.rd ≠ 0 → mem_wb.rd < NUM_REGISTERS →
        ∃ c, write_back core mem_wb = some c ∧
          c.reg_file mem_wb.rd =
            (if mem_wb.control.MemtoReg ≠ 0 then mem_wb.data else mem_wb.alu_result) ∧
          (∀ i, i ≠ mem_wb.rd → c.reg_file i = core.reg_file i) ∧
          c = { core with reg_file := c.reg_file }) ∧
      (mem_wb.control.RegWrite = 0 ∨ mem_wb.rd = 0 → write_back core mem_wb = some core) := by
  constructor
  · intro h1 h2 h3
    refine ⟨{ core with
        reg_file := fun i =>
          if i = mem_wb.rd then
            (if mem_wb.control.MemtoReg ≠ 0 then mem_wb.data else mem_wb.alu_result) % 2 ^ 32
          else core.reg_file i }, ?_, ?_, ?_, ?_⟩
    · unfold write_back
      rw [if_pos h1]
      simp only []
      rw [if_pos h2, if_pos h3]
    · show (if mem_wb.rd = mem_wb.rd then _ else _) = _
      rw [if_pos rfl]
      by_cases hm : mem_wb.control.MemtoReg ≠ 0
      · rw [if_pos hm, Nat.mod_eq_of_lt hdata]
      · rw [if_neg hm, Nat.mod_eq_of_lt halu]
    · intro i hi
      show (if i = mem_wb.rd then _ else _) = _
      rw [if_neg hi]
    · rfl
  · intro h
    unfold write_back
    by_cases h1 : mem_wb.control.RegWrite ≠ 0
    · have h2 : ¬ mem_wb.rd ≠ 0 := by
        rcases h with h | h
        · exact absurd h h1
        · simp [h]
      rw [if_pos h1]
      simp only []
      rw [if_neg h2]
    · rw [if_neg h1]

/-- Instance of the preceding theorem: writing back the MEM/WB content of the load of the
`lw`/`add` program sets register 1 to the loaded value 7. -/
theorem write_back_effect_witness :
    ∃ c, write_back lw_add_core lw_add_core_1.mem_wb = some c ∧
      c.reg_file lw_add_core_1.mem_wb.rd =
        (if lw_add_core_1.mem_wb.control.MemtoReg ≠ 0 then lw_add_core_1.mem_wb.data
          else lw_add_core_1.mem_wb.alu_result) ∧
      (∀ i, i ≠ lw_add_core_1.mem_wb.rd → c.reg_file i = lw_add_core.reg_file i) ∧
      c = { lw_add_core with reg_file := c.reg_file } :=
  (write_back_effect lw_add_core lw_add_core_1.mem_wb (by decide) (by decide)).1
    (by decide) (by decide) (by decide)

/-! ## the fetch stage -/

theorem instruction_fetch_halts (core : core_t) (if_id : IF_ID_t)
    (hne : core.instr_mem ≠ []) (hs : core.stall = 0)
    (hbad : core.PC / 4 ≥ core.instr_mem.length ∨ core.PC % 4 ≠ 0) :
    instruction_fetch core if_id = some ({ core with halt := true }, if_id) := by
  have he : ¬ core.instr_mem.isEmpty = true := by
    intro h
    exact hne (List.isEmpty_iff.mp h)
  unfold instruction_fetch
  rw [if_neg he, if_neg (by simp [hs])]
  by_cases h1 : core.PC / 4 ≥ core.instr_mem.length
  · rw [if_pos h1]
  · rw [if_neg h1]
    have h2 : core.PC % 4 ≠ 0 := by
      rcases hbad with h | h
      · exact absurd h h1
      · exact h
    rw [if_pos h2]

theorem instruction_fetch_ok (core : core_t) (if_id : IF_ID_t)
    (hs : core.stall = 0) (ha : core.PC % 4 = 0)
    (hlt : core.PC / 4 < core.instr_mem.length) :
    ∃ ins, core.instr_mem[core.PC / 4 % 2 ^ 32]? = some ins ∧
      instruction_fetch core if_id =
        some ({ core with PC := core.PC + 4 },
              { instruction := ins.instruction, PC := core.PC }) := by
  have he : ¬ core.instr_mem.isEmpty = true := by
    intro h
    rw [List.isEmpty_iff.mp h] at hlt
    exact absurd hlt (by simp)
  have hidx : core.PC / 4 % 2 ^ 32 ≤ core.PC / 4 := Nat.mod_le _ _
  have hlt2 : core.PC / 4 % 2 ^ 32 < core.instr_mem.length := by omega
  refine ⟨core.instr_mem[core.PC / 4 % 2 ^ 32], List.getElem?_eq_getElem hlt2, ?_⟩
  unfold instruction_fetch
  rw [if_neg he, if_neg (by simp [hs]), if_neg (by omega), if_neg (by simp [ha])]
  simp only []
  rw [if_neg (by omega), List.getElem?_eq_getElem hlt2]

/-- C13: with `stall` clear, `PC` a multiple of 4 and `PC / 4` below the number of loaded
instructions (an `int`, so below `2 ^ 31`), `instruction_fetch` is defined, puts into the
next IF/ID the word stored at index `PC / 4` together with the old `PC`, advances `PC` by
exactly 4 and changes nothing else, so `halt` keeps its value and stays clear. -/
theorem instruction_fetch_success (core : core_t) (if_id : IF_ID_t)
    (hs : core.stall = 0) (ha : core.PC % 4 = 0)
    (hlt : core.PC / 4 < core.instr_mem.length) (hn : core.instr_mem.length < 2 ^ 31) :
    ∃ ins c1 f1, core.instr_mem[core.PC / 4]? = some ins ∧
      instruction_fetch core if_id = some (c1, f1) ∧
      f1 = { instruction := ins.instruction, PC := core.PC } ∧
      c1 = { core with PC := core.PC + 4 } ∧
      c1.PC = core.PC + 4 ∧ (core.halt = false → c1.halt = false) := by
  obtain ⟨ins, hi, hf⟩ := instruction_fetch_ok core if_id hs ha hlt
  have hm : core.PC / 4 % 2 ^ 32 = core.PC / 4 := Nat.mod_eq_of_lt (by omega)
  rw [hm] at hi
  exact ⟨ins, _, _, hi, hf, rfl, rfl, rfl, fun h => h⟩

/-- Instance of the preceding theorem: the first fetch of the `lw`/`add` program. -/
theorem instruction_fetch_success_witness :
    ∃ ins c1 f1, lw_add_core.instr_mem[lw_add_core.PC / 4]? = some ins ∧
      instruction_fetch lw_add_core lw_add_core.if_id = some (c1, f1) ∧
      f1 = { instruction := ins.instruction, PC := lw_add_core.PC } ∧
      c1 = { lw_add_core with PC := lw_add_core.PC + 4 } ∧
      c1.PC = lw_add_core.PC + 4 ∧ (lw_add_core.halt = false → c1.halt = false) :=
  instruction_fetch_success lw_add_core lw_add_core.if_id (by decide) (by decide) (by decide)
    (by decide)

/-- C12 (the claim as stated fails): after the only instruction of a one-instruction program
has been fetched, `PC` is 4, so `PC / 4 = 1` does not exceed the instruction count 1 and
`PC` is aligned, `stall` is clear, and yet `instruction_fetch` sets `halt`. -/
theorem fetch_at_end_halts :
    addi_done_core.stall = 0 ∧ addi_done_core.instr_mem.length = 1 ∧
      ¬ (addi_done_core.PC / 4 > addi_done_core.instr_mem.length) ∧
      addi_done_core.PC % 4 = 0 ∧ addi_done_core.halt = false ∧
      (instruction_fetch addi_done_core addi_done_core.if_id).map (fun r => r.1.halt)
        = some true := by
  refine ⟨rfl, rfl, by decide, rfl, rfl, rfl⟩

/-- C12 (amended): with `stall` clear and a loaded program of `n` instructions,
`instruction_fetch` sets `halt` (and changes nothing else) when `PC / 4 ≥ n` or
`PC % 4 ≠ 0`, and otherwise fetches without touching `halt`; with an odd `PC` the fetch
sets `halt` and `tick_func` returns `false`. -/
theorem instruction_fetch_halt_iff (core : core_t) (if_id : IF_ID_t)
    (hne : core.instr_mem ≠ []) (hs : core.stall = 0) :
    ((core.PC / 4 ≥ core.instr_mem.length ∨ core.PC % 4 ≠ 0) →
        instruction_fetch core if_id = some ({ core with halt := true }, if_id)) ∧
      (¬ (core.PC / 4 ≥ core.instr_mem.length ∨ core.PC % 4 ≠ 0) →
        ∃ f1, instruction_fetch core if_id = some ({ core with PC := core.PC + 4 }, f1)) ∧
      (core.PC % 2 = 1 →
        ∀ u, tick_func u core = some ({ core with halt := true }, false)) := by
  refine ⟨instruction_fetch_halts core if_id hne hs, ?_, ?_⟩
  · intro h
    obtain ⟨ins, _, hf⟩ := instruction_fetch_ok core if_id hs (by omega) (by omega)
    exact ⟨_, hf⟩
  · intro hodd u
    exact tick_func_halt u core _ _
      (instruction_fetch_halts core core.if_id hne hs (Or.inr (by omega))) rfl

/-- Instance of the preceding theorem on the core that has run the one-instruction program. -/
theorem instruction_fetch_halt_iff_witness :
    ((addi_done_core.PC / 4 ≥ addi_done_core.instr_mem.length ∨ addi_done_core.PC % 4 ≠ 0) →
        instruction_fetch addi_done_core addi_done_core.if_id =
          some ({ addi_done_core with halt := true }, addi_done_core.if_id)) ∧
      (¬ (addi_done_core.PC / 4 ≥ addi_done_core.instr_mem.length ∨
            addi_done_core.PC % 4 ≠ 0) →
        ∃ f1, instruction_fetch addi_done_core addi_done_core.if_id =
          some ({ addi_done_core with PC := addi_done_core.PC + 4 }, f1)) ∧
      (addi_done_core.PC % 2 = 1 →
        ∀ u, tick_func u addi_done_core = some ({ addi_done_core with halt := true }, false)) :=
  instruction_fetch_halt_iff addi_done_core addi_done_core.if_id (by decide) (by decide)

/-! ## the end of the program -/

/-- The only tick of the one-instruction program leaves `addi_done_core` and returns
`false`. -/
theorem addi_only_tick :
    tick_func { imm := 0, alu_ctrl := 0 } addi_core = some (addi_done_core, false) := by
  rfl

/-- C16 (the claim as stated fails): on the core that has run the one-instruction program
(last address 0, `stall` clear, `halt` clear) with `PC` at 4 or at 8, both multiples of 4
at or past the last address + 4, `tick_func` returns `false` with `halt` set: the fetch
reports the program counter as out of bounds. -/
theorem tick_past_end_sets_halt :
    addi_done_core.stall = 0 ∧ addi_done_core.halt = false ∧ addi_done_core.PC = 4 ∧
      addi_done_core.instr_mem.getLast?.map (fun l => l.addr) = some 0 ∧
      (tick_func { imm := 0, alu_ctrl := 0 } addi_done_core).map (fun r => (r.2, r.1.halt))
        = some (false, true) ∧
      (tick_func { imm := 0, alu_ctrl := 0 } { addi_done_core with PC := 8 }).map
          (fun r => (r.2, r.1.halt)) = some (false, true) := by
  refine ⟨rfl, rfl, rfl, rfl, rfl, rfl⟩

/-- C16 (amended): for a program loaded at address 0, with `stall` clear and `PC` at or
past the last loaded instruction's address + 4, `tick_func` returns `false` having set
`halt` and changed nothing else. -/
theorem tick_past_end_halts (u : indeterminate_t) (core : core_t) (ws : List Nat)
    (last : instruction_t) (hw : core.instr_mem = load_words 0 ws)
    (hl : core.instr_mem.getLast? = some last) (hs : core.stall = 0)
    (hpc : core.PC ≥ last.addr + 4) :
    tick_func u core = some ({ core with halt := true }, false) := by
  have hne : ws ≠ [] := by
    intro h
    rw [hw, h] at hl
    exact absurd hl (by simp [load_words])
  obtain ⟨last', hl', ha⟩ := load_words_getLast ws 0 hne
  rw [hw, hl'] at hl
  simp only [Option.some.injEq] at hl
  subst hl
  have hlen : core.instr_mem.length = ws.length := by rw [hw, load_words_length]
  have hne' : core.instr_mem ≠ [] := by
    intro h
    rw [h] at hlen
    exact hne (List.length_eq_zero.mp hlen.symm)
  exact tick_func_halt u core _ _
    (instruction_fetch_halts core core.if_id hne' hs (Or.inl (by omega))) rfl

/-- Instance of the preceding theorem on the core that has run the one-instruction program. -/
theorem tick_past_end_halts_witness :
    tick_func { imm := 0, alu_ctrl := 0 } addi_done_core =
      some ({ addi_done_core with halt := true }, false) :=
  tick_past_end_halts { imm := 0, alu_ctrl := 0 } addi_done_core [addi_x1_x0_5]
    { instruction := addi_x1_x0_5, addr := 0 } rfl rfl rfl (by decide)

/-! ## the three ways a tick can end -/

theorem tick_func_cases (u : indeterminate_t) (core c : core_t) (b : Bool)
    (ht : tick_func u core = some (c, b)) :
    ∃ c1 f1, instruction_fetch core core.if_id = some (c1, f1) ∧
      ((c1.halt = true ∧ c = c1 ∧ b = false) ∨
        (c1.halt = false ∧ stall_branch core = true ∧ c.halt = false ∧
          c.clk = core.clk + 1 ∧ b = true) ∨
        (c1.halt = false ∧ stall_branch core = false ∧
          ∃ c4 c5 wb last,
            memory_access (detect_and_forward { c1 with stall := 0 })
              (execute u (detect_and_forward { c1 with stall := 0 })
                (instruction_decode u { c1 with stall := 0 } f1 core.id_ex).2
                core.ex_mem).2 core.mem_wb = some (c4, wb) ∧
            write_back c4 wb = some c5 ∧
            c = commit_registers c5 f1
              (instruction_decode u { c1 with stall := 0 } f1 core.id_ex).2
              (execute u (detect_and_forward { c1 with stall := 0 })
                (instruction_decode u { c1 with stall := 0 } f1 core.id_ex).2
                core.ex_mem).2 wb ∧
            c5.halt = false ∧ c5.clk = core.clk ∧ c5.PC = c1.PC ∧
            c5.instr_mem.getLast? = some last ∧ b = decide (c5.PC < last.addr + 4))) := by
  cases hf : instruction_fetch core core.if_id with
  | none =>
    rw [tick_func_undefined u core hf] at ht
    exact absurd ht (by simp)
  | some r =>
    obtain ⟨c1, f1⟩ := r
    refine ⟨c1, f1, rfl, ?_⟩
    by_cases hh1 : c1.halt = true
    · rw [tick_func_halt u core c1 f1 hf hh1] at ht
      simp only [Option.some.injEq, Prod.mk.injEq] at ht
      exact Or.inl ⟨hh1, ht.1.symm, ht.2.symm⟩
    · have hh1' : c1.halt = false := by simpa using hh1
      by_cases hs1 : (hazard_detection_unit c1 f1 c1.id_ex).stall = 0
      · have hns : stall_branch core = false := by
          unfold stall_branch
          simp only [hf, hh1', hs1]
          simp
        rw [tick_func_commit u core c1 f1 hf hh1' hs1] at ht
        obtain ⟨a, fb, hd⟩ := detect_and_forward_frame { c1 with stall := 0 }
        have hck : c1.clk = core.clk := by
          rw [instruction_fetch_frame core c1 core.if_id f1 hf]
        split at ht
        · exact absurd ht (by simp)
        · rename_i c4 wb hm
          split at ht
          · exact absurd ht (by simp)
          · rename_i c5 hw
            split at ht
            · exact absurd ht (by simp)
            · rename_i last hl
              simp only [Option.some.injEq, Prod.mk.injEq] at ht
              refine Or.inr (Or.inr ⟨hh1', hns, c4, c5, wb, last, hm, hw, ht.1.symm, ?_, ?_,
                ?_, hl, ht.2.symm⟩)
              · rw [write_back_frame _ _ _ hw, memory_access_frame _ _ _ _ _ hm, hd]
                exact hh1'
              · rw [write_back_frame _ _ _ hw, memory_access_frame _ _ _ _ _ hm, hd]
                exact hck
              · rw [write_back_frame _ _ _ hw, memory_access_frame _ _ _ _ _ hm, hd]
      · have hsb := stall_branch_of_fetch core c1 f1 hf hh1' hs1
        obtain ⟨pc, ht', hh0, _⟩ := tick_func_stall u core hsb
        rw [ht'] at ht
        simp only [Option.some.injEq, Prod.mk.injEq] at ht
        refine Or.inr (Or.inl ⟨hh1', hsb, ?_, ?_, ht.2.symm⟩)
        · rw [← ht.1]
          exact hh0
        · rw [← ht.1]

/-! ## the clock -/

/-- C15 (the claim as stated fails): a call of `tick_func` on the core that has run the
one-instruction program halts in the fetch and returns `false` with the clock still at 1. -/
theorem halting_call_keeps_clock :
    addi_done_core.clk = 1 ∧
      (tick_func { imm := 0, alu_ctrl := 0 } addi_done_core).map
          (fun r => (r.2, r.1.halt, r.1.clk)) = some (false, true, 1) := by
  refine ⟨rfl, rfl⟩

/-- C15 (amended): a call of `tick_func` that commits or stalls (it returns with `halt`
clear) increases the clock by exactly 1, a call that halts (it returns with `halt` set)
leaves the clock unchanged; so the clock never decreases. -/
theorem tick_func_clock (u : indeterminate_t) (core c : core_t) (b : Bool)
    (ht : tick_func u core = some (c, b)) :
    c.clk = (if c.halt = true then core.clk else core.clk + 1) ∧ core.clk ≤ c.clk := by
  have h : c.clk = (if c.halt = true then core.clk else core.clk + 1) := by
    obtain ⟨c1, f1, hf, hc⟩ := tick_func_cases u core c b ht
    rcases hc with ⟨hh, hc, _⟩ | ⟨_, _, hh, hk, _⟩ | ⟨_, _, c4, c5, wb, last, _, _, hc, hh, hk, _⟩
    · subst hc
      rw [if_pos hh, instruction_fetch_frame core c core.if_id f1 hf]
    · rw [if_neg (by simp [hh]), hk]
    · have hh' : c.halt = false := by rw [hc]; exact hh
      rw [if_neg (by simp [hh']), hc]
      show c5.clk + 1 = core.clk + 1
      rw [hk]
  refine ⟨h, ?_⟩
  rw [h]
  split <;> omega

/-- Instance of the preceding theorem on the first tick of the `lw`/`add` program. -/
theorem tick_func_clock_witness :
    lw_add_core_1.clk = (if lw_add_core_1.halt = true then lw_add_core.clk
        else lw_add_core.clk + 1) ∧ lw_add_core.clk ≤ lw_add_core_1.clk :=
  tick_func_clock { imm := 0, alu_ctrl := 0 } lw_add_core lw_add_core_1 true lw_add_first_tick

/-! ## the halt flag -/

theorem instruction_fetch_stalled (core : core_t) (if_id : IF_ID_t)
    (hne : core.instr_mem ≠ []) (hs : core.stall ≠ 0) :
    instruction_fetch core if_id = some (core, if_id) := by
  have he : ¬ core.instr_mem.isEmpty = true := by
    intro h
    exact hne (List.isEmpty_iff.mp h)
  unfold instruction_fetch
  rw [if_neg he, if_pos hs]

theorem set_halt_of_halt (c : core_t) (h : c.halt = true) : { c with halt := true } = c := by
  cases c
  simp only at h
  subst h
  rfl

theorem halt_explained_terminal (u : indeterminate_t) (c : core_t) (hi : halt_explained c)
    (hh : c.halt = true) : tick_func u c = some (c, false) := by
  obtain ⟨hne, hc⟩ := hi hh
  by_cases hs : c.stall = 0
  · have hbad : c.PC / 4 ≥ c.instr_mem.length ∨ c.PC % 4 ≠ 0 := by
      rcases hc with h | h
      · exact absurd hs h
      · exact h
    have hf := instruction_fetch_halts c c.if_id hne hs hbad
    rw [set_halt_of_halt c hh] at hf
    exact tick_func_halt u c c c.if_id hf hh
  · exact tick_func_halt u c c c.if_id (instruction_fetch_stalled c c.if_id hne hs) hh

theorem halt_explained_tick (u : indeterminate_t) (c c' : core_t) (b : Bool)
    (hi : halt_explained c) (ht : tick_func u c = some (c', b)) : halt_explained c' := by
  obtain ⟨c1, f1, hf, hc⟩ := tick_func_cases u c c' b ht
  rcases hc with ⟨hh, hc, _⟩ | ⟨_, _, hh, _⟩ | ⟨_, _, c4, c5, wb, last, _, _, hc, hh, _⟩
  · subst hc
    obtain ⟨hne, hcs⟩ := instruction_fetch_cases c c' c.if_id f1 hf
    rcases hcs with ⟨hs, h1, _⟩ | ⟨_, hbad, h1, _⟩ | ⟨hs, hlt, ha, h1, _⟩
    · subst h1
      exact hi
    · subst h1
      exact fun _ => ⟨hne, Or.inr hbad⟩
    · subst h1
      obtain ⟨_, hcc⟩ := hi hh
      rcases hcc with h | h | h
      · exact absurd hs h
      · exact absurd hlt (by omega)
      · exact absurd ha h
  · intro h
    rw [hh] at h
    exact absurd h (by simp)
  · intro h
    rw [hc] at h
    have h' : c5.halt = true := h
    rw [hh] at h'
    exact absurd h' (by simp)

theorem halt_explained_core_after (us : Nat → indeterminate_t) :
    ∀ (i : Nat) (c c' : core_t) (k : Nat), halt_explained c →
      core_after us i c k = some c' → halt_explained c' := by
  intro i
  induction i with
  | zero =>
    intro c c' k hi h
    simp only [core_after, Option.some.injEq] at h
    subst h
    exact hi
  | succ i ih =>
    intro c c' k hi h
    unfold core_after at h
    cases ht : tick_func (us k) c with
    | none =>
      rw [ht] at h
      exact absurd h (by simp)
    | some r =>
      obtain ⟨c2, b⟩ := r
      rw [ht] at h
      exact ih c2 c' (k + 1) (halt_explained_tick (us k) c c2 b hi ht) h

/-- On the freshly loaded one-instruction program with `halt` set by hand (`stall` clear,
`PC = 0` valid), a call of `tick_func` returns `false` but has advanced `PC` from 0 to 4. -/
theorem halt_set_by_hand_advances_PC :
    ({ addi_core with halt := true } : core_t).halt = true ∧
      ({ addi_core with halt := true } : core_t).PC = 0 ∧
      (tick_func { imm := 0, alu_ctrl := 0 } { addi_core with halt := true }).map
          (fun r => (r.2, r.1.PC)) = some (false, 4) := by
  refine ⟨rfl, rfl, rfl⟩

/-- In a run whose memory accesses all lie inside `data_mem`, `halt` is terminal. If a core
state has been reached by such calls of `tick_func` from a state in which `halt` was clear
and `halt` is now set, a further call of `tick_func` returns `false` and leaves the whole
core unchanged: `PC`, register file, data memory, the four pipeline registers and every
other field. A store behind `data_mem` is not covered: see `addi_sw_1280_core`. -/
theorem halted_terminal (us : Nat → indeterminate_t) (u : indeterminate_t) (i k : Nat)
    (core c : core_t) (h0 : core.halt = false)
    (hr : core_after us i core k = some c) (hh : c.halt = true) :
    tick_func u c = some (c, false) := by
  have hi0 : halt_explained core := by
    intro h
    rw [h0] at h
    exact absurd h (by simp)
  exact halt_explained_terminal u c (halt_explained_core_after us i core c k hi0 hr) hh

/-- Instance of the preceding theorem: two calls on the one-instruction program reach a
halted core, which a third call leaves as it is. -/
theorem halted_terminal_witness :
    core_after (fun _ => { imm := 0, alu_ctrl := 0 }) 2 addi_core 0 =
        some { addi_done_core with halt := true } ∧
      tick_func { imm := 0, alu_ctrl := 0 } { addi_done_core with halt := true } =
        some ({ addi_done_core with halt := true }, false) :=
  ⟨rfl, halted_terminal (fun _ => { imm := 0, alu_ctrl := 0 }) { imm := 0, alu_ctrl := 0 } 2 0
    addi_core { addi_done_core with halt := true } rfl rfl rfl⟩

/-! ## commit and return value -/

/-- C17: in a call of `tick_func` that neither halts nor stalls, the four pipeline registers
of the core become the shadow values (the IF/ID returned by the fetch, the ID/EX decoded
from it, the EX/MEM computed by `execute`, the MEM/WB produced by `memory_access`), `stall`
is cleared, and the call returns `false` exactly when `PC` after the call is at least the
address of the last loaded instruction plus 4, and `true` otherwise. -/
theorem tick_commit_and_result (u : indeterminate_t) (core c : core_t) (b : Bool)
    (ht : tick_func u core = some (c, b)) (hh : c.halt = false)
    (hs : stall_branch core = false) :
    ∃ c1 f1 c4 last,
      instruction_fetch core core.if_id = some (c1, f1) ∧
      c.if_id = f1 ∧
      c.id_ex = (instruction_decode u { c1 with stall := 0 } f1 core.id_ex).2 ∧
      c.ex_mem = (execute u (detect_and_forward { c1 with stall := 0 }) c.id_ex
        core.ex_mem).2 ∧
      memory_access (detect_and_forward { c1 with stall := 0 }) c.ex_mem core.mem_wb =
        some (c4, c.mem_wb) ∧
      c.stall = 0 ∧
      c.instr_mem.getLast? = some last ∧
      (b = false ↔ c.PC ≥ last.addr + 4) ∧ (b = true ↔ c.PC < last.addr + 4) := by
  obtain ⟨c1, f1, hf, hc⟩ := tick_func_cases u core c b ht
  rcases hc with ⟨hh1, hc, _⟩ | ⟨_, hsb, _⟩ |
    ⟨_, _, c4, c5, wb, last, hm, _, hc, _, _, _, hl, hb⟩
  · subst hc
    rw [hh1] at hh
    exact absurd hh (by simp)
  · rw [hsb] at hs
    exact absurd hs (by simp)
  · subst hc
    subst hb
    refine ⟨c1, f1, c4, last, hf, rfl, rfl, rfl, hm, rfl, hl, ?_, ?_⟩
    · show decide (c5.PC < last.addr + 4) = false ↔ c5.PC ≥ last.addr + 4
      simp
    · show decide (c5.PC < last.addr + 4) = true ↔ c5.PC < last.addr + 4
      simp

/-- Instance of the preceding theorem on the first tick of the `lw`/`add` program. -/
theorem tick_commit_and_result_witness :
    ∃ c1 f1 c4 last,
      instruction_fetch lw_add_core lw_add_core.if_id = some (c1, f1) ∧
      lw_add_core_1.if_id = f1 ∧
      lw_add_core_1.id_ex = (instruction_decode { imm := 0, alu_ctrl := 0 }
        { c1 with stall := 0 } f1 lw_add_core.id_ex).2 ∧
      lw_add_core_1.ex_mem = (execute { imm := 0, alu_ctrl := 0 }
        (detect_and_forward { c1 with stall := 0 }) lw_add_core_1.id_ex
        lw_add_core.ex_mem).2 ∧
      memory_access (detect_and_forward { c1 with stall := 0 }) lw_add_core_1.ex_mem
        lw_add_core.mem_wb = some (c4, lw_add_core_1.mem_wb) ∧
      lw_add_core_1.stall = 0 ∧
      lw_add_core_1.instr_mem.getLast? = some last ∧
      (true = false ↔ lw_add_core_1.PC ≥ last.addr + 4) ∧
      (true = true ↔ lw_add_core_1.PC < last.addr + 4) :=
  tick_commit_and_result { imm := 0, alu_ctrl := 0 } lw_add_core lw_add_core_1 true
    lw_add_first_tick rfl (by decide)

/-! ## the immediate generator -/

theorem and_field (w k n : Nat) : w &&& ((2 ^ n - 1) * 2 ^ k) = w / 2 ^ k % 2 ^ n * 2 ^ k := by
  apply Nat.eq_of_testBit_eq
  intro i
  rw [← Nat.shiftLeft_eq, ← Nat.shiftLeft_eq, ← Nat.shiftRight_eq_div_pow]
  simp only [Nat.testBit_and, Nat.testBit_shiftLeft, Nat.testBit_two_pow_sub_one,
    Nat.testBit_mod_two_pow, Nat.testBit_shiftRight]
  by_cases h : i ≥ k
  · have e : k + (i - k) = i := by omega
    simp [h, e, Bool.and_comm]
  · simp [h]

theorem or_low (a b k : Nat) (h : b < 2 ^ k) : a * 2 ^ k ||| b = a * 2 ^ k + b := by
  rw [Nat.mul_comm a, Nat.mul_add_lt_is_or h]

theorem or_low_comm (a b k : Nat) (h : b < 2 ^ k) : b ||| a * 2 ^ k = b + a * 2 ^ k := by
  rw [Nat.or_comm, or_low a b k h, Nat.add_comm]

theorem sar64_small (w n : Nat) (h : w < 2 ^ 63) : sar64 w n = w / 2 ^ n := by
  unfold sar64
  rw [if_pos h, Nat.shiftRight_eq_div_pow]

theorem and_bit (x k : Nat) : x &&& 2 ^ k = x / 2 ^ k % 2 * 2 ^ k := by
  have h := and_field x k 1
  simpa using h

/-! ### closed forms of `imm_gen` on 32-bit words -/

theorem sign_extend_ite (F k : Nat) (hk : k < 64) (hF : F < 2 ^ (k + 1)) :
    (if F &&& 2 ^ k ≠ 0 then some (F ||| (2 ^ (63 - k) - 1) * 2 ^ (k + 1)) else some F) =
      some (if 2 ^ k ≤ F then F + (2 ^ 64 - 2 ^ (k + 1)) else F) := by
  have e : (2 ^ (63 - k) - 1) * 2 ^ (k + 1) = 2 ^ 64 - 2 ^ (k + 1) := by
    rw [Nat.sub_mul, ← Nat.pow_add, Nat.one_mul]
    congr 2
    omega
  have hd : F / 2 ^ k < 2 := by
    rw [Nat.div_lt_iff_lt_mul (Nat.two_pow_pos k)]
    rw [Nat.pow_succ] at hF
    omega
  have hp : 0 < 2 ^ k := Nat.two_pow_pos k
  rw [and_bit, or_low_comm _ _ _ hF, e]
  by_cases h : 2 ^ k ≤ F
  · have h1 : F / 2 ^ k = 1 := by
      have : 1 ≤ F / 2 ^ k := (Nat.le_div_iff_mul_le hp).mpr (by omega)
      omega
    rw [if_pos h, if_pos (by rw [h1]; omega)]
  · have h1 : F / 2 ^ k = 0 := Nat.div_eq_of_lt (by omega)
    rw [if_neg h, if_neg (by rw [h1]; simp)]

theorem sign_extend_12 (F : Nat) (hF : F < 2 ^ 12) :
    (if F &&& 0x800 ≠ 0 then some (F ||| 0xFFFFFFFFFFFFF000) else some F) =
      some (if 2 ^ 11 ≤ F then F + (2 ^ 64 - 2 ^ 12) else F) :=
  sign_extend_ite F 11 (by decide) hF

theorem sign_extend_13 (F : Nat) (hF : F < 2 ^ 13) :
    (if F &&& 0x1000 ≠ 0 then some (F ||| 0xFFFFFFFFFFFFE000) else some F) =
      some (if 2 ^ 12 ≤ F then F + (2 ^ 64 - 2 ^ 13) else F) :=
  sign_extend_ite F 12 (by decide) hF

theorem sign_extend_21 (F : Nat) (hF : F < 2 ^ 21) :
    (if F &&& 0x100000 ≠ 0 then some (F ||| 0xFFFFFFFFFFE00000) else some F) =
      some (if 2 ^ 20 ≤ F then F + (2 ^ 64 - 2 ^ 21) else F) :=
  sign_extend_ite F 20 (by decide) hF

theorem and_0x7F (x : Nat) : x &&& 0x7F = x % 2 ^ 7 := Nat.and_pow_two_sub_one_eq_mod x 7
theorem and_0x7F_small (x : Nat) (h : x < 2 ^ 7) : x &&& 0x7F = x :=
  Nat.and_pow_two_sub_one_of_lt_two_pow h
theorem and_0xFFF (x : Nat) : x &&& 0xFFF = x % 2 ^ 12 := Nat.and_pow_two_sub_one_eq_mod x 12
theorem and_0x1F (x : Nat) : x &&& 0x1F = x % 2 ^ 5 := Nat.and_pow_two_sub_one_eq_mod x 5
theorem and_0x3F (x : Nat) : x &&& 0x3F = x % 2 ^ 6 := Nat.and_pow_two_sub_one_eq_mod x 6
theorem and_0xF (x : Nat) : x &&& 0xF = x % 2 ^ 4 := Nat.and_pow_two_sub_one_eq_mod x 4
theorem and_0xFF (x : Nat) : x &&& 0xFF = x % 2 ^ 8 := Nat.and_pow_two_sub_one_eq_mod x 8
theorem and_0x3FF (x : Nat) : x &&& 0x3FF = x % 2 ^ 10 := Nat.and_pow_two_sub_one_eq_mod x 10

theorem imm_gen_I (w : Nat) (hw : w < 2 ^ 32)
    (hop : w % 2 ^ 7 = 0x13 ∨ w % 2 ^ 7 = 0x03 ∨ w % 2 ^ 7 = 0x73) :
    imm_gen w =
      some (if 2 ^ 31 ≤ w then w / 2 ^ 20 % 2 ^ 12 + (2 ^ 64 - 2 ^ 12)
        else w / 2 ^ 20 % 2 ^ 12) := by
  unfold imm_gen
  simp only []
  rw [and_0x7F, if_pos hop, sar64_small w 20 (by omega), and_0xFFF, sign_extend_12]
  · by_cases h : 2 ^ 31 ≤ w
    · rw [if_pos h, if_pos (by omega)]
    · rw [if_neg h, if_neg (by omega)]
  · omega

theorem imm_gen_S (w : Nat) (hw : w < 2 ^ 32) (hop : w % 2 ^ 7 = 0x23) :
    imm_gen w =
      some (if 2 ^ 31 ≤ w then
          w / 2 ^ 25 * 2 ^ 5 + w / 2 ^ 7 % 2 ^ 5 + (2 ^ 64 - 2 ^ 12)
        else w / 2 ^ 25 * 2 ^ 5 + w / 2 ^ 7 % 2 ^ 5) := by
  unfold imm_gen
  simp only []
  rw [and_0x7F, if_neg (by omega), if_pos hop, sar64_small w 25 (by omega),
    sar64_small w 7 (by omega), and_0x7F_small, and_0x1F, Nat.shiftLeft_eq, or_low _ _ 5,
    sign_extend_12]
  · by_cases h : 2 ^ 31 ≤ w
    · rw [if_pos h, if_pos (by omega)]
    · rw [if_neg h, if_neg (by omega)]
  all_goals omega

theorem imm_gen_B (w : Nat) (hw : w < 2 ^ 32) (hop : w % 2 ^ 7 = 0x63) :
    imm_gen w =
      some (if 2 ^ 31 ≤ w then
          w / 2 ^ 31 % 2 * 2 ^ 12 + (w / 2 ^ 7 % 2 * 2 ^ 11 +
            (w / 2 ^ 25 % 2 ^ 6 * 2 ^ 5 + w / 2 ^ 8 % 2 ^ 4 * 2 ^ 1)) + (2 ^ 64 - 2 ^ 13)
        else w / 2 ^ 31 % 2 * 2 ^ 12 + (w / 2 ^ 7 % 2 * 2 ^ 11 +
            (w / 2 ^ 25 % 2 ^ 6 * 2 ^ 5 + w / 2 ^ 8 % 2 ^ 4 * 2 ^ 1))) := by
  unfold imm_gen
  simp only []
  rw [and_0x7F, if_neg (by omega), if_neg (by omega), if_pos hop,
    sar64_small w 31 (by omega), sar64_small w 7 (by omega), sar64_small w 25 (by omega),
    sar64_small w 8 (by omega), and_0x3F, and_0xF]
  simp only [Nat.and_one_is_mod, Nat.shiftLeft_eq]
  rw [Nat.or_assoc, Nat.or_assoc, or_low _ _ 5, or_low _ _ 11, or_low _ _ 12,
    sign_extend_13]
  · by_cases h : 2 ^ 31 ≤ w
    · rw [if_pos h, if_pos (by omega)]
    · rw [if_neg h, if_neg (by omega)]
  all_goals omega

theorem imm_gen_U (w : Nat)
    (hop : w % 2 ^ 7 = 0x37 ∨ w % 2 ^ 7 = 0x17) :
    imm_gen w = some (w / 2 ^ 12 % 2 ^ 20 * 2 ^ 12) := by
  have e1 : w &&& 0xFFFFF000 = w / 2 ^ 12 % 2 ^ 20 * 2 ^ 12 := and_field w 12 20
  unfold imm_gen
  simp only []
  rw [and_0x7F, if_neg (by omega), if_neg (by omega), if_neg (by omega), if_pos hop, e1]

theorem imm_gen_J (w : Nat) (hw : w < 2 ^ 32) (hop : w % 2 ^ 7 = 0x6F) :
    imm_gen w =
      some (if 2 ^ 31 ≤ w then
          w / 2 ^ 31 % 2 * 2 ^ 20 + (w / 2 ^ 12 % 2 ^ 8 * 2 ^ 12 +
            (w / 2 ^ 20 % 2 * 2 ^ 11 + w / 2 ^ 21 % 2 ^ 10 * 2 ^ 1)) + (2 ^ 64 - 2 ^ 21)
        else w / 2 ^ 31 % 2 * 2 ^ 20 + (w / 2 ^ 12 % 2 ^ 8 * 2 ^ 12 +
            (w / 2 ^ 20 % 2 * 2 ^ 11 + w / 2 ^ 21 % 2 ^ 10 * 2 ^ 1))) := by
  unfold imm_gen
  simp only []
  rw [and_0x7F, if_neg (by omega), if_neg (by omega), if_neg (by omega),
    if_neg (by omega), if_pos hop,
    sar64_small w 31 (by omega), sar64_small w 12 (by omega), sar64_small w 20 (by omega),
    sar64_small w 21 (by omega), and_0xFF, and_0x3FF]
  simp only [Nat.and_one_is_mod, Nat.shiftLeft_eq]
  rw [Nat.or_assoc, Nat.or_assoc, or_low _ _ 11, or_low _ _ 12, or_low _ _ 20,
    sign_extend_21]
  · by_cases h : 2 ^ 31 ≤ w
    · rw [if_pos h, if_pos (by omega)]
    · rw [if_neg h, if_neg (by omega)]
  all_goals omega

/-! ### bits of a sum of fields -/

theorem testBit_add_lo (a b i j : Nat) (hb : b < 2 ^ i) (hj : j < i) :
    (a * 2 ^ i + b).testBit j = b.testBit j := by
  rw [Nat.mul_comm, Nat.testBit_mul_pow_two_add a hb j, if_pos hj]

theorem testBit_add_hi (a b i j : Nat) (hb : b < 2 ^ i) (hj : i ≤ j) :
    (a * 2 ^ i + b).testBit j = a.testBit (j - i) := by
  rw [Nat.mul_comm, Nat.testBit_mul_pow_two_add a hb j, if_neg (by omega)]

theorem testBit_mul_hi (a i j : Nat) (hj : i ≤ j) :
    (a * 2 ^ i).testBit j = a.testBit (j - i) := by
  have h := testBit_add_hi a 0 i j (Nat.two_pow_pos i) hj
  rwa [Nat.add_zero] at h

theorem testBit_div (w p j : Nat) : (w / 2 ^ p).testBit j = w.testBit (p + j) := by
  rw [← Nat.shiftRight_eq_div_pow, Nat.testBit_shiftRight]

theorem testBit_field (w p n j : Nat) (hj : j < n) :
    (w / 2 ^ p % 2 ^ n).testBit j = w.testBit (p + j) := by
  rw [Nat.testBit_mod_two_pow, testBit_div]
  simp [hj]

theorem testBit_bit0 (w p : Nat) : (w / 2 ^ p % 2).testBit 0 = w.testBit p := by
  have h := testBit_field w p 1 0 (by decide)
  simpa using h

theorem testBit_sext (s : Prop) [Decidable s] (F n j : Nat) (hn : n ≤ 64) (hj : j < n) :
    (if s then F + (2 ^ 64 - 2 ^ n) else F).testBit j = F.testBit j := by
  have e : 2 ^ 64 - 2 ^ n = (2 ^ (64 - n) - 1) * 2 ^ n := by
    rw [Nat.sub_mul, ← Nat.pow_add, Nat.one_mul]
    congr 2
    omega
  have h1 : (F + (2 ^ 64 - 2 ^ n)).testBit j = F.testBit j := by
    have h2 := Nat.testBit_mod_two_pow (F + (2 ^ 64 - 2 ^ n)) n j
    have h3 := Nat.testBit_mod_two_pow F n j
    rw [e, Nat.add_mul_mod_self_right] at h2
    rw [e]
    simp only [hj, decide_True, Bool.true_and] at h2 h3
    rw [← h2, h3]
  split
  · exact h1
  · rfl

/-- C18: immediate round trip. For every 32-bit word `w` of an immediate category,
`imm_gen w` is defined and the immediate bits of `w` are recovered from the low bits of
the result: for opcodes 0x13/0x03/0x73 bits 11-0 give bits 31-20 of `w`, and
`(imm_gen w & 0xFFF) << 20 = w & 0xFFF00000`; for 0x23 bits 4-0 give bits 11-7 and bits
11-5 give bits 31-25; for 0x63 bits 12, 11, 10-5 and 4-1 give bits 31, 7, 30-25 and 11-8;
for 0x37/0x17 bits 31-12 give bits 31-12, and `imm_gen w & 0xFFFFF000 = w & 0xFFFFF000`;
for 0x6F bits 20, 19-12, 11 and 10-1 give bits 31, 19-12, 20 and 30-21. -/
theorem imm_gen_round_trip (w : Nat) (hw : w < 2 ^ 32) :
    ((w &&& 0x7F = 0x13 ∨ w &&& 0x7F = 0x03 ∨ w &&& 0x7F = 0x73) →
        ∃ v, imm_gen w = some v ∧ (v &&& 0xFFF) <<< 20 = w &&& 0xFFF00000 ∧
          ∀ j, j < 12 → v.testBit j = w.testBit (20 + j)) ∧
      (w &&& 0x7F = 0x23 →
        ∃ v, imm_gen w = some v ∧
          (∀ j, j < 5 → v.testBit j = w.testBit (7 + j)) ∧
          (∀ j, 5 ≤ j → j < 12 → v.testBit j = w.testBit (20 + j))) ∧
      (w &&& 0x7F = 0x63 →
        ∃ v, imm_gen w = some v ∧ v.testBit 12 = w.testBit 31 ∧ v.testBit 11 = w.testBit 7 ∧
          (∀ j, 5 ≤ j → j ≤ 10 → v.testBit j = w.testBit (20 + j)) ∧
          (∀ j, 1 ≤ j → j ≤ 4 → v.testBit j = w.testBit (7 + j))) ∧
      ((w &&& 0x7F = 0x37 ∨ w &&& 0x7F = 0x17) →
        ∃ v, imm_gen w = some v ∧ v &&& 0xFFFFF000 = w &&& 0xFFFFF000 ∧
          ∀ j, 12 ≤ j → j < 32 → v.testBit j = w.testBit j) ∧
      (w &&& 0x7F = 0x6F →
        ∃ v, imm_gen w = some v ∧ v.testBit 20 = w.testBit 31 ∧
          (∀ j, 12 ≤ j → j ≤ 19 → v.testBit j = w.testBit j) ∧
          v.testBit 11 = w.testBit 20 ∧
          (∀ j, 1 ≤ j → j ≤ 10 → v.testBit j = w.testBit (20 + j))) := by
  rw [and_0x7F]
  refine ⟨?_, ?_, ?_, ?_, ?_⟩
  · intro hop
    refine ⟨_, imm_gen_I w hw hop, ?_, ?_⟩
    · have e : w &&& 0xFFF00000 = w / 2 ^ 20 % 2 ^ 12 * 2 ^ 20 := and_field w 20 12
      rw [and_0xFFF, Nat.shiftLeft_eq, e]
      congr 1
      split <;> omega
    · intro j hj
      rw [testBit_sext _ _ 12 j (by decide) hj, testBit_field _ _ _ _ hj]
  · intro hop
    refine ⟨_, imm_gen_S w hw hop, ?_, ?_⟩
    · intro j hj
      rw [testBit_sext _ _ 12 j (by decide) (by omega), testBit_add_lo _ _ _ _ (by omega) hj,
        testBit_field _ _ _ _ hj]
    · intro j h1 h2
      rw [testBit_sext _ _ 12 j (by decide) h2, testBit_add_hi _ _ _ _ (by omega) h1,
        testBit_div]
      congr 1
      omega
  · intro hop
    refine ⟨_, imm_gen_B w hw hop, ?_, ?_, ?_, ?_⟩
    · rw [testBit_sext _ _ 13 12 (by decide) (by decide),
        testBit_add_hi _ _ 12 12 (by omega) (by decide)]
      exact testBit_bit0 w 31
    · rw [testBit_sext _ _ 13 11 (by decide) (by decide),
        testBit_add_lo _ _ 12 11 (by omega) (by decide),
        testBit_add_hi _ _ 11 11 (by omega) (by decide)]
      exact testBit_bit0 w 7
    · intro j h1 h2
      rw [testBit_sext _ _ 13 j (by decide) (by omega),
        testBit_add_lo _ _ 12 j (by omega) (by omega),
        testBit_add_lo _ _ 11 j (by omega) (by omega),
        testBit_add_hi _ _ 5 j (by omega) h1, testBit_field _ _ _ _ (by omega)]
      congr 1
      omega
    · intro j h1 h2
      rw [testBit_sext _ _ 13 j (by decide) (by omega),
        testBit_add_lo _ _ 12 j (by omega) (by omega),
        testBit_add_lo _ _ 11 j (by omega) (by omega),
        testBit_add_lo _ _ 5 j (by omega) (by omega),
        testBit_mul_hi _ 1 j h1, testBit_field _ _ _ _ (by omega)]
      congr 1
      omega
  · intro hop
    refine ⟨_, imm_gen_U w hop, ?_, ?_⟩
    · have e : w &&& 0xFFFFF000 = w / 2 ^ 12 % 2 ^ 20 * 2 ^ 12 := and_field w 12 20
      rw [← e, Nat.and_assoc, Nat.and_self]
    · intro j h1 h2
      rw [testBit_mul_hi _ 12 j h1, testBit_field _ _ _ _ (by omega)]
      congr 1
      omega
  · intro hop
    refine ⟨_, imm_gen_J w hw hop, ?_, ?_, ?_, ?_⟩
    · rw [testBit_sext _ _ 21 20 (by decide) (by decide),
        testBit_add_hi _ _ 20 20 (by omega) (by decide)]
      exact testBit_bit0 w 31
    · intro j h1 h2
      rw [testBit_sext _ _ 21 j (by decide) (by omega),
        testBit_add_lo _ _ 20 j (by omega) (by omega),
        testBit_add_hi _ _ 12 j (by omega) h1, testBit_field _ _ _ _ (by omega)]
      congr 1
      omega
    · rw [testBit_sext _ _ 21 11 (by decide) (by decide),
        testBit_add_lo _ _ 20 11 (by omega) (by decide),
        testBit_add_lo _ _ 12 11 (by omega) (by decide),
        testBit_add_hi _ _ 11 11 (by omega) (by decide)]
      exact testBit_bit0 w 20
    · intro j h1 h2
      rw [testBit_sext _ _ 21 j (by decide) (by omega),
        testBit_add_lo _ _ 20 j (by omega) (by omega),
        testBit_add_lo _ _ 12 j (by omega) (by omega),
        testBit_add_lo _ _ 11 j (by omega) (by omega),
        testBit_mul_hi _ 1 j h1, testBit_field _ _ _ _ (by omega)]
      congr 1
      omega

/-- Instance of the round trip on the branch word `beq x1,x2,-4` (0xFE208EE3). -/
theorem imm_gen_round_trip_witness :
    ∃ v, imm_gen 0xFE208EE3 = some v ∧ v.testBit 12 = (0xFE208EE3 : Nat).testBit 31 ∧
      v.testBit 11 = (0xFE208EE3 : Nat).testBit 7 ∧
      (∀ j, 5 ≤ j → j ≤ 10 → v.testBit j = (0xFE208EE3 : Nat).testBit (20 + j)) ∧
      (∀ j, 1 ≤ j → j ≤ 4 → v.testBit j = (0xFE208EE3 : Nat).testBit (7 + j)) :=
  (imm_gen_round_trip 0xFE208EE3 (by decide)).2.2.1 (by decide)

theorem testBit_31 (w : Nat) (hw : w < 2 ^ 32) : w.testBit 31 = decide (2 ^ 31 ≤ w) := by
  rw [Nat.testBit_to_div_mod]
  exact decide_eq_decide.mpr (by omega)

theorem sext_value (s : Prop) [Decidable s] (F k : Nat) (hk : k < 64) (hF : F < 2 ^ (k + 1))
    (hs : s ↔ 2 ^ k ≤ F) :
    (if s then F + (2 ^ 64 - 2 ^ (k + 1)) else F) < 2 ^ 64 ∧
      toInt64 (if s then F + (2 ^ 64 - 2 ^ (k + 1)) else F) =
        (F : Int) - (if s then ((2 ^ (k + 1) : Nat) : Int) else 0) ∧
      ∀ i, k ≤ i → i < 64 →
        (if s then F + (2 ^ 64 - 2 ^ (k + 1)) else F).testBit i = decide s := by
  have hle : 2 ^ (k + 1) ≤ 2 ^ 64 := Nat.pow_le_pow_right (by decide) (by omega)
  have hP : 2 ^ (k + 1) = 2 * 2 ^ k := by rw [Nat.pow_succ, Nat.mul_comm]
  by_cases h : s
  · have hge : 2 ^ k ≤ F := hs.mp h
    simp only [if_pos h]
    refine ⟨by omega, ?_, ?_⟩
    · unfold toInt64
      rw [if_neg (by omega)]
      omega
    · intro i h1 h2
      have e : 2 ^ 64 - 2 ^ (k + 1) = (2 ^ (63 - k) - 1) * 2 ^ (k + 1) := by
        rw [Nat.sub_mul, ← Nat.pow_add, Nat.one_mul]
        congr 2
        omega
      rw [e, Nat.add_comm]
      simp only [h, decide_True]
      by_cases hi : k + 1 ≤ i
      · rw [testBit_add_hi _ _ _ _ hF hi, Nat.testBit_two_pow_sub_one]
        simp only [decide_eq_true_eq]
        omega
      · have hik : i = k := by omega
        subst hik
        rw [testBit_add_lo _ _ _ _ hF (by omega), Nat.testBit_to_div_mod]
        have hd : F / 2 ^ i = 1 :=
          Nat.div_eq_of_lt_le (by omega) (by omega)
        rw [hd]
        rfl
  · have hlt : F < 2 ^ k := by
      by_contra hc
      exact h (hs.mpr (by omega))
    simp only [if_neg h]
    refine ⟨by omega, ?_, ?_⟩
    · unfold toInt64
      rw [if_pos (by omega)]
      omega
    · intro i h1 h2
      simp only [h, decide_False]
      exact Nat.testBit_lt_two_pow
        (Nat.lt_of_lt_of_le hlt (Nat.pow_le_pow_right (by decide) h1))

/-- C19: immediate sign extension. For every 32-bit word `w`, `imm_gen w` read as a signed
64-bit number is the two's-complement value of the logical immediate (the field assembled
from the bits of `w`, minus `2 ^ bits` when bit 31 of `w` is set): for opcodes
0x13/0x03/0x73 and 0x23 it lies in [-2048, 2047], for 0x63 it is even and lies in
[-4096, 4094], for 0x6F it is even and lies in [-2^20, 2^20 - 2]; in each case it is
negative exactly when bit 31 of `w` is set and every output bit from the immediate's sign
bit (11, 11, 12, 20) up to bit 63 equals bit 31 of `w`. -/
theorem imm_gen_sign_extended (w : Nat) (hw : w < 2 ^ 32) :
    ((w &&& 0x7F = 0x13 ∨ w &&& 0x7F = 0x03 ∨ w &&& 0x7F = 0x73) →
        ∃ v, imm_gen w = some v ∧ v < 2 ^ 64 ∧
          toInt64 v = ((w / 2 ^ 20 % 2 ^ 12 : Nat) : Int) -
            (if w.testBit 31 = true then 4096 else 0) ∧
          -2048 ≤ toInt64 v ∧ toInt64 v ≤ 2047 ∧
          (toInt64 v < 0 ↔ w.testBit 31 = true) ∧
          ∀ i, 11 ≤ i → i < 64 → v.testBit i = w.testBit 31) ∧
      (w &&& 0x7F = 0x23 →
        ∃ v, imm_gen w = some v ∧ v < 2 ^ 64 ∧
          toInt64 v = ((w / 2 ^ 25 * 2 ^ 5 + w / 2 ^ 7 % 2 ^ 5 : Nat) : Int) -
            (if w.testBit 31 = true then 4096 else 0) ∧
          -2048 ≤ toInt64 v ∧ toInt64 v ≤ 2047 ∧
          (toInt64 v < 0 ↔ w.testBit 31 = true) ∧
          ∀ i, 11 ≤ i → i < 64 → v.testBit i = w.testBit 31) ∧
      (w &&& 0x7F = 0x63 →
        ∃ v, imm_gen w = some v ∧ v < 2 ^ 64 ∧
          toInt64 v = ((w / 2 ^ 31 % 2 * 2 ^ 12 + (w / 2 ^ 7 % 2 * 2 ^ 11 +
              (w / 2 ^ 25 % 2 ^ 6 * 2 ^ 5 + w / 2 ^ 8 % 2 ^ 4 * 2 ^ 1)) : Nat) : Int) -
            (if w.testBit 31 = true then 8192 else 0) ∧
          toInt64 v % 2 = 0 ∧ -4096 ≤ toInt64 v ∧ toInt64 v ≤ 4094 ∧
          (toInt64 v < 0 ↔ w.testBit 31 = true) ∧
          ∀ i, 12 ≤ i → i < 64 → v.testBit i = w.testBit 31) ∧
      (w &&& 0x7F = 0x6F →
        ∃ v, imm_gen w = some v ∧ v < 2 ^ 64 ∧
          toInt64 v = ((w / 2 ^ 31 % 2 * 2 ^ 20 + (w / 2 ^ 12 % 2 ^ 8 * 2 ^ 12 +
              (w / 2 ^ 20 % 2 * 2 ^ 11 + w / 2 ^ 21 % 2 ^ 10 * 2 ^ 1)) : Nat) : Int) -
            (if w.testBit 31 = true then 2097152 else 0) ∧
          toInt64 v % 2 = 0 ∧ -2 ^ 20 ≤ toInt64 v ∧ toInt64 v ≤ 2 ^ 20 - 2 ∧
          (toInt64 v < 0 ↔ w.testBit 31 = true) ∧
          ∀ i, 20 ≤ i → i < 64 → v.testBit i = w.testBit 31) := by
  have hb := testBit_31 w hw
  rw [and_0x7F]
  refine ⟨?_, ?_, ?_, ?_⟩
  · intro hop
    obtain ⟨h1, h2, h3⟩ := sext_value (2 ^ 31 ≤ w) (w / 2 ^ 20 % 2 ^ 12) 11 (by decide)
      (by omega) (by omega)
    refine ⟨_, imm_gen_I w hw hop, h1, ?_, ?_, ?_, ?_, ?_⟩
    · rw [h2, hb]
      by_cases h : 2 ^ 31 ≤ w <;> simp [h]
    · rw [h2]
      split <;> omega
    · rw [h2]
      split <;> omega
    · rw [h2, hb]
      by_cases h : 2 ^ 31 ≤ w <;> simp [h] <;> omega
    · intro i hi1 hi2
      rw [h3 i hi1 hi2, hb]
  · intro hop
    obtain ⟨h1, h2, h3⟩ := sext_value (2 ^ 31 ≤ w) (w / 2 ^ 25 * 2 ^ 5 + w / 2 ^ 7 % 2 ^ 5) 11
      (by decide) (by omega) (by omega)
    refine ⟨_, imm_gen_S w hw hop, h1, ?_, ?_, ?_, ?_, ?_⟩
    · rw [h2, hb]
      by_cases h : 2 ^ 31 ≤ w <;> simp [h]
    · rw [h2]
      split <;> omega
    · rw [h2]
      split <;> omega
    · rw [h2, hb]
      by_cases h : 2 ^ 31 ≤ w <;> simp [h] <;> omega
    · intro i hi1 hi2
      rw [h3 i hi1 hi2, hb]
  · intro hop
    obtain ⟨h1, h2, h3⟩ := sext_value (2 ^ 31 ≤ w)
      (w / 2 ^ 31 % 2 * 2 ^ 12 + (w / 2 ^ 7 % 2 * 2 ^ 11 +
        (w / 2 ^ 25 % 2 ^ 6 * 2 ^ 5 + w / 2 ^ 8 % 2 ^ 4 * 2 ^ 1))) 12
      (by decide) (by omega) (by omega)
    refine ⟨_, imm_gen_B w hw hop, h1, ?_, ?_, ?_, ?_, ?_, ?_⟩
    · rw [h2, hb]
      by_cases h : 2 ^ 31 ≤ w <;> simp [h]
    · rw [h2]
      split <;> omega
    · rw [h2]
      split <;> omega
    · rw [h2]
      split <;> omega
    · rw [h2, hb]
      by_cases h : 2 ^ 31 ≤ w <;> simp [h] <;> omega
    · intro i hi1 hi2
      rw [h3 i hi1 hi2, hb]
  · intro hop
    obtain ⟨h1, h2, h3⟩ := sext_value (2 ^ 31 ≤ w)
      (w / 2 ^ 31 % 2 * 2 ^ 20 + (w / 2 ^ 12 % 2 ^ 8 * 2 ^ 12 +
        (w / 2 ^ 20 % 2 * 2 ^ 11 + w / 2 ^ 21 % 2 ^ 10 * 2 ^ 1))) 20
      (by decide) (by omega) (by omega)
    refine ⟨_, imm_gen_J w hw hop, h1, ?_, ?_, ?_, ?_, ?_, ?_⟩
    · rw [h2, hb]
      by_cases h : 2 ^ 31 ≤ w <;> simp [h]
    · rw [h2]
      split <;> omega
    · rw [h2]
      split <;> omega
    · rw [h2]
      split <;> omega
    · rw [h2, hb]
      by_cases h : 2 ^ 31 ≤ w <;> simp [h] <;> omega
    · intro i hi1 hi2
      rw [h3 i hi1 hi2, hb]

/-- Instance of the sign extension on the word `addi x1,x0,-1` (0xFFF00093). -/
theorem imm_gen_sign_extended_witness :
    ∃ v, imm_gen 0xFFF00093 = some v ∧ v < 2 ^ 64 ∧
      toInt64 v = ((0xFFF00093 / 2 ^ 20 % 2 ^ 12 : Nat) : Int) -
        (if (0xFFF00093 : Nat).testBit 31 = true then 4096 else 0) ∧
      -2048 ≤ toInt64 v ∧ toInt64 v ≤ 2047 ∧
      (toInt64 v < 0 ↔ (0xFFF00093 : Nat).testBit 31 = true) ∧
      ∀ i, 11 ≤ i → i < 64 → v.testBit i = (0xFFF00093 : Nat).testBit 31 :=
  (imm_gen_sign_extended 0xFFF00093 (by decide)).1 (by decide)

/-- The upper-immediate categories (0x37/0x17) are not among the sign-extended ones: for
`lui x1,0x80000` the result is `w & 0xFFFFF000`, with bit 31 set and bits 63-32 clear. -/
theorem imm_gen_upper_zero_extended :
    imm_gen 0x800000B7 = some 0x80000000 ∧ toInt64 0x80000000 = 2 ^ 31 := by
  decide

/-! ## the ALU and its control -/

/-- C27: for every funct7 and funct3, `ALU_control_unit` returns add (2) for class 0 unless
funct3 = 1, where it returns shift-left (3); subtract (6) for class 1; and for class 2 add
(2) at funct7 = 0, funct3 = 0, subtract (6) at funct7 = 32, funct3 = 0, AND (0) at funct7 = 0,
funct3 = 7, OR (1) at funct7 = 0, funct3 = 6 and shift-left (3) at funct7 = 0, funct3 = 1. -/
theorem ALU_control_unit_table (Funct7 Funct3 : Nat) :
    ALU_control_unit 0 Funct7 Funct3 = some (if Funct3 = 1 then 3 else 2) ∧
      ALU_control_unit 1 Funct7 Funct3 = some 6 ∧
      ALU_control_unit 2 0 0 = some 2 ∧
      ALU_control_unit 2 32 0 = some 6 ∧
      ALU_control_unit 2 0 7 = some 0 ∧
      ALU_control_unit 2 0 6 = some 1 ∧
      ALU_control_unit 2 0 1 = some 3 := by
  refine ⟨?_, rfl, rfl, rfl, rfl, rfl, rfl⟩
  unfold ALU_control_unit
  rw [if_pos rfl]
  split <;> rfl

/-- C28 (what the code does): for class 2 `ALU_control_unit` never returns the
set-less-than code 7, although the ALU implements it (`ALU 1 2 7` gives 1); the result is
one of add, subtract, AND, OR, shift-left, or no value at all: for every other
funct7/funct3 pair, such as funct3 = 2 (`slt`) or funct3 = 4 (`xor`, which parser.c
encodes), control reaches the end of the function without a `return`. -/
theorem ALU_control_unit_class_2 (Funct7 Funct3 : Nat) :
    ALU_control_unit 2 Funct7 Funct3 ≠ some 7 ∧
      (ALU_control_unit 2 Funct7 Funct3 = none ∨ ALU_control_unit 2 Funct7 Funct3 = some 2 ∨
        ALU_control_unit 2 Funct7 Funct3 = some 6 ∨ ALU_control_unit 2 Funct7 Funct3 = some 0 ∨
        ALU_control_unit 2 Funct7 Funct3 = some 1 ∨
        ALU_control_unit 2 Funct7 Funct3 = some 3) ∧
      ALU_control_unit 2 0 2 = none ∧ ALU_control_unit 2 0 4 = none ∧
      (ALU 1 2 7).1 = 1 := by
  refine ⟨?_, ?_, rfl, rfl, rfl⟩
  · unfold ALU_control_unit
    rw [if_neg (by decide), if_neg (by decide), if_pos rfl]
    split_ifs <;> simp
  · unfold ALU_control_unit
    rw [if_neg (by decide), if_neg (by decide), if_pos rfl]
    split_ifs <;> simp

/-- C29: for all 64-bit patterns `a`, `b`, read as signed numbers by `toInt64`, the ALU
result is `a + b` for code 2 and `a - b` for code 6 (both modulo `2 ^ 64`), `a AND b` for
code 0, `a OR b` for code 1, `a` shifted left by `b & 31` for code 3 (modulo `2 ^ 64`),
1 if `a < b` as signed numbers and 0 otherwise for code 7, and 0 for every other code; the
result is a 64-bit pattern and the zero flag is 1 exactly when the result is 0. -/
theorem ALU_result (a b : Nat) (ha : a < 2 ^ 64) (hb : b < 2 ^ 64) :
    ((ALU a b 2).1 : Int) = (toInt64 a + toInt64 b) % 2 ^ 64 ∧
      ((ALU a b 6).1 : Int) = (toInt64 a - toInt64 b) % 2 ^ 64 ∧
      (ALU a b 0).1 = a &&& b ∧
      (ALU a b 1).1 = a ||| b ∧
      (ALU a b 3).1 = a * 2 ^ (b % 32) % 2 ^ 64 ∧
      (ALU a b 7).1 = (if toInt64 a < toInt64 b then 1 else 0) ∧
      (∀ op, op ≠ 2 → op ≠ 6 → op ≠ 0 → op ≠ 1 → op ≠ 3 → op ≠ 7 → (ALU a b op).1 = 0) ∧
      ∀ op, (ALU a b op).1 < 2 ^ 64 ∧
        (ALU a b op).2 = (if (ALU a b op).1 = 0 then 1 else 0) := by
  refine ⟨?_, ?_, rfl, rfl, ?_, rfl, ?_, ?_⟩
  · show (((a + b) % 2 ^ 64 : Nat) : Int) = _
    unfold toInt64
    split <;> split <;> omega
  · show (((a + (2 ^ 64 - b % 2 ^ 64)) % 2 ^ 64 : Nat) : Int) = _
    unfold toInt64
    split <;> split <;> omega
  · show a <<< (b &&& 0x1F) % 2 ^ 64 = _
    rw [and_0x1F, Nat.shiftLeft_eq]
    rfl
  · intro op h2 h6 h0 h1 h3 h7
    unfold ALU
    simp only [if_neg h2, if_neg h6, if_neg h0, if_neg h1, if_neg h3, if_neg h7]
  · intro op
    refine ⟨?_, rfl⟩
    unfold ALU
    simp only []
    split_ifs
    · exact Nat.mod_lt _ (by decide)
    · exact Nat.mod_lt _ (by decide)
    · exact Nat.lt_of_le_of_lt Nat.and_le_left ha
    · exact Nat.or_lt_two_pow ha hb
    · exact Nat.mod_lt _ (by decide)
    · decide
    · decide
    · decide

/-- Instance of the preceding theorem at `a = -1` (the pattern `2 ^ 64 - 1`) and `b = 1`. -/
theorem ALU_result_witness :
    ((ALU (2 ^ 64 - 1) 1 2).1 : Int) = (toInt64 (2 ^ 64 - 1) + toInt64 1) % 2 ^ 64 ∧
      ((ALU (2 ^ 64 - 1) 1 6).1 : Int) = (toInt64 (2 ^ 64 - 1) - toInt64 1) % 2 ^ 64 ∧
      (ALU (2 ^ 64 - 1) 1 0).1 = (2 ^ 64 - 1) &&& 1 ∧
      (ALU (2 ^ 64 - 1) 1 1).1 = (2 ^ 64 - 1) ||| 1 ∧
      (ALU (2 ^ 64 - 1) 1 3).1 = (2 ^ 64 - 1) * 2 ^ (1 % 32) % 2 ^ 64 ∧
      (ALU (2 ^ 64 - 1) 1 7).1 = (if toInt64 (2 ^ 64 - 1) < toInt64 1 then 1 else 0) ∧
      (∀ op, op ≠ 2 → op ≠ 6 → op ≠ 0 → op ≠ 1 → op ≠ 3 → op ≠ 7 →
        (ALU (2 ^ 64 - 1) 1 op).1 = 0) ∧
      ∀ op, (ALU (2 ^ 64 - 1) 1 op).1 < 2 ^ 64 ∧
        (ALU (2 ^ 64 - 1) 1 op).2 = (if (ALU (2 ^ 64 - 1) 1 op).1 = 0 then 1 else 0) :=
  ALU_result (2 ^ 64 - 1) 1 (by decide) (by decide)

/-! ## the decode stage -/

theorem shr_and_7 (w : Nat) : (w >>> 12) &&& 0x7 = w / 2 ^ 12 % 2 ^ 3 := by
  rw [Nat.shiftRight_eq_div_pow]
  exact Nat.and_pow_two_sub_one_eq_mod _ 3

theorem shr_and_127 (w : Nat) : (w >>> 25) &&& 0x7F = w / 2 ^ 25 % 2 ^ 7 := by
  rw [Nat.shiftRight_eq_div_pow]
  exact Nat.and_pow_two_sub_one_eq_mod _ 7

/-- C25: when every register holds a value in `[0, 2 ^ 32)`, `instruction_decode` puts into
the next ID/EX the instruction word and `PC` of IF/ID, `rd` = bits 7-11, `funct3` = bits
12-14, `funct7` = bits 25-31, the `rs1` value `reg_file[bits 15-19]` and the `rs2` value
`reg_file[bits 20-24]` as they stand at decode time, and it leaves the core, so the
register file, unchanged. -/
theorem instruction_decode_fields (u : indeterminate_t) (core : core_t) (if_id : IF_ID_t)
    (id_ex : ID_EX_t) (hreg : ∀ i, i < NUM_REGISTERS → core.reg_file i < 2 ^ 32) :
    (instruction_decode u core if_id id_ex).1 = core ∧
      (instruction_decode u core if_id id_ex).2.instruction = if_id.instruction ∧
      (instruction_decode u core if_id id_ex).2.PC = if_id.PC ∧
      (instruction_decode u core if_id id_ex).2.rd = if_id.instruction / 2 ^ 7 % 2 ^ 5 ∧
      (instruction_decode u core if_id id_ex).2.funct3 = if_id.instruction / 2 ^ 12 % 2 ^ 3 ∧
      (instruction_decode u core if_id id_ex).2.funct7 = if_id.instruction / 2 ^ 25 % 2 ^ 7 ∧
      (instruction_decode u core if_id id_ex).2.rs1 =
        core.reg_file (if_id.instruction / 2 ^ 15 % 2 ^ 5) ∧
      (instruction_decode u core if_id id_ex).2.rs2 =
        core.reg_file (if_id.instruction / 2 ^ 20 % 2 ^ 5) := by
  refine ⟨rfl, rfl, rfl, shr_and_31 _ 7, shr_and_7 _, shr_and_127 _, ?_, ?_⟩
  · show core.reg_file ((if_id.instruction >>> 15) &&& 0x1F) % 2 ^ 32 = _
    rw [shr_and_31, Nat.mod_eq_of_lt (hreg _ (reg_field_lt _ _))]
    rfl
  · show core.reg_file ((if_id.instruction >>> 20) &&& 0x1F) % 2 ^ 32 = _
    rw [shr_and_31, Nat.mod_eq_of_lt (hreg _ (reg_field_lt _ _))]
    rfl

theorem lw_add_core_1_regs : ∀ i, i < NUM_REGISTERS → lw_add_core_1.reg_file i < 2 ^ 32 := by
  intro i _
  show (if i = 1 then 7 else 0) < 2 ^ 32
  split <;> decide

/-- Instance of the preceding theorem: decoding `add x2,x1,x1` when register 1 holds 7. -/
theorem instruction_decode_fields_witness :
    (instruction_decode { imm := 0, alu_ctrl := 0 } lw_add_core_1
        { instruction := add_x2_x1_x1, PC := 4 } lw_add_core_1.id_ex).2.rs1 =
      lw_add_core_1.reg_file (add_x2_x1_x1 / 2 ^ 15 % 2 ^ 5) :=
  (instruction_decode_fields { imm := 0, alu_ctrl := 0 } lw_add_core_1
    { instruction := add_x2_x1_x1, PC := 4 } lw_add_core_1.id_ex lw_add_core_1_regs).2.2.2.2.2.2.1

/-! ## the execute stage -/

/-- C30: when at least one of the six flags of the bubble test is set on ID/EX, `execute`
resolves operand 1 by the forward selector A (EX/MEM ALU result, else MEM/WB ALU result,
else the staged `rs1`), operand 2 by the forward selector B with the staged immediate (when
`ALUSrc` is set) or the staged `rs2` as the unforwarded value, and writes into the next
EX/MEM the ALU result of these operands under the operation of `ALU_control_unit`, truncated
to 32 bits, the zero flag, the staged `rs2`, and `rd` and the control signals of ID/EX;
when every control flag of ID/EX is clear, the next EX/MEM is unchanged. The core is
unchanged in both cases. -/
theorem execute_result (u : indeterminate_t) (core : core_t) (id_ex : ID_EX_t)
    (ex_mem : EX_MEM_t) :
    ((id_ex.control.RegWrite ≠ 0 ∨ id_ex.control.ALUSrc ≠ 0 ∨ id_ex.control.MemRead ≠ 0 ∨
        id_ex.control.MemWrite ≠ 0 ∨ id_ex.control.MemtoReg ≠ 0 ∨
        id_ex.control.Branch ≠ 0) →
      (execute u core id_ex ex_mem).2 =
        { alu_result :=
            (ALU (resolve_operand core.forwardA core.ex_mem.alu_result core.mem_wb.alu_result
                id_ex.rs1)
              (resolve_operand core.forwardB core.ex_mem.alu_result core.mem_wb.alu_result
                (if id_ex.control.ALUSrc ≠ 0 then id_ex.imm else id_ex.rs2))
              ((ALU_control_unit id_ex.control.ALUOp id_ex.funct7 id_ex.funct3).getD
                u.alu_ctrl)).1 % 2 ^ 32
          zero :=
            (ALU (resolve_operand core.forwardA core.ex_mem.alu_result core.mem_wb.alu_result
                id_ex.rs1)
              (resolve_operand core.forwardB core.ex_mem.alu_result core.mem_wb.alu_result
                (if id_ex.control.ALUSrc ≠ 0 then id_ex.imm else id_ex.rs2))
              ((ALU_control_unit id_ex.control.ALUOp id_ex.funct7 id_ex.funct3).getD
                u.alu_ctrl)).2 % 2 ^ 8
          rs2 := id_ex.rs2
          rd := id_ex.rd
          control := id_ex.control }) ∧
      (id_ex.control = control_signals_zero → (execute u core id_ex ex_mem).2 = ex_mem) ∧
      (execute u core id_ex ex_mem).1 = core := by
  refine ⟨?_, ?_, execute_fst u core id_ex ex_mem⟩
  · intro h
    unfold execute resolve_operand
    rw [if_neg (by omega)]
  · intro h
    unfold execute
    rw [if_pos (by rw [h]; exact ⟨rfl, rfl, rfl, rfl, rfl, rfl⟩)]

/-- Instance of the preceding theorem: executing the staged `lw x1,0(x0)` of
`lw_add_core_1`. -/
theorem execute_result_witness :
    (execute { imm := 0, alu_ctrl := 0 } lw_add_core_1 lw_add_core_1.id_ex
        lw_add_core.ex_mem).2 =
      { alu_result :=
          (ALU (resolve_operand lw_add_core_1.forwardA lw_add_core_1.ex_mem.alu_result
              lw_add_core_1.mem_wb.alu_result lw_add_core_1.id_ex.rs1)
            (resolve_operand lw_add_core_1.forwardB lw_add_core_1.ex_mem.alu_result
              lw_add_core_1.mem_wb.alu_result
              (if lw_add_core_1.id_ex.control.ALUSrc ≠ 0 then lw_add_core_1.id_ex.imm
                else lw_add_core_1.id_ex.rs2))
            ((ALU_control_unit lw_add_core_1.id_ex.control.ALUOp lw_add_core_1.id_ex.funct7
              lw_add_core_1.id_ex.funct3).getD 0)).1 % 2 ^ 32
        zero :=
          (ALU (resolve_operand lw_add_core_1.forwardA lw_add_core_1.ex_mem.alu_result
              lw_add_core_1.mem_wb.alu_result lw_add_core_1.id_ex.rs1)
            (resolve_operand lw_add_core_1.forwardB lw_add_core_1.ex_mem.alu_result
              lw_add_core_1.mem_wb.alu_result
              (if lw_add_core_1.id_ex.control.ALUSrc ≠ 0 then lw_add_core_1.id_ex.imm
                else lw_add_core_1.id_ex.rs2))
            ((ALU_control_unit lw_add_core_1.id_ex.control.ALUOp lw_add_core_1.id_ex.funct7
              lw_add_core_1.id_ex.funct3).getD 0)).2 % 2 ^ 8
        rs2 := lw_add_core_1.id_ex.rs2
        rd := lw_add_core_1.id_ex.rd
        control := lw_add_core_1.id_ex.control } :=
  (execute_result { imm := 0, alu_ctrl := 0 } lw_add_core_1 lw_add_core_1.id_ex
    lw_add_core.ex_mem).1 (by decide)

/-! ## the memory stage -/

/-- C23 (the claim as stated fails): for an EX/MEM register holding a branch, with `Branch`
and the ALU class set and the address 0 in bounds, `memory_access` is a no-op: the next
MEM/WB keeps the destination register and the control signals of the older instruction
instead of those of the branch. -/
theorem memory_access_skips_branch :
    branch_control.Branch ≠ 0 ∧
      memory_access addi_done_core
          { alu_result := 0, rs2 := 0, rd := 0, zero := 1, control := branch_control }
          addi_done_core.mem_wb = some (addi_done_core, addi_done_core.mem_wb) ∧
      addi_done_core.mem_wb.control ≠ branch_control ∧ addi_done_core.mem_wb.rd ≠ 0 := by
  refine ⟨by decide, rfl, by decide, by decide⟩

/-- C23 (amended): `memory_access` is a no-op exactly for an EX/MEM register whose four
flags `RegWrite`, `MemRead`, `MemWrite` and `MemtoReg` are all clear. When at least one of
the four is set (and the eight-byte access, if there is one, lies in data memory), the ALU
result, the destination register and the control signals of EX/MEM are copied into the next
MEM/WB; when all four are clear, whatever `Branch`, `ALUSrc` and the ALU class are, the core
and the next MEM/WB are unchanged. -/
theorem memory_access_propagates (core : core_t) (ex_mem : EX_MEM_t) (mem_wb : MEM_WB_t) :
    ((ex_mem.control.RegWrite ≠ 0 ∨ ex_mem.control.MemRead ≠ 0 ∨
        ex_mem.control.MemWrite ≠ 0 ∨ ex_mem.control.MemtoReg ≠ 0) →
      (ex_mem.control.MemRead ≠ 0 ∨ ex_mem.control.MemWrite ≠ 0 →
        ex_mem.alu_result + 8 ≤ MEM_SIZE) →
      ∃ c wb, memory_access core ex_mem mem_wb = some (c, wb) ∧
        wb.alu_result = ex_mem.alu_result ∧ wb.rd = ex_mem.rd ∧
        wb.control = ex_mem.control) ∧
      ((ex_mem.control.RegWrite = 0 ∧ ex_mem.control.MemRead = 0 ∧
          ex_mem.control.MemWrite = 0 ∧ ex_mem.control.MemtoReg = 0) →
        memory_access core ex_mem mem_wb = some (core, mem_wb)) := by
  constructor
  · intro h hb
    unfold memory_access
    rw [if_neg (by omega)]
    by_cases hr : ex_mem.control.MemRead ≠ 0
    · rw [if_pos hr, if_pos (hb (Or.inl hr))]
      exact ⟨_, _, rfl, rfl, rfl, rfl⟩
    · rw [if_neg hr]
      by_cases hw : ex_mem.control.MemWrite ≠ 0
      · rw [if_pos hw, if_pos (hb (Or.inr hw))]
        exact ⟨_, _, rfl, rfl, rfl, rfl⟩
      · rw [if_neg hw]
        exact ⟨_, _, rfl, rfl, rfl, rfl⟩
  · intro h
    unfold memory_access
    rw [if_pos h]

/-- Instance of the preceding theorem: the memory stage of the load of the `lw`/`add`
program. -/
theorem memory_access_propagates_witness :
    ∃ c wb, memory_access lw_add_core lw_add_core_1.ex_mem lw_add_core.mem_wb = some (c, wb) ∧
      wb.alu_result = lw_add_core_1.ex_mem.alu_result ∧ wb.rd = lw_add_core_1.ex_mem.rd ∧
      wb.control = lw_add_core_1.ex_mem.control :=
  (memory_access_propagates lw_add_core lw_add_core_1.ex_mem lw_add_core.mem_wb).1
    (by decide) (by decide)

/-- C22 (what the code does): `memory_access` has no bounds check and never writes `halt`.
With memory-read or memory-write enabled and an address whose eight-byte access does not
lie in `data_mem[0 .. MEM_SIZE)`, the stage performs the access all the same, which is
outside the array and has no defined result; and whenever the stage has a defined result,
`halt` is what it was. -/
theorem memory_access_unchecked (core : core_t) (ex_mem : EX_MEM_t) (mem_wb : MEM_WB_t)
    (hm : ex_mem.control.MemRead ≠ 0 ∨ ex_mem.control.MemWrite ≠ 0)
    (hb : ex_mem.alu_result + 8 > MEM_SIZE) :
    memory_access core ex_mem mem_wb = none ∧
      ∀ (e : EX_MEM_t) (c : core_t) (wb : MEM_WB_t),
        memory_access core e mem_wb = some (c, wb) → c.halt = core.halt := by
  constructor
  · unfold memory_access
    rw [if_neg (by omega)]
    by_cases hr : ex_mem.control.MemRead ≠ 0
    · rw [if_pos hr, if_neg (by omega)]
    · have hw : ex_mem.control.MemWrite ≠ 0 := by
        rcases hm with h | h
        · exact absurd h hr
        · exact h
      rw [if_neg hr, if_pos hw, if_neg (by omega)]
  · intro e c wb h
    rw [memory_access_frame core c e mem_wb wb h]

/-- Instance of the preceding theorem: a load from address 1020 of the 1024-byte memory. -/
theorem memory_access_unchecked_witness :
    memory_access lw_add_core
        { alu_result := 1020, rs2 := 0, rd := 1, zero := 0, control := load_control }
        lw_add_core.mem_wb = none ∧
      ∀ (e : EX_MEM_t) (c : core_t) (wb : MEM_WB_t),
        memory_access lw_add_core e lw_add_core.mem_wb = some (c, wb) →
          c.halt = lw_add_core.halt :=
  memory_access_unchecked lw_add_core
    { alu_result := 1020, rs2 := 0, rd := 1, zero := 0, control := load_control }
    lw_add_core.mem_wb (by decide) (by decide)

/-! ## stall and halt -/

theorem stall_halt_tick (u : indeterminate_t) (c c' : core_t) (b : Bool)
    (hi : ¬ (c.stall ≠ 0 ∧ c.halt = true)) (ht : tick_func u c = some (c', b)) :
    ¬ (c'.stall ≠ 0 ∧ c'.halt = true) := by
  obtain ⟨c1, f1, hf, hc⟩ := tick_func_cases u c c' b ht
  rcases hc with ⟨hh, hc, _⟩ | ⟨_, _, hh, _⟩ | ⟨_, _, c4, c5, wb, last, _, _, hc, hh, _⟩
  · subst hc
    obtain ⟨_, hcs⟩ := instruction_fetch_cases c c' c.if_id f1 hf
    rcases hcs with ⟨hs, h1, _⟩ | ⟨hs, _, h1, _⟩ | ⟨hs, _, _, h1, _⟩
    · subst h1
      exact hi
    · subst h1
      exact fun h => h.1 hs
    · subst h1
      exact fun h => h.1 hs
  · intro h
    rw [hh] at h
    exact absurd h.2 (by simp)
  · intro h
    rw [hc] at h
    have h' : c5.halt = true := h.2
    rw [hh] at h'
    exact absurd h' (by simp)

theorem stall_halt_core_after (us : Nat → indeterminate_t) :
    ∀ (i : Nat) (c c' : core_t) (k : Nat), ¬ (c.stall ≠ 0 ∧ c.halt = true) →
      core_after us i c k = some c' → ¬ (c'.stall ≠ 0 ∧ c'.halt = true) := by
  intro i
  induction i with
  | zero =>
    intro c c' k hi h
    simp only [core_after, Option.some.injEq] at h
    subst h
    exact hi
  | succ i ih =>
    intro c c' k hi h
    unfold core_after at h
    cases ht : tick_func (us k) c with
    | none =>
      rw [ht] at h
      exact absurd h (by simp)
    | some r =>
      obtain ⟨c2, b⟩ := r
      rw [ht] at h
      exact ih c2 c' (k + 1) (stall_halt_tick (us k) c c2 b hi ht) h

/-- C24: in every core state reached from the state built by `init_core` (clock 0, `PC` 0,
`halt` clear; `stall` clear or, since `init_core` does not assign it, anything else) by
any number of calls of `tick_func`, `stall` and `halt` are not both set. -/
theorem stall_never_with_halt (us : Nat → indeterminate_t) (i k : Nat)
    (i_mem : instruction_memory_t) (st fa fb : Nat) (c : core_t)
    (hr : core_after us i (init_core i_mem st fa fb) k = some c) :
    ¬ (c.stall ≠ 0 ∧ c.halt = true) :=
  stall_halt_core_after us i (init_core i_mem st fa fb) c k
    (fun h => absurd h.2 (by simp [init_core])) hr

/-- Instance of the preceding theorem: two calls on the one-instruction program reach a
core with `halt` set and `stall` clear. -/
theorem stall_never_with_halt_witness :
    core_after (fun _ => { imm := 0, alu_ctrl := 0 }) 2
        (init_core (load_words 0 [addi_x1_x0_5]) 0 0 0) 0 =
        some { addi_done_core with halt := true } ∧
      ¬ (({ addi_done_core with halt := true } : core_t).stall ≠ 0 ∧
        ({ addi_done_core with halt := true } : core_t).halt = true) :=
  ⟨rfl, stall_never_with_halt (fun _ => { imm := 0, alu_ctrl := 0 }) 2 0
    (load_words 0 [addi_x1_x0_5]) 0 0 0 { addi_done_core with halt := true } rfl⟩

/-! ## opcodes the control decoder does not list -/

theorem control_unit_unknown (input : Nat) (signals : control_signals_t)
    (h : input ≠ 51 ∧ input ≠ 3 ∧ input ≠ 35 ∧ input ≠ 99 ∧ input ≠ 19) :
    control_unit input signals = signals := by
  unfold control_unit
  rw [if_neg h.1, if_neg h.2.1, if_neg h.2.2.1, if_neg h.2.2.2.1, if_neg h.2.2.2.2]

theorem instruction_decode_unknown (u : indeterminate_t) (core : core_t) (if_id : IF_ID_t)
    (id_ex : ID_EX_t)
    (h : if_id.instruction &&& 0x7F ≠ 51 ∧ if_id.instruction &&& 0x7F ≠ 3 ∧
      if_id.instruction &&& 0x7F ≠ 35 ∧ if_id.instruction &&& 0x7F ≠ 99 ∧
      if_id.instruction &&& 0x7F ≠ 19) :
    (instruction_decode u core if_id id_ex).2.control = id_ex.control :=
  control_unit_unknown _ _ h

/-- C21 (evaluation at the failing input): in the program `addi x1,x0,5`; `add x2,x1,x1`;
`jalr x3,x1,1` the third word has opcode 103, none of 51, 3, 35, 99, 19. Run from the
initial core, the third call decodes it into an ID/EX register that carries the control
signals of the `add` before it (register-write set, ALU class 2), and the word is executed
as an addition that writes 10 into register 3, whatever the indeterminate values are. -/
theorem unknown_opcode_run (us : Nat → indeterminate_t) (fa fb k : Nat) :
    ∃ c, main_loop us (k + 3) (init_core (load_words 0 addi_add_jalr) 0 fa fb) 0 0
          = some (c, 3, 0) ∧
      c.id_ex.instruction = parse_I_type 103 0 3 1 1 ∧
      c.id_ex.instruction &&& 0x7F = 103 ∧
      c.id_ex.control = r_type_control ∧ c.reg_file 3 = 10 := by
  have hdet : run_determinate (fun _ => { imm := 0, alu_ctrl := 0 }) 3
      (init_core (load_words 0 addi_add_jalr) 0 0 0) 0 = true := by
    decide
  have hrun : (main_loop (fun _ => { imm := 0, alu_ctrl := 0 }) 3
        (init_core (load_words 0 addi_add_jalr) 0 0 0) 0 0).map
      (fun r => (r.2, r.1.id_ex.instruction, r.1.id_ex.control, r.1.reg_file 3)) =
      some ((3, 0), parse_I_type 103 0 3 1 1, r_type_control, 10) := by
    decide
  cases h : main_loop (fun _ => { imm := 0, alu_ctrl := 0 }) 3
      (init_core (load_words 0 addi_add_jalr) 0 0 0) 0 0 with
  | none =>
    rw [h] at hrun
    exact absurd hrun (by simp)
  | some r =>
    obtain ⟨c', n, st⟩ := r
    rw [h] at hrun
    simp only [Option.map_some', Option.some.injEq, Prod.mk.injEq] at hrun
    obtain ⟨⟨hn, hs⟩, h1, h2, h3⟩ := hrun
    subst hn hs
    obtain ⟨c, hc, a, b, x, hl⟩ := main_loop_same_live us _ 3
      (init_core (load_words 0 addi_add_jalr) 0 fa fb)
      (init_core (load_words 0 addi_add_jalr) 0 0 0) 0 0 ⟨fa, fb, 0, rfl⟩ hdet c' 3 0 h
    refine ⟨c, main_loop_more_fuel us k 3 _ 0 0 _ hc, ?_, ?_, ?_, ?_⟩
    · rw [hl]; exact h1
    · rw [hl]
      show c'.id_ex.instruction &&& 0x7F = 103
      rw [h1]
      decide
    · rw [hl]; exact h2
    · rw [hl]; exact h3

/-! ## the staged immediate -/

theorem instruction_decode_imm (u : indeterminate_t) (core : core_t) (if_id : IF_ID_t)
    (id_ex : ID_EX_t) (v : Nat) (h : imm_gen if_id.instruction = some v) :
    (instruction_decode u core if_id id_ex).2.imm = v % 2 ^ 32 := by
  show (imm_gen if_id.instruction).getD u.imm % 2 ^ 32 = v % 2 ^ 32
  rw [h]
  rfl

/-- C26 (evaluation at the failing input): for the word `addi x1,x0,-1`, `imm_gen` returns
the 64-bit pattern of -1, but `instruction_decode` stages it in the `uint32_t` field `imm`
as 4294967295, which read as an integer is 4294967295 and not -1; `execute` hands this value
to the ALU as operand 2, and the one-instruction program run from the initial core leaves
4294967295 in register 1, whatever the indeterminate values are. -/
theorem negative_immediate_run (us : Nat → indeterminate_t) (fa fb k : Nat) :
    imm_gen addi_x1_x0_m1 = some (2 ^ 64 - 1) ∧ toInt64 (2 ^ 64 - 1) = -1 ∧
      (∀ (u : indeterminate_t) (core : core_t) (pc : Nat) (id_ex : ID_EX_t),
        (instruction_decode u core { instruction := addi_x1_x0_m1, PC := pc } id_ex).2.imm =
          4294967295) ∧
      toInt64 4294967295 = 4294967295 ∧
      ∃ c, main_loop us (k + 1) (init_core (load_words 0 [addi_x1_x0_m1]) 0 fa fb) 0 0
            = some (c, 1, 0) ∧
        c.reg_file 1 = 4294967295 ∧ c.ex_mem.alu_result = 4294967295 := by
  have himm : imm_gen addi_x1_x0_m1 = some (2 ^ 64 - 1) := by decide
  refine ⟨himm, by decide, fun u core pc id_ex =>
    (instruction_decode_imm u core { instruction := addi_x1_x0_m1, PC := pc } id_ex _
      himm).trans (by decide), by decide, ?_⟩
  have hdet : run_determinate (fun _ => { imm := 0, alu_ctrl := 0 }) 1
      (init_core (load_words 0 [addi_x1_x0_m1]) 0 0 0) 0 = true := by
    decide
  have hrun : (main_loop (fun _ => { imm := 0, alu_ctrl := 0 }) 1
        (init_core (load_words 0 [addi_x1_x0_m1]) 0 0 0) 0 0).map
      (fun r => (r.2, r.1.reg_file 1, r.1.ex_mem.alu_result)) =
      some ((1, 0), 4294967295, 4294967295) := by
    decide
  cases h : main_loop (fun _ => { imm := 0, alu_ctrl := 0 }) 1
      (init_core (load_words 0 [addi_x1_x0_m1]) 0 0 0) 0 0 with
  | none =>
    rw [h] at hrun
    exact absurd hrun (by simp)
  | some r =>
    obtain ⟨c', n, st⟩ := r
    rw [h] at hrun
    simp only [Option.map_some', Option.some.injEq, Prod.mk.injEq] at hrun
    obtain ⟨⟨hn, hs⟩, h1, h2⟩ := hrun
    subst hn hs
    obtain ⟨c, hc, a, b, x, hl⟩ := main_loop_same_live us _ 1
      (init_core (load_words 0 [addi_x1_x0_m1]) 0 fa fb)
      (init_core (load_words 0 [addi_x1_x0_m1]) 0 0 0) 0 0 ⟨fa, fb, 0, rfl⟩ hdet c' 1 0 h
    refine ⟨c, main_loop_more_fuel us k 1 _ 0 0 _ hc, ?_, ?_⟩
    · rw [hl]; exact h1
    · rw [hl]; exact h2

/-! ## runs that show the 32-bit pipeline fields and the forwarding unit -/

/-- C31 (evaluation at the failing input): in the program `addi x3,x0,1`; `addi x2,x3,-1`
the second instruction adds the staged immediate 4294967295 to 1. The 64-bit ALU result
`2 ^ 32` is not 0, so the zero flag is 0, but the `uint32_t` field `alu_result` of EX/MEM
stores 0: after the run EX/MEM holds the ALU result 0 with the zero flag 0, whatever the
indeterminate values are. -/
theorem zero_flag_run (us : Nat → indeterminate_t) (fa fb k : Nat) :
    ∃ c, main_loop us (k + 2) (init_core (load_words 0 addi_one_minus_one) 0 fa fb) 0 0
          = some (c, 2, 0) ∧
      c.ex_mem.control.RegWrite = 1 ∧ c.ex_mem.rd = 2 ∧
      c.ex_mem.alu_result = 0 ∧ c.ex_mem.zero = 0 := by
  have hdet : run_determinate (fun _ => { imm := 0, alu_ctrl := 0 }) 2
      (init_core (load_words 0 addi_one_minus_one) 0 0 0) 0 = true := by
    decide
  have hrun : (main_loop (fun _ => { imm := 0, alu_ctrl := 0 }) 2
        (init_core (load_words 0 addi_one_minus_one) 0 0 0) 0 0).map
      (fun r => (r.2, r.1.ex_mem)) =
      some ((2, 0), { alu_result := 0, rs2 := 0, rd := 2, zero := 0,
                      control := control_unit 19 control_signals_zero }) := by
    decide
  cases h : main_loop (fun _ => { imm := 0, alu_ctrl := 0 }) 2
      (init_core (load_words 0 addi_one_minus_one) 0 0 0) 0 0 with
  | none =>
    rw [h] at hrun
    exact absurd hrun (by simp)
  | some r =>
    obtain ⟨c', n, st⟩ := r
    rw [h] at hrun
    simp only [Option.map_some', Option.some.injEq, Prod.mk.injEq] at hrun
    obtain ⟨⟨hn, hs⟩, h1⟩ := hrun
    subst hn hs
    obtain ⟨c, hc, a, b, x, hl⟩ := main_loop_same_live us _ 2
      (init_core (load_words 0 addi_one_minus_one) 0 fa fb)
      (init_core (load_words 0 addi_one_minus_one) 0 0 0) 0 0 ⟨fa, fb, 0, rfl⟩ hdet c' 2 0 h
    have he : c.ex_mem = c'.ex_mem := by rw [hl]; rfl
    refine ⟨c, main_loop_more_fuel us k 2 _ 0 0 _ hc, ?_, ?_, ?_, ?_⟩
    all_goals (rw [he, h1]; try rfl)

/-- C32 (evaluation at the failing input): in the program `lw x1,0(x0)`; `beq x0,x0,0`;
`beq x1,x0,0`; `add x2,x1,x1` with the value 7 at address 0 of data memory, the fourth call
finds the load still in MEM/WB (the branches pass the memory stage as bubbles) and forwards
from MEM/WB for operand 1. The value it takes is the ALU result of the load, its address 0,
while `write_back` writes the loaded data 7 for that MEM/WB register: the sum left in
register 2 is 0 + 7 = 7, not 14, whatever the indeterminate values are. -/
theorem forward_load_run (us : Nat → indeterminate_t) (k : Nat) :
    ∃ c, main_loop us (k + 4) lw_beq_beq_add_core 0 0 = some (c, 4, 0) ∧
      c.reg_file 1 = 7 ∧ c.reg_file 2 = 7 ∧ c.ex_mem.alu_result = 7 := by
  have hdet : run_determinate (fun _ => { imm := 0, alu_ctrl := 0 }) 4
      lw_beq_beq_add_core 0 = true := by
    decide
  have hrun : (main_loop (fun _ => { imm := 0, alu_ctrl := 0 }) 4 lw_beq_beq_add_core 0 0).map
      (fun r => (r.2, r.1.reg_file 1, r.1.reg_file 2, r.1.ex_mem.alu_result)) =
      some ((4, 0), 7, 7, 7) := by
    decide
  cases h : main_loop (fun _ => { imm := 0, alu_ctrl := 0 }) 4 lw_beq_beq_add_core 0 0 with
  | none =>
    rw [h] at hrun
    exact absurd hrun (by simp)
  | some r =>
    obtain ⟨c', n, st⟩ := r
    rw [h] at hrun
    simp only [Option.map_some', Option.some.injEq, Prod.mk.injEq] at hrun
    obtain ⟨⟨hn, hs⟩, h1, h2, h3⟩ := hrun
    subst hn hs
    obtain ⟨c, hc, a, b, x, hl⟩ := main_loop_same_live us _ 4 lw_beq_beq_add_core
      lw_beq_beq_add_core 0 0 ⟨0, 0, 0, rfl⟩ hdet c' 4 0 h
    refine ⟨c, main_loop_more_fuel us k 4 _ 0 0 _ hc, ?_, ?_, ?_⟩
    · rw [hl]; exact h1
    · rw [hl]; exact h2
    · rw [hl]; exact h3

/-- C33 (evaluation at the failing input): in the program `addi x1,x1,5`; `addi x2,x0,3` the
second call forwards operand 1 from EX/MEM, because the destination register 1 of EX/MEM
equals bits 15-19 of the instruction in `core->id_ex`, the first `addi`; the instruction
that `execute` works on is the second `addi`, whose bits 15-19 are 0. Register 2 ends as
5 + 3 = 8 instead of 3, whatever the indeterminate values are. -/
theorem forward_stale_run (us : Nat → indeterminate_t) (fa fb k : Nat) :
    ∃ c, main_loop us (k + 2) (init_core (load_words 0 addi_self_addi) 0 fa fb) 0 0
          = some (c, 2, 0) ∧
      c.id_ex.instruction = parse_I_type 19 0 2 0 3 ∧
      reg_field c.id_ex.instruction 15 = 0 ∧
      c.reg_file 1 = 5 ∧ c.reg_file 2 = 8 ∧ c.ex_mem.alu_result = 8 := by
  have hdet : run_determinate (fun _ => { imm := 0, alu_ctrl := 0 }) 2
      (init_core (load_words 0 addi_self_addi) 0 0 0) 0 = true := by
    decide
  have hrun : (main_loop (fun _ => { imm := 0, alu_ctrl := 0 }) 2
        (init_core (load_words 0 addi_self_addi) 0 0 0) 0 0).map
      (fun r => (r.2, r.1.id_ex.instruction, r.1.reg_file 1, r.1.reg_file 2,
        r.1.ex_mem.alu_result)) =
      some ((2, 0), parse_I_type 19 0 2 0 3, 5, 8, 8) := by
    decide
  cases h : main_loop (fun _ => { imm := 0, alu_ctrl := 0 }) 2
      (init_core (load_words 0 addi_self_addi) 0 0 0) 0 0 with
  | none =>
    rw [h] at hrun
    exact absurd hrun (by simp)
  | some r =>
    obtain ⟨c', n, st⟩ := r
    rw [h] at hrun
    simp only [Option.map_some', Option.some.injEq, Prod.mk.injEq] at hrun
    obtain ⟨⟨hn, hs⟩, h1, h2, h3, h4⟩ := hrun
    subst hn hs
    obtain ⟨c, hc, a, b, x, hl⟩ := main_loop_same_live us _ 2
      (init_core (load_words 0 addi_self_addi) 0 fa fb)
      (init_core (load_words 0 addi_self_addi) 0 0 0) 0 0 ⟨fa, fb, 0, rfl⟩ hdet c' 2 0 h
    have hi : c.id_ex.instruction = c'.id_ex.instruction := by rw [hl]; rfl
    refine ⟨c, main_loop_more_fuel us k 2 _ 0 0 _ hc, ?_, ?_, ?_, ?_, ?_⟩
    · rw [hi]; exact h1
    · rw [hi, h1]; decide
    · rw [hl]; exact h2
    · rw [hl]; exact h3
    · rw [hl]; exact h4

/-! ## the address of a load or store -/

/-- C34 (what the code does): for a load or store (control bundle of opcode 3 or 35) executed
with both forward selectors at none, the ALU result written to the next EX/MEM is the staged
`rs1` plus the staged immediate modulo `2 ^ 32` for every funct3 except 1; for funct3 = 1
(`lh`, `sh`) `ALU_control_unit` selects shift-left and the result is the staged `rs1` shifted
left by the low five bits of the immediate. -/
theorem load_store_address (u : indeterminate_t) (core : core_t) (id_ex : ID_EX_t)
    (ex_mem : EX_MEM_t) (s : control_signals_t)
    (hc : id_ex.control = control_unit 3 s ∨ id_ex.control = control_unit 35 s)
    (hA : core.forwardA = NO_FORWARDING) (hB : core.forwardB = NO_FORWARDING) :
    (execute u core id_ex ex_mem).2.alu_result =
      if id_ex.funct3 = 1 then id_ex.rs1 * 2 ^ (id_ex.imm % 32) % 2 ^ 64 % 2 ^ 32
      else (id_ex.rs1 + id_ex.imm) % 2 ^ 32 := by
  have hs : id_ex.control.ALUSrc = 1 ∧ id_ex.control.ALUOp = 0 := by
    rcases hc with h | h <;> rw [h] <;> exact ⟨rfl, rfl⟩
  obtain ⟨h1, h2⟩ := hs
  unfold execute
  rw [if_neg (by omega)]
  simp only []
  rw [hA, hB, h2, if_neg (by decide), if_neg (by decide), if_neg (by decide),
    if_neg (by decide), if_pos (by omega)]
  unfold ALU_control_unit
  rw [if_pos rfl]
  by_cases h3 : id_ex.funct3 = 1
  · rw [if_pos h3, if_pos h3]
    show id_ex.rs1 <<< (id_ex.imm &&& 0x1F) % 2 ^ 64 % 2 ^ 32 = _
    rw [and_0x1F, Nat.shiftLeft_eq]
    rfl
  · rw [if_neg h3, if_neg h3]
    show (id_ex.rs1 + id_ex.imm) % 2 ^ 64 % 2 ^ 32 = _
    omega

/-- Instance of the preceding theorem: `lh x1,4(x3)` with 8 in register 3 computes the
address 8 shifted left by 4, which is 128 and not 12. -/
theorem load_store_address_witness :
    (execute { imm := 0, alu_ctrl := 0 } lw_add_core lh_id_ex lw_add_core.ex_mem).2.alu_result =
        (if lh_id_ex.funct3 = 1 then lh_id_ex.rs1 * 2 ^ (lh_id_ex.imm % 32) % 2 ^ 64 % 2 ^ 32
          else (lh_id_ex.rs1 + lh_id_ex.imm) % 2 ^ 32) ∧
      (execute { imm := 0, alu_ctrl := 0 } lw_add_core lh_id_ex lw_add_core.ex_mem).2.alu_result
        = 128 ∧
      (lh_id_ex.rs1 + lh_id_ex.imm) % 2 ^ 32 = 12 :=
  ⟨load_store_address { imm := 0, alu_ctrl := 0 } lw_add_core lh_id_ex lw_add_core.ex_mem
    control_signals_zero (Or.inl rfl) rfl rfl, by decide, by decide⟩

/-! ## the register file holds 32-bit values -/

theorem write_back_reg_bound (core c : core_t) (mem_wb : MEM_WB_t)
    (h : write_back core mem_wb = some c) (hb : ∀ i, core.reg_file i < 2 ^ 32) :
    ∀ i, c.reg_file i < 2 ^ 32 := by
  unfold write_back at h
  split_ifs at h <;> simp only [Option.some.injEq] at h <;> subst h <;>
    first
    | exact hb
    | (intro i
       show (if i = mem_wb.rd then _ else core.reg_file i) < 2 ^ 32
       split
       · exact Nat.mod_lt _ (by decide)
       · exact hb i)

theorem tick_func_reg_bound (u : indeterminate_t) (core c : core_t) (b : Bool)
    (ht : tick_func u core = some (c, b)) (hb : ∀ i, core.reg_file i < 2 ^ 32) :
    ∀ i, c.reg_file i < 2 ^ 32 := by
  obtain ⟨c1, f1, hf, hc⟩ := tick_func_cases u core c b ht
  have h1 : c1.reg_file = core.reg_file := by
    rw [instruction_fetch_frame core c1 core.if_id f1 hf]
  rcases hc with ⟨_, hc, _⟩ | ⟨_, hsb, _⟩ | ⟨_, _, c4, c5, wb, last, hm, hw, hc, _⟩
  · subst hc
    rw [h1]
    exact hb
  · obtain ⟨pc, ht', _⟩ := tick_func_stall u core hsb
    rw [ht'] at ht
    simp only [Option.some.injEq, Prod.mk.injEq] at ht
    rw [← ht.1]
    exact hb
  · obtain ⟨a, fb, hd⟩ := detect_and_forward_frame { c1 with stall := 0 }
    have h4 : c4.reg_file = core.reg_file := by
      rw [memory_access_frame _ _ _ _ _ hm, hd]
      exact h1
    rw [hc]
    show ∀ i, c5.reg_file i < 2 ^ 32
    exact write_back_reg_bound c4 c5 wb hw (by rw [h4]; exact hb)

theorem core_after_reg_bound (us : Nat → indeterminate_t) :
    ∀ (i : Nat) (c c' : core_t) (k : Nat), (∀ r, c.reg_file r < 2 ^ 32) →
      core_after us i c k = some c' → ∀ r, c'.reg_file r < 2 ^ 32 := by
  intro i
  induction i with
  | zero =>
    intro c c' k hi h
    simp only [core_after, Option.some.injEq] at h
    subst h
    exact hi
  | succ i ih =>
    intro c c' k hi h
    unfold core_after at h
    cases ht : tick_func (us k) c with
    | none =>
      rw [ht] at h
      exact absurd h (by simp)
    | some r =>
      obtain ⟨c2, b⟩ := r
      rw [ht] at h
      exact ih c2 c' (k + 1) (tick_func_reg_bound (us k) c c2 b ht hi) h

/-- The registers in a run whose memory accesses all lie inside `data_mem`. In every core
state reached from the state built by `init_core` by any number of such calls of
`tick_func`, every register holds a value in `[0, 2 ^ 32)`, so read as a signed 64-bit
number it is never negative: `write_back` stores the `uint32_t` `write_data`,
zero-extended, in the 64-bit register. A store behind `data_mem` is not covered: see
`addi_sw_1028_core`. -/
theorem registers_hold_32_bits (us : Nat → indeterminate_t) (i k : Nat)
    (i_mem : instruction_memory_t) (st fa fb : Nat) (c : core_t)
    (hr : core_after us i (init_core i_mem st fa fb) k = some c) :
    ∀ r, c.reg_file r < 2 ^ 32 ∧ 0 ≤ toInt64 (c.reg_file r) := by
  intro r
  have h := core_after_reg_bound us i (init_core i_mem st fa fb) c k
    (fun _ => by show 0 < 2 ^ 32; decide) hr r
  refine ⟨h, ?_⟩
  unfold toInt64
  rw [if_pos (by omega)]
  omega

/-- Instance of the preceding theorem: register 1 of the core after the tick of
`addi x1,x0,5`. -/
theorem registers_hold_32_bits_witness :
    addi_done_core.reg_file 1 < 2 ^ 32 ∧ 0 ≤ toInt64 (addi_done_core.reg_file 1) :=
  registers_hold_32_bits (fun _ => { imm := 0, alu_ctrl := 0 }) 1 0
    (load_words 0 [addi_x1_x0_5]) 0 0 0 addi_done_core rfl 1

/-! ## the bytes written by a store -/

/-- C36: for an EX/MEM register with memory-write set, memory-read clear, a 32-bit staged
`rs2` and an address `a` with `a + 8 ≤ MEM_SIZE`, `memory_access` is defined, sets
`data_mem[a .. a+3]` to the little-endian bytes of `rs2`, sets `data_mem[a+4 .. a+7]` to 0
and leaves every other byte of data memory, the register file and every other field of the
core unchanged. -/
theorem store_bytes (core : core_t) (ex_mem : EX_MEM_t) (mem_wb : MEM_WB_t)
    (hw : ex_mem.control.MemWrite ≠ 0) (hr : ex_mem.control.MemRead = 0)
    (hb : ex_mem.alu_result + 8 ≤ MEM_SIZE) (h32 : ex_mem.rs2 < 2 ^ 32) :
    ∃ c wb, memory_access core ex_mem mem_wb = some (c, wb) ∧
      (∀ j, j < 4 → c.data_mem (ex_mem.alu_result + j) = ex_mem.rs2 / 256 ^ j % 256) ∧
      (∀ j, 4 ≤ j → j < 8 → c.data_mem (ex_mem.alu_result + j) = 0) ∧
      (∀ i, i < ex_mem.alu_result ∨ ex_mem.alu_result + 8 ≤ i →
        c.data_mem i = core.data_mem i) ∧
      c.reg_file = core.reg_file ∧ c = { core with data_mem := c.data_mem } := by
  refine ⟨{ core with data_mem := write_u64 core.data_mem ex_mem.alu_result ex_mem.rs2 },
    { mem_wb with alu_result := ex_mem.alu_result, rd := ex_mem.rd,
                  control := ex_mem.control }, ?_, ?_, ?_, ?_, rfl, rfl⟩
  · unfold memory_access
    rw [if_neg (by omega), if_neg (by omega), if_pos hw, if_pos hb]
  · intro j hj
    show write_u64 core.data_mem ex_mem.alu_result ex_mem.rs2 (ex_mem.alu_result + j) = _
    unfold write_u64
    rw [if_pos (by omega), Nat.add_sub_cancel_left]
  · intro j h1 h2
    show write_u64 core.data_mem ex_mem.alu_result ex_mem.rs2 (ex_mem.alu_result + j) = _
    unfold write_u64
    rw [if_pos (by omega), Nat.add_sub_cancel_left]
    have hp : 2 ^ 32 ≤ 256 ^ j :=
      Nat.le_trans (by decide : 2 ^ 32 ≤ 256 ^ 4) (Nat.pow_le_pow_right (by decide) h1)
    rw [Nat.div_eq_of_lt (Nat.lt_of_lt_of_le h32 hp)]
  · intro i hi
    show write_u64 core.data_mem ex_mem.alu_result ex_mem.rs2 i = _
    unfold write_u64
    rw [if_neg (by omega)]

/-- Instance of the preceding theorem: storing 0x01020304 at address 16. -/
theorem store_bytes_witness :
    ∃ c wb, memory_access lw_add_core
        { alu_result := 16, rs2 := 0x01020304, rd := 0, zero := 0,
          control := control_unit 35 control_signals_zero } lw_add_core.mem_wb = some (c, wb) ∧
      (∀ j, j < 4 → c.data_mem (16 + j) = 0x01020304 / 256 ^ j % 256) ∧
      (∀ j, 4 ≤ j → j < 8 → c.data_mem (16 + j) = 0) ∧
      (∀ i, i < 16 ∨ 16 + 8 ≤ i → c.data_mem i = lw_add_core.data_mem i) ∧
      c.reg_file = lw_add_core.reg_file ∧ c = { lw_add_core with data_mem := c.data_mem } :=
  store_bytes lw_add_core
    { alu_result := 16, rs2 := 0x01020304, rd := 0, zero := 0,
      control := control_unit 35 control_signals_zero } lw_add_core.mem_wb
    (by decide) (by decide) (by decide) (by decide)

/-! ## the cache of Project4 -/

theorem find_some_lt (n : Nat) (p : Nat → Bool) (i : Nat)
    (h : (List.range n).find? p = some i) : i < n ∧ p i = true := by
  have h1 := List.find?_some h
  have h2 := List.mem_of_find?_eq_some h
  exact ⟨List.mem_range.mp h2, h1⟩

theorem find_none_all (n : Nat) (p : Nat → Bool)
    (h : (List.range n).find? p = none) : ∀ i, i < n → p i = false := by
  intro i hi
  have h1 := List.find?_eq_none.mp h i (List.mem_range.mpr hi)
  simpa using h1

theorem find_exists (n : Nat) (p : Nat → Bool) (i : Nat) (hi : i < n) (hp : p i = true) :
    ∃ j, (List.range n).find? p = some j := by
  cases h : (List.range n).find? p with
  | some j => exact ⟨j, rfl⟩
  | none =>
    have := find_none_all n p h i hi
    rw [hp] at this
    exact absurd this (by simp)

theorem victim_search_returns (m n : Nat) :
    ∀ (k fuel : Nat) (ways : Nat → Cache_Block), k < fuel →
      (∃ i, i < n ∧ (ways i).rrpv ≤ m ∧ m ≤ (ways i).rrpv + k) →
      ∃ i w rounds, victim_search m n fuel ways = some (i, w, rounds) ∧ rounds ≤ k ∧ i < n ∧
        (w i).rrpv = m ∧ ∀ j, ∃ r, w j = { ways j with rrpv := r } := by
  intro k
  induction k with
  | zero =>
    intro fuel ways hf hex
    obtain ⟨i0, hi0, h1, h2⟩ := hex
    obtain ⟨fuel', rfl⟩ : ∃ f, fuel = f + 1 := ⟨fuel - 1, by omega⟩
    have he : (ways i0).rrpv = m := by omega
    obtain ⟨j, hj⟩ := find_exists n (fun i => decide ((ways i).rrpv = m)) i0 hi0
      (by simp [he])
    obtain ⟨hj1, hj2⟩ := find_some_lt n _ j hj
    refine ⟨j, ways, 0, ?_, Nat.le_refl 0, hj1, by simpa using hj2, fun x => ⟨(ways x).rrpv, rfl⟩⟩
    unfold victim_search
    rw [hj]
  | succ k ih =>
    intro fuel ways hf hex
    obtain ⟨i0, hi0, h1, h2⟩ := hex
    obtain ⟨fuel', rfl⟩ : ∃ f, fuel = f + 1 := ⟨fuel - 1, by omega⟩
    cases hfind : (List.range n).find? (fun i => decide ((ways i).rrpv = m)) with
    | some j =>
      obtain ⟨hj1, hj2⟩ := find_some_lt n _ j hfind
      refine ⟨j, ways, 0, ?_, Nat.zero_le _, hj1, by simpa using hj2,
        fun x => ⟨(ways x).rrpv, rfl⟩⟩
      unfold victim_search
      rw [hfind]
    | none =>
      have hne : (ways i0).rrpv ≠ m := by
        have := find_none_all n _ hfind i0 hi0
        simpa using this
      have hlt : (ways i0).rrpv < m := by omega
      have hage : (age_ways m n ways i0).rrpv = (ways i0).rrpv + 1 := by
        unfold age_ways
        rw [if_pos ⟨hi0, hlt⟩]
      obtain ⟨i, w, rounds, hs, hr, hi, hm, hfr⟩ := ih fuel' (age_ways m n ways) (by omega)
        ⟨i0, hi0, by rw [hage]; omega, by rw [hage]; omega⟩
      refine ⟨i, w, rounds + 1, ?_, by omega, hi, hm, ?_⟩
      · show victim_search m n (fuel' + 1) ways = _
        unfold victim_search
        rw [hfind]
        simp only []
        rw [hs]
      · intro x
        obtain ⟨r, hr'⟩ := hfr x
        refine ⟨r, ?_⟩
        rw [hr']
        unfold age_ways
        split <;> rfl

theorem signature_hit_predictor_spec (fuel : Nat) (cache : Cache) (addr signature : Nat)
    (hsh : cache.set_shift < 64 ∧ cache.tag_shift < 64)
    (hts : cache.shp_table.table_size ≠ 0) (hm : cache.max_rrpv ≤ 255)
    (hw : 0 < cache.num_ways)
    (hr : ∀ i, i < cache.num_ways →
      (cache.sets ((addr >>> cache.set_shift) &&& cache.set_mask) i).valid = true →
      (cache.sets ((addr >>> cache.set_shift) &&& cache.set_mask) i).rrpv ≤ cache.max_rrpv)
    (hf : cache.max_rrpv < fuel) :
    ∃ v, signature_hit_predictor fuel cache addr signature = some v ∧
      v.rounds ≤ cache.max_rrpv ∧
      v.set_idx = (addr >>> cache.set_shift) &&& cache.set_mask ∧
      v.way < cache.num_ways ∧
      (v.wb_required = true ↔
        ((cache.sets v.set_idx v.way).valid = true ∧
          (cache.sets v.set_idx v.way).dirty = true)) ∧
      (v.cache.sets v.set_idx v.way).valid = true ∧
      (v.cache.sets v.set_idx v.way).tag = addr >>> cache.tag_shift ∧
      v.cache.num_ways = cache.num_ways ∧ v.cache.set_shift = cache.set_shift ∧
      v.cache.set_mask = cache.set_mask ∧ v.cache.tag_shift = cache.tag_shift ∧
      v.cache.blk_mask = cache.blk_mask := by
  have hg : (undefined_shift cache || decide (cache.shp_table.table_size = 0)) = false := by
    unfold undefined_shift
    simp only [Bool.or_eq_false_iff, decide_eq_false_iff_not]
    omega
  have hmod : cache.max_rrpv % 2 ^ 8 = cache.max_rrpv := Nat.mod_eq_of_lt (by omega)
  unfold signature_hit_predictor
  rw [hg]
  simp only [Bool.false_eq_true, if_false]
  cases hfind : (List.range cache.num_ways).find?
      (fun i => !(cache.sets ((addr >>> cache.set_shift) &&& cache.set_mask) i).valid) with
  | some i =>
    obtain ⟨hi, hv⟩ := find_some_lt _ _ i hfind
    simp only [Bool.not_eq_true'] at hv
    refine ⟨_, rfl, Nat.zero_le _, rfl, hi, ?_, ?_, ?_, rfl, rfl, rfl, rfl, rfl⟩
    · simp [hv]
    · show (if _ ∧ _ then fresh_block _ _ _ else _).valid = true
      rw [if_pos ⟨rfl, rfl⟩]
      rfl
    · show (if _ ∧ _ then fresh_block _ _ _ else _).tag = _
      rw [if_pos ⟨rfl, rfl⟩]
      rfl
  | none =>
    have hall : ∀ i, i < cache.num_ways →
        (cache.sets ((addr >>> cache.set_shift) &&& cache.set_mask) i).valid = true := by
      intro i hi
      have := find_none_all _ _ hfind i hi
      simpa using this
    obtain ⟨i, w, rounds, hs, hrd, hi, _, hfr⟩ := victim_search_returns cache.max_rrpv
      cache.num_ways cache.max_rrpv fuel
      (cache.sets ((addr >>> cache.set_shift) &&& cache.set_mask)) hf
      ⟨0, hw, hr 0 hw (hall 0 hw), by omega⟩
    rw [hmod, hs]
    obtain ⟨r, hwi⟩ := hfr i
    refine ⟨_, rfl, hrd, rfl, hi, ?_, ?_, ?_, rfl, rfl, rfl, rfl, rfl⟩
    · show (w i).dirty = true ↔ _
      rw [hwi, hall i hi]
      simp
    · show (if _ then (if _ then fresh_block _ _ _ else _) else _).valid = true
      rw [if_pos rfl, if_pos rfl]
      rfl
    · show (if _ then (if _ then fresh_block _ _ _ else _) else _).tag = _
      rw [if_pos rfl, if_pos rfl]
      rfl

theorem blkAlign_shift (a m t : Nat) (ha : a < 2 ^ 64) (hm : m < 2 ^ t) (ht : t < 64) :
    blkAlign a m >>> t = a >>> t := by
  have hm64 : m < 2 ^ 64 :=
    Nat.lt_of_lt_of_le hm (Nat.pow_le_pow_right (by decide) (by omega))
  have e : 2 ^ 64 - 1 - m = 2 ^ 64 - (m + 1) := by omega
  apply Nat.eq_of_testBit_eq
  intro i
  unfold blkAlign
  rw [Nat.testBit_shiftRight, Nat.testBit_shiftRight, Nat.testBit_and, e,
    Nat.testBit_two_pow_sub_succ hm64]
  have hmi : m.testBit (t + i) = false :=
    Nat.testBit_lt_two_pow
      (Nat.lt_of_lt_of_le hm (Nat.pow_le_pow_right (by decide) (by omega)))
  rw [hmi]
  by_cases h : t + i < 64
  · simp [h]
  · have hai : a.testBit (t + i) = false :=
      Nat.testBit_lt_two_pow
        (Nat.lt_of_lt_of_le ha (Nat.pow_le_pow_right (by decide) (by omega)))
    simp [hai]

theorem findBlock_some (cache : Cache) (addr s w : Nat)
    (h : findBlock cache addr = some (s, w)) :
    s = (addr >>> cache.set_shift) &&& cache.set_mask ∧ w < cache.num_ways ∧
      (cache.sets s w).tag = addr >>> cache.tag_shift ∧ (cache.sets s w).valid = true := by
  unfold findBlock at h
  simp only [] at h
  cases hf : (List.range cache.num_ways).find?
      (fun i => decide (addr >>> cache.tag_shift =
          (cache.sets ((addr >>> cache.set_shift) &&& cache.set_mask) i).tag) &&
        (cache.sets ((addr >>> cache.set_shift) &&& cache.set_mask) i).valid) with
  | none =>
    rw [hf] at h
    exact absurd h (by simp)
  | some j =>
    rw [hf] at h
    simp only [Option.map_some', Option.some.injEq, Prod.mk.injEq] at h
    obtain ⟨h1, h2⟩ := h
    subst h1 h2
    obtain ⟨hj, hp⟩ := find_some_lt _ _ j hf
    simp only [Bool.and_eq_true, decide_eq_true_eq] at hp
    exact ⟨rfl, hj, hp.1.symm, hp.2⟩

theorem findBlock_of_way (cache : Cache) (addr i : Nat) (hi : i < cache.num_ways)
    (hv : (cache.sets ((addr >>> cache.set_shift) &&& cache.set_mask) i).valid = true)
    (ht : (cache.sets ((addr >>> cache.set_shift) &&& cache.set_mask) i).tag =
      addr >>> cache.tag_shift) :
    ∃ j, findBlock cache addr = some ((addr >>> cache.set_shift) &&& cache.set_mask, j) := by
  obtain ⟨j, hj⟩ := find_exists cache.num_ways
    (fun i => decide (addr >>> cache.tag_shift =
        (cache.sets ((addr >>> cache.set_shift) &&& cache.set_mask) i).tag) &&
      (cache.sets ((addr >>> cache.set_shift) &&& cache.set_mask) i).valid) i hi
    (by simp [hv, ht])
  refine ⟨j, ?_⟩
  unfold findBlock
  simp only []
  rw [hj]
  rfl

theorem accessBlock_hit (fuel : Nat) (cache : Cache) (req : Request) (access_time s w : Nat)
    (hsh : cache.set_shift < 64 ∧ cache.tag_shift < 64)
    (h : findBlock cache (blkAlign req.load_or_store_addr cache.blk_mask) = some (s, w)) :
    ∃ c, accessBlock fuel cache req access_time = some (c, true) ∧
      c.num_ways = cache.num_ways ∧ c.set_shift = cache.set_shift ∧
      c.set_mask = cache.set_mask ∧ c.tag_shift = cache.tag_shift ∧
      c.blk_mask = cache.blk_mask ∧
      (c.sets s w).valid = (cache.sets s w).valid ∧ (c.sets s w).tag = (cache.sets s w).tag := by
  have hg : undefined_shift cache = false := by
    unfold undefined_shift
    simp only [Bool.or_eq_false_iff, decide_eq_false_iff_not]
    omega
  unfold accessBlock
  rw [hg]
  simp only [Bool.false_eq_true, if_false]
  rw [h]
  refine ⟨_, rfl, rfl, rfl, rfl, rfl, rfl, ?_, ?_⟩
  · show (if _ ∧ _ then _ else _ : Cache_Block).valid = _
    rw [if_pos ⟨rfl, rfl⟩]
  · show (if _ ∧ _ then _ else _ : Cache_Block).tag = _
    rw [if_pos ⟨rfl, rfl⟩]

theorem accessBlock_miss (fuel : Nat) (cache : Cache) (req : Request) (access_time : Nat)
    (hsh : cache.set_shift < 64 ∧ cache.tag_shift < 64)
    (hts : cache.shp_table.table_size ≠ 0) (hm : cache.max_rrpv ≤ 255)
    (hw : 0 < cache.num_ways)
    (hr : ∀ s i, i < cache.num_ways → (cache.sets s i).valid = true →
      (cache.sets s i).rrpv ≤ cache.max_rrpv)
    (hf : cache.max_rrpv < fuel)
    (h : findBlock cache (blkAlign req.load_or_store_addr cache.blk_mask) = none) :
    ∃ c i, accessBlock fuel cache req access_time = some (c, false) ∧
      c.num_ways = cache.num_ways ∧ c.set_shift = cache.set_shift ∧
      c.set_mask = cache.set_mask ∧ c.tag_shift = cache.tag_shift ∧
      c.blk_mask = cache.blk_mask ∧ i < cache.num_ways ∧
      (c.sets ((blkAlign req.load_or_store_addr cache.blk_mask >>> cache.set_shift) &&&
        cache.set_mask) i).valid = true ∧
      (c.sets ((blkAlign req.load_or_store_addr cache.blk_mask >>> cache.set_shift) &&&
        cache.set_mask) i).tag = req.load_or_store_addr >>> cache.tag_shift := by
  have hg : undefined_shift cache = false := by
    unfold undefined_shift
    simp only [Bool.or_eq_false_iff, decide_eq_false_iff_not]
    omega
  obtain ⟨v, hv, _, hset, hway, _, _, _, hnw, hss, hsm, hts', hbm⟩ :=
    signature_hit_predictor_spec fuel cache
      (blkAlign req.load_or_store_addr cache.blk_mask) req.PC hsh hts hm hw
      (fun i hi hvalid => hr _ i hi hvalid) hf
  unfold accessBlock
  rw [hg]
  simp only [Bool.false_eq_true, if_false]
  rw [h]
  simp only []
  unfold insertBlock
  simp only []
  rw [hv]
  refine ⟨_, v.way, rfl, hnw, hss, hsm, hts', hbm, hway, ?_, ?_⟩
  · rw [← hset]
    show (if _ ∧ _ then _ else _ : Cache_Block).valid = true
    rw [if_pos ⟨rfl, rfl⟩]
  · rw [← hset]
    show (if _ ∧ _ then _ else _ : Cache_Block).tag = _
    rw [if_pos ⟨rfl, rfl⟩]

/-- C37: for every cache in which every valid way has a replacement value of at most
`max_rrpv`, and for every request, `accessBlock` returns (any bound on the aging rounds
above `max_rrpv` is enough), it returns `true` exactly when `findBlock` found the block
before the call, afterwards `findBlock` on the block-aligned address returns a valid block
whose tag is the request address shifted right by `tag_shift`, and an immediately repeated
`accessBlock` for any address with the same block-aligned address returns `true`. The
configuration fields of the cache are those that `initCache`, the only function of Cache.c
that assigns them, writes (block mask 63, 16 ways, shifts 6 and 13, `max_rrpv` 3, a
predictor table of 1024 entries), or any others with at least one way per set, `max_rrpv`
at most 255, a predictor table that is not empty, shift counts below 64 and a block mask
below `2 ^ tag_shift`. -/
theorem accessBlock_resident (fuel : Nat) (cache : Cache) (req : Request) (access_time : Nat)
    (hsh : cache.set_shift < 64 ∧ cache.tag_shift < 64)
    (hts : cache.shp_table.table_size ≠ 0) (hm : cache.max_rrpv ≤ 255)
    (hw : 0 < cache.num_ways)
    (hmask : cache.blk_mask < 2 ^ cache.tag_shift)
    (ha : req.load_or_store_addr < 2 ^ 64)
    (hr : ∀ s i, i < cache.num_ways → (cache.sets s i).valid = true →
      (cache.sets s i).rrpv ≤ cache.max_rrpv)
    (hf : cache.max_rrpv < fuel) :
    ∃ c hit, accessBlock fuel cache req access_time = some (c, hit) ∧
      (hit = true ↔
        (findBlock cache (blkAlign req.load_or_store_addr cache.blk_mask)).isSome = true) ∧
      (∃ s w, findBlock c (blkAlign req.load_or_store_addr cache.blk_mask) = some (s, w) ∧
        (c.sets s w).valid = true ∧
        (c.sets s w).tag = req.load_or_store_addr >>> cache.tag_shift) ∧
      ∀ (fuel' : Nat) (req' : Request) (t' : Nat),
        blkAlign req'.load_or_store_addr cache.blk_mask =
          blkAlign req.load_or_store_addr cache.blk_mask →
        ∃ c', accessBlock fuel' c req' t' = some (c', true) := by
  have htag : blkAlign req.load_or_store_addr cache.blk_mask >>> cache.tag_shift =
      req.load_or_store_addr >>> cache.tag_shift :=
    blkAlign_shift _ _ _ ha hmask hsh.2
  have key : ∀ (c : Cache) (hit : Bool) (i : Nat),
      accessBlock fuel cache req access_time = some (c, hit) →
      (hit = true ↔
        (findBlock cache (blkAlign req.load_or_store_addr cache.blk_mask)).isSome = true) →
      c.num_ways = cache.num_ways → c.set_shift = cache.set_shift →
      c.set_mask = cache.set_mask → c.tag_shift = cache.tag_shift →
      c.blk_mask = cache.blk_mask → i < cache.num_ways →
      (c.sets ((blkAlign req.load_or_store_addr cache.blk_mask >>> cache.set_shift) &&&
        cache.set_mask) i).valid = true →
      (c.sets ((blkAlign req.load_or_store_addr cache.blk_mask >>> cache.set_shift) &&&
        cache.set_mask) i).tag = req.load_or_store_addr >>> cache.tag_shift →
      ∃ c hit, accessBlock fuel cache req access_time = some (c, hit) ∧
        (hit = true ↔
          (findBlock cache (blkAlign req.load_or_store_addr cache.blk_mask)).isSome = true) ∧
        (∃ s w, findBlock c (blkAlign req.load_or_store_addr cache.blk_mask) = some (s, w) ∧
          (c.sets s w).valid = true ∧
          (c.sets s w).tag = req.load_or_store_addr >>> cache.tag_shift) ∧
        ∀ (fuel' : Nat) (req' : Request) (t' : Nat),
          blkAlign req'.load_or_store_addr cache.blk_mask =
            blkAlign req.load_or_store_addr cache.blk_mask →
          ∃ c', accessBlock fuel' c req' t' = some (c', true) := by
    intro c hit i hacc hhit hnw hss hsm hts' hbm hi hv ht
    obtain ⟨j, hj⟩ := findBlock_of_way c (blkAlign req.load_or_store_addr cache.blk_mask) i
      (by rw [hnw]; exact hi) (by rw [hss, hsm]; exact hv)
      (by rw [hss, hsm, hts', htag]; exact ht)
    obtain ⟨_, _, hjt, hjv⟩ := findBlock_some c _ _ j hj
    refine ⟨c, hit, hacc, hhit, ⟨_, j, hj, hjv, ?_⟩, ?_⟩
    · rw [hjt, hts', htag]
    · intro fuel' req' t' hsame
      obtain ⟨c', hc', _⟩ := accessBlock_hit fuel' c req' t' _ j
        (by rw [hss, hts']; exact hsh) (by rw [hbm, hsame]; exact hj)
      exact ⟨c', hc'⟩
  cases hfb : findBlock cache (blkAlign req.load_or_store_addr cache.blk_mask) with
  | some r =>
    obtain ⟨s, w⟩ := r
    obtain ⟨hs, hwl, hwt, hwv⟩ := findBlock_some cache _ s w hfb
    obtain ⟨c, hc, hnw, hss, hsm, hts', hbm, hv, ht⟩ :=
      accessBlock_hit fuel cache req access_time s w hsh hfb
    have h1 := key c true w hc (by rw [hfb]; simp) hnw hss hsm hts' hbm hwl
      (by rw [← hs, hv]; exact hwv) (by rw [← hs, ht, hwt, htag])
    rw [hfb] at h1
    exact h1
  | none =>
    obtain ⟨c, i, hc, hnw, hss, hsm, hts', hbm, hi, hv, ht⟩ :=
      accessBlock_miss fuel cache req access_time hsh hts hm hw hr hf hfb
    have h1 := key c false i hc (by rw [hfb]; simp) hnw hss hsm hts' hbm hi hv ht
    rw [hfb] at h1
    exact h1

/-- The victim search on a full set of `full_cache`: two aging rounds bring the replacement
values from 1 to 3, the first way is taken and nothing is written back. -/
theorem full_cache_search :
    (signature_hit_predictor 4 full_cache 0 0).map
        (fun v => (v.set_idx, v.way, v.rounds, v.wb_required)) = some (0, 0, 2, false) := by
  decide

/-- C38: for every cache in which the addressed set has at least one way and every valid
way has a replacement value of at most `max_rrpv`, `signature_hit_predictor` returns after
at most `max_rrpv` aging rounds (any bound on the rounds above `max_rrpv` is enough),
`*victim_blk` is a way of the addressed set, and the result is `true` exactly when that way
was valid and dirty before the call. The configuration fields of the cache are those that
`initCache`, the only function of Cache.c that assigns them, writes (shifts 6 and 13,
`max_rrpv` 3, a predictor table of 1024 entries), or any others with `max_rrpv` at most 255,
a predictor table that is not empty and shift counts below 64. -/
theorem signature_hit_predictor_returns (fuel : Nat) (cache : Cache) (addr signature : Nat)
    (hsh : cache.set_shift < 64 ∧ cache.tag_shift < 64)
    (hts : cache.shp_table.table_size ≠ 0) (hm : cache.max_rrpv ≤ 255)
    (hw : 0 < cache.num_ways)
    (hr : ∀ i, i < cache.num_ways →
      (cache.sets ((addr >>> cache.set_shift) &&& cache.set_mask) i).valid = true →
      (cache.sets ((addr >>> cache.set_shift) &&& cache.set_mask) i).rrpv ≤ cache.max_rrpv)
    (hf : cache.max_rrpv < fuel) :
    ∃ v, signature_hit_predictor fuel cache addr signature = some v ∧
      v.rounds ≤ cache.max_rrpv ∧
      v.set_idx = (addr >>> cache.set_shift) &&& cache.set_mask ∧
      v.way < cache.num_ways ∧
      (v.wb_required = true ↔
        ((cache.sets v.set_idx v.way).valid = true ∧
          (cache.sets v.set_idx v.way).dirty = true)) := by
  obtain ⟨v, h1, h2, h3, h4, h5, _⟩ :=
    signature_hit_predictor_spec fuel cache addr signature hsh hts hm hw hr hf
  exact ⟨v, h1, h2, h3, h4, h5⟩

/-- Instance of the preceding theorem on a full set of `full_cache`. -/
theorem signature_hit_predictor_returns_witness :
    ∃ v, signature_hit_predictor 4 full_cache 0 0 = some v ∧
      v.rounds ≤ full_cache.max_rrpv ∧
      v.set_idx = (0 >>> full_cache.set_shift) &&& full_cache.set_mask ∧
      v.way < full_cache.num_ways ∧
      (v.wb_required = true ↔
        ((full_cache.sets v.set_idx v.way).valid = true ∧
          (full_cache.sets v.set_idx v.way).dirty = true)) :=
  signature_hit_predictor_returns 4 full_cache 0 0 (by decide) (by decide) (by decide)
    (by decide) (fun _ _ _ => (by decide : 1 ≤ 3)) (by decide)

/-- Instance of the theorem of C37 on the cache of `initCache` and a load of address 64. -/
theorem accessBlock_resident_witness :
    ∃ c hit, accessBlock 4 (initCache (fun _ _ => used_block)) load_64 0 = some (c, hit) ∧
      (hit = true ↔
        (findBlock (initCache (fun _ _ => used_block))
          (blkAlign load_64.load_or_store_addr
            (initCache (fun _ _ => used_block)).blk_mask)).isSome = true) ∧
      (∃ s w, findBlock c (blkAlign load_64.load_or_store_addr
          (initCache (fun _ _ => used_block)).blk_mask) = some (s, w) ∧
        (c.sets s w).valid = true ∧
        (c.sets s w).tag =
          load_64.load_or_store_addr >>> (initCache (fun _ _ => used_block)).tag_shift) ∧
      ∀ (fuel' : Nat) (req' : Request) (t' : Nat),
        blkAlign req'.load_or_store_addr (initCache (fun _ _ => used_block)).blk_mask =
          blkAlign load_64.load_or_store_addr (initCache (fun _ _ => used_block)).blk_mask →
        ∃ c', accessBlock fuel' c req' t' = some (c', true) :=
  accessBlock_resident 4 (initCache (fun _ _ => used_block)) load_64 0 (by decide) (by decide)
    (by decide) (by decide) (by decide) (by decide)
    (fun _ _ _ hv => absurd hv (by decide : ¬ (false = true))) (by decide)

/-- The first access to a block of the cache of `initCache` misses, and the block is found
in way 0 of its set afterwards. -/
theorem initCache_first_access :
    (accessBlock 4 (initCache (fun _ _ => used_block)) load_64 0).map
        (fun r => (r.2, findBlock r.1 64)) = some (false, some (1, 0)) := by
  decide

theorem blkAlign_63 (a : Nat) (ha : a < 2 ^ 64) : blkAlign a 63 = a / 64 * 64 := by
  have e : (2 ^ 64 - 1 - 63 : Nat) = (2 ^ 58 - 1) * 2 ^ 6 := by decide
  unfold blkAlign
  rw [e, and_field a 6 58, Nat.mod_eq_of_lt (by omega)]
  rfl

/-! ## stores past the end of data memory -/

/-- `tick_func` is `tick_func_with` at the memory stage `memory_access`. -/
theorem tick_func_with_memory_access (u : indeterminate_t) (core : core_t) :
    tick_func_with memory_access u core = tick_func u core := rfl

/-- `memory_access_struct` extends `memory_access`. -/
theorem memory_access_struct_extends (core : core_t) (ex_mem : EX_MEM_t) (mem_wb : MEM_WB_t)
    (r : core_t × MEM_WB_t) (h : memory_access core ex_mem mem_wb = some r) :
    memory_access_struct core ex_mem mem_wb = some r := by
  unfold memory_access_struct
  rw [h]

/-- `tick_func_struct` extends `tick_func`: a call that has a result with all accesses
inside `data_mem` has the same result on the object `struct core_s`. -/
theorem tick_func_struct_extends (u : indeterminate_t) (core : core_t) (r : core_t × Bool)
    (h : tick_func u core = some r) : tick_func_struct u core = some r := by
  unfold tick_func_struct
  rw [← tick_func_with_memory_access] at h
  unfold tick_func_with at h ⊢
  dsimp only at h ⊢
  cases hf : instruction_fetch core core.if_id with
  | none =>
    rw [hf] at h
    exact absurd h (by simp)
  | some p =>
    obtain ⟨c1, f1⟩ := p
    rw [hf] at h
    dsimp only at h ⊢
    split
    · rename_i hh
      rw [if_pos hh] at h
      exact h
    · rename_i hh
      rw [if_neg hh] at h
      split
      · rename_i hs
        rw [if_pos hs] at h
        exact h
      · rename_i hs
        rw [if_neg hs] at h
        split
        · rename_i hd
          rw [if_pos hd] at h
          exact h
        · rename_i hd
          rw [if_neg hd] at h
          split
          · rename_i he
            rw [if_pos he] at h
            exact h
          · rename_i he
            rw [if_neg he] at h
            cases hm : memory_access
                (execute u (detect_and_forward
                  (instruction_decode u (hazard_detection_unit c1 f1 c1.id_ex) f1
                    core.id_ex).1)
                  (instruction_decode u (hazard_detection_unit c1 f1 c1.id_ex) f1
                    core.id_ex).2 core.ex_mem).1
                (execute u (detect_and_forward
                  (instruction_decode u (hazard_detection_unit c1 f1 c1.id_ex) f1
                    core.id_ex).1)
                  (instruction_decode u (hazard_detection_unit c1 f1 c1.id_ex) f1
                    core.id_ex).2 core.ex_mem).2 core.mem_wb with
            | none =>
              rw [hm] at h
              exact absurd h (by simp)
            | some q =>
              rw [hm] at h
              rw [memory_access_struct_extends _ _ _ q hm]
              exact h

/-- The words of the three programs with a store behind `data_mem`, as the loader of
parser.c prints them. -/
theorem store_program_words :
    parse_S_type 2 1 1024 0 = 1074798627 ∧ parse_S_type 2 1 1028 0 = 1074799139 ∧
      parse_S_type 2 5 1280 0 = 1347428387 ∧ parse_I_type 19 0 1 0 5 = 5243027 ∧
      parse_I_type 19 0 5 0 1 = 1049235 ∧ parse_I_type 19 0 6 0 1 = 1049363 := by
  decide

/-- On a core with `halt` set, `stall` clear and `PC` at the address of a loaded instruction,
`tick_func` fetches that instruction, advances `PC` by 4 and returns `false`: the first test
of `halt` follows `instruction_fetch`, which does not look at `halt`. -/
theorem tick_func_halted_fetch (u : indeterminate_t) (core : core_t)
    (hh : core.halt = true) (hs : core.stall = 0) (ha : core.PC % 4 = 0)
    (hlt : core.PC / 4 < core.instr_mem.length) :
    tick_func u core = some ({ core with PC := core.PC + 4 }, false) := by
  obtain ⟨ins, _, hf⟩ := instruction_fetch_ok core core.if_id hs ha hlt
  exact tick_func_halt u core _ _ hf hh

/-- C10 (evaluation at the failing input): the program `addi x1,x0,5`; `sw x1,1024(x0)`, with
the indeterminate values fixed at 0 (both calls are determinate: neither consumes one). The
first call of `tick_func` returns `true` with register 0 equal to 0 and register 1 equal to
5. In the second call `execute` hands `memory_access` a store of the value 5 to the address
1024 = `MEM_SIZE`, which the stage performs without a check: its eight bytes are the first
eight of the `8 * NUM_REGISTERS` bytes behind `data_mem`, where core.h declares `reg_file`.
On the object `struct core_s` the call ends the run (it returns `false` with `halt` clear)
and leaves register 0 equal to 5. -/
theorem sw_1024_run :
    (tick_func { imm := 0, alu_ctrl := 0 } addi_sw_1024_core).map
        (fun r => (r.2, r.1.reg_file 0, r.1.reg_file 1,
          tick_ex_mem { imm := 0, alu_ctrl := 0 } r.1)) =
      some (true, 0, 5,
        some { alu_result := 1024, rs2 := 5, rd := 0, zero := 0, control := store_control }) ∧
      (MEM_SIZE ≤ 1024 ∧ 1024 + 8 ≤ MEM_SIZE + 8 * NUM_REGISTERS) ∧
      (tick_determinate addi_sw_1024_core = true ∧
        tick_determinate (after_first_call addi_sw_1024_core) = true) ∧
      (tick_func_struct { imm := 0, alu_ctrl := 0 } (after_first_call addi_sw_1024_core)).map
          (fun r => (r.2, r.1.PC, r.1.halt, r.1.reg_file 0, r.1.reg_file 1)) =
        some (false, 8, false, 5, 5) := by
  refine ⟨by decide, by decide, by decide, by decide⟩

/-- C35 (evaluation at the failing input): the program `addi x1,x0,5`; `sw x1,1028(x0)`, with
the indeterminate values fixed at 0 (both calls are determinate: neither consumes one). The
first call of `tick_func` returns `true` with register 0 equal to 0 and register 1 equal to
5. In the second call `execute` hands `memory_access` a store of the value 5 to the address
1028 = `MEM_SIZE + 4`, which the stage performs without a check: its eight bytes are the
upper half of register 0 and the lower half of register 1 in the `8 * NUM_REGISTERS` bytes
behind `data_mem`, where core.h declares `reg_file`. On the object `struct core_s` the call
ends the run (it returns `false` with `halt` clear) and leaves register 0 equal to
`5 * 2 ^ 32`, which is not below `2 ^ 32`, and register 1 equal to 0. -/
theorem sw_1028_run :
    (tick_func { imm := 0, alu_ctrl := 0 } addi_sw_1028_core).map
        (fun r => (r.2, r.1.reg_file 0, r.1.reg_file 1,
          tick_ex_mem { imm := 0, alu_ctrl := 0 } r.1)) =
      some (true, 0, 5,
        some { alu_result := 1028, rs2 := 5, rd := 4, zero := 0, control := store_control }) ∧
      (MEM_SIZE + 4 = 1028 ∧ 1028 + 8 ≤ MEM_SIZE + 8 * NUM_REGISTERS) ∧
      (tick_determinate addi_sw_1028_core = true ∧
        tick_determinate (after_first_call addi_sw_1028_core) = true) ∧
      (tick_func_struct { imm := 0, alu_ctrl := 0 } (after_first_call addi_sw_1028_core)).map
          (fun r => (r.2, r.1.PC, r.1.halt, r.1.reg_file 0, r.1.reg_file 1,
            decide (r.1.reg_file 0 < 2 ^ 32))) =
        some (false, 8, false, 5 * 2 ^ 32, 0, false) := by
  refine ⟨by decide, by decide, by decide, by decide⟩

/-- C14 (evaluation at the failing input): the program `addi x5,x0,1`; `sw x5,1280(x0)`;
`addi x6,x0,1`, with the indeterminate values fixed at 0 (the first two calls are
determinate: neither consumes one, and the third returns right after the fetch). The first
call of `tick_func` returns `true` with `halt` clear and register 5 equal to 1. In the
second call `execute` hands `memory_access` a store of the value 1 to the address
1280 = `MEM_SIZE + 8 * NUM_REGISTERS`, which the stage performs without a check: the byte
at that offset from `data_mem` is the member `halt` of core.h. On the object
`struct core_s` the call returns `false` at the test of `halt` that follows
`memory_access`, with `halt` set, `stall` clear, `PC` at 8 (the address of the third
instruction) and the clock still at 1. A third call of `tick_func` on that core returns
`false` again, but it has fetched the third instruction and moved `PC` from 8 to 12. -/
theorem sw_1280_run :
    (tick_func { imm := 0, alu_ctrl := 0 } addi_sw_1280_core).map
        (fun r => (r.2, r.1.PC, r.1.halt, r.1.reg_file 5,
          tick_ex_mem { imm := 0, alu_ctrl := 0 } r.1)) =
      some (true, 4, false, 1,
        some { alu_result := 1280, rs2 := 1, rd := 0, zero := 0, control := store_control }) ∧
      MEM_SIZE + 8 * NUM_REGISTERS = 1280 ∧
      (tick_determinate addi_sw_1280_core = true ∧
        tick_determinate (after_first_call addi_sw_1280_core) = true) ∧
      (tick_func_struct { imm := 0, alu_ctrl := 0 } (after_first_call addi_sw_1280_core)).map
          (fun r => (r.2, r.1.PC, r.1.halt, r.1.stall, r.1.clk, r.1.instr_mem.length)) =
        some (false, 8, true, 0, 1, 3) ∧
      (tick_func_struct { imm := 0, alu_ctrl := 0 } (after_first_call addi_sw_1280_core)).bind
          (fun r => (tick_func { imm := 0, alu_ctrl := 0 } r.1).map
            (fun r' => (r'.2, r'.1.PC, r'.1.halt, r'.1.clk))) =
        some (false, 12, true, 1) := by
  refine ⟨by decide, by decide, by decide, by decide, by decide⟩

end RiscV
